import Mathlib

/-!
# Request handling of the threaded HTTP server

A shallow embedding of `recv_all_headers`, `send_all`, `handle_client` and
`thread_func` of `Day-20_01-09-2025/HTTP/Task7/server1.c` (the Day-19 file
`server.c` is the same code with longer comments).

* A byte is a natural number (`Nat`); a C string is the part of an array before its
  first NUL (`cstr`).
* The socket is an explicit state `Sock`: the bytes the client still has to
  deliver, how the receives fragment them, how the sends are accepted, the
  bytes accepted so far (`wire`) and the log of socket calls.
* A function returns `none` when the C code would leave defined behaviour
  (a store or a load outside an array, signed overflow) or when the fuel of
  a loop runs out; the theorems show that neither happens.
* What the program prints on standard output (raw request, method, path,
  `Host` value, POST body) is not part of the model: it never reaches the
  socket.
-/

namespace HttpServer

/-! ## Bytes, strings and integer conversions -/

/-- The bytes of an ASCII literal. -/
def bytes (s : String) : List Nat := s.toList.map Char.toNat

def BUF_SIZE : Nat := 4096

def POST_MAX : Nat := 4096

def INT_MAX : Nat := 2147483647

/-- The C string held by an array: the bytes before the first NUL. -/
def cstr (m : List Nat) : List Nat := m.takeWhile (fun c => c != 0)

/-- Conversion to a 32-bit `int` (two's complement wrap). -/
def to_int (x : Int) : Int := (x + 2147483648) % 4294967296 - 2147483648

/-- Conversion to a 64-bit `size_t`. -/
def to_size_t (x : Int) : Nat := (x % 18446744073709551616).toNat

/-- The value `strtol` yields on a 64-bit `long`: saturated at the ends. -/
def strtol_sat (x : Int) : Int :=
  if x > 9223372036854775807 then 9223372036854775807
  else if x < -9223372036854775808 then -9223372036854775808
  else x

/-- Store `data` into the array `m` from index `i` on; `none` when a byte
would land outside the array. -/
def poke (m : List Nat) (i : Nat) (data : List Nat) : Option (List Nat) :=
  if i + data.length ≤ m.length then
    some (m.take i ++ data ++ m.drop (i + data.length))
  else none

/-- The function `strstr`: the suffix of `hay` that starts at the first
occurrence of `needle`. -/
def strstr : List Nat → List Nat → Option (List Nat)
  | [], needle => if needle = [] then some [] else none
  | c :: cs, needle =>
    if needle.isPrefixOf (c :: cs) then some (c :: cs) else strstr cs needle

def CRLF : List Nat := [13, 10]

def CRLFCRLF : List Nat := [13, 10, 13, 10]

def isspace (c : Nat) : Bool := c == 32 || (9 ≤ c && c ≤ 13)

def isdigit (c : Nat) : Bool := 48 ≤ c && c ≤ 57

def tolower (c : Nat) : Nat := if 65 ≤ c ∧ c ≤ 90 then c + 32 else c

def skip_space (s : List Nat) : List Nat := s.dropWhile isspace

/-- What a `%ws` conversion stores once leading white space is skipped: the
bytes up to the next white space, at most `w` of them. -/
def scan_token (w : Nat) (s : List Nat) : List Nat :=
  (s.takeWhile (fun c => !isspace c)).take w

/-- Decimal rendering, as `%zu` prints it. -/
def fmt_digits : Nat → Nat → List Nat → List Nat
  | 0, _, acc => acc
  | fuel + 1, n, acc =>
    if n / 10 = 0 then (48 + n % 10) :: acc
    else fmt_digits fuel (n / 10) ((48 + n % 10) :: acc)

def fmt_zu (n : Nat) : List Nat := fmt_digits (n + 1) n []

/-- The value of a run of decimal digits. -/
def digits_value (ds : List Nat) : Nat :=
  ds.foldl (fun acc d => acc * 10 + (d - 48)) 0

/-- The call `snprintf(buf, size, ...)` for the formatted text `s`: the bytes
stored before the NUL and the value returned. -/
def snprintf (size : Nat) (s : List Nat) : List Nat × Nat :=
  (s.take (size - 1), s.length)

/-- The call `strncat(dst, src, n)` on C strings. -/
def strncat (dst src : List Nat) (n : Nat) : List Nat := dst ++ src.take n

/-- The test `strncasecmp(s1, s2, n) == 0` on C strings. -/
def strncasecmp_eq (s1 s2 : List Nat) (n : Nat) : Bool :=
  (s1.take n).map tolower == (s2.take n).map tolower

/-! ## The socket -/

inductive Ev where
  | recv (req : Nat) (ret : Int)
  | send (req : Nat) (ret : Int)
  | close
  deriving DecidableEq, Repr

/-- One accepted connection.  `inSched` fragments the receives: its head `c`
lets the next `recv` deliver at most `c + 1` bytes, and once it is used up
every `recv` delivers all it can.  `inErr` makes the end of the stream an
error (`-1`) instead of an orderly end (`0`).  `outSched` scripts the sends:
a head `r ≤ 0` makes the next `send` fail with `r`, a head `r > 0` lets it
accept at most `r` bytes, and once it is used up every `send` accepts all. -/
structure Sock where
  inData : List Nat
  inSched : List Nat
  inErr : Bool
  outSched : List Int
  wire : List Nat
  log : List Ev
  deriving DecidableEq, Repr

def Ev.is_recv : Ev → Bool
  | Ev.recv _ _ => true
  | _ => false

/-- The receives made on the socket so far. -/
def recv_calls (s : Sock) : List Ev := s.log.filter Ev.is_recv

/-- How many bytes the next `recv` of length `len` delivers. -/
def recv_count (s : Sock) (len : Nat) : Nat :=
  min (match s.inSched with
    | [] => len
    | c :: _ => c + 1) (min len s.inData.length)

/-- The call `recv(fd, p, len, 0)`: the value returned, the bytes stored at
`p`, and the socket afterwards.  As with the system call, the bytes
delivered are never more than `len`; the value is positive when bytes are
delivered, `0` at the end of the stream and `-1` on an error. -/
def recv (s : Sock) (len : Nat) : Int × List Nat × Sock :=
  let k := recv_count s len
  let ret : Int := if k = 0 then (if s.inData = [] ∧ s.inErr = true then -1 else 0) else k
  (ret, s.inData.take k,
    { s with inData := s.inData.drop k, inSched := s.inSched.tail,
             log := s.log ++ [Ev.recv len ret] })

/-- The call `send(fd, p, len, 0)` where `chunk` is the `len` bytes at `p`. -/
def send (s : Sock) (chunk : List Nat) : Int × Sock :=
  match s.outSched with
  | [] =>
    (chunk.length,
      { s with wire := s.wire ++ chunk,
               log := s.log ++ [Ev.send chunk.length chunk.length] })
  | r :: rest =>
    if r ≤ 0 then
      (r, { s with outSched := rest, log := s.log ++ [Ev.send chunk.length r] })
    else
      let n := min r.toNat chunk.length
      (n, { s with outSched := rest, wire := s.wire ++ chunk.take n,
                   log := s.log ++ [Ev.send chunk.length n] })

/-! ## recv_all_headers -/

/-- One turn of the loop of `recv_all_headers`: `total` before the receive,
the length requested and the value `n` received. -/
structure HdrStep where
  total : Nat
  req : Nat
  n : Int
  deriving DecidableEq, Repr

structure HdrResult where
  sock : Sock
  buf : List Nat
  total : Nat
  steps : List HdrStep
  deriving DecidableEq, Repr

def recv_headers_loop (size : Nat) :
    Nat → Sock → List Nat → Nat → List HdrStep → Option HdrResult
  | 0, _, _, _, _ => none
  | fuel + 1, s, buf, total, steps =>
    let req := to_size_t (to_int (to_size_t ((size : Int) - (total : Int) - 1)))
    let r := recv s req
    let n := to_int r.1
    let steps1 := steps ++ [HdrStep.mk total req n]
    if n > 0 then
      match poke buf total r.2.1 with
      | none => none
      | some buf1 =>
        let total1 := total + n.toNat
        if total1 > INT_MAX then none
        else
          match poke buf1 total1 [0] with
          | none => none
          | some buf2 =>
            if (strstr (cstr buf2) CRLFCRLF).isSome then
              some (HdrResult.mk r.2.2 buf2 total1 steps1)
            else if to_size_t total1 ≥ to_size_t ((size : Int) - 1) then
              some (HdrResult.mk r.2.2 buf2 total1 steps1)
            else recv_headers_loop size fuel r.2.2 buf2 total1 steps1
    else some (HdrResult.mk r.2.2 buf total steps1)

/-- The function `recv_all_headers(client_fd, buf, size)`.  Every turn that
goes on consumes a byte of the stream, so the fuel is enough. -/
def recv_all_headers (s : Sock) (buf : List Nat) (size : Nat) : Option HdrResult :=
  recv_headers_loop size (s.inData.length + 1) s buf 0 []

/-! ## send_all -/

def send_loop (data : List Nat) (len : Nat) : Nat → Sock → Nat → Option Sock
  | 0, _, _ => none
  | fuel + 1, s, sent =>
    if sent < len then
      if len > data.length then none
      else
        let r := send s ((data.drop sent).take (len - sent))
        if r.1 ≤ 0 then some r.2
        else send_loop data len fuel r.2 (sent + r.1.toNat)
    else some s

/-- The function `send_all(fd, data, len)`, where `data` is the whole object
the pointer refers to. -/
def send_all (s : Sock) (data : List Nat) (len : Nat) : Option Sock :=
  send_loop data len (len + 1) s 0

/-! ## Parsing -/

structure ReqLine where
  count : Int
  method : List Nat
  path : List Nat
  version : List Nat
  deriving DecidableEq, Repr

/-- The call `sscanf(reqbuf, "%15s %255s %15s", method, path, version)` on the
C string `input`; the three arrays start zeroed. -/
def sscanf_request_line (input : List Nat) : ReqLine :=
  let s0 := skip_space input
  if s0 = [] then ReqLine.mk (-1) [] [] []
  else
    let method := scan_token 15 s0
    let s1 := skip_space (s0.drop method.length)
    if s1 = [] then ReqLine.mk 1 method [] []
    else
      let path := scan_token 255 s1
      let s2 := skip_space (s1.drop path.length)
      if s2 = [] then ReqLine.mk 2 method path []
      else ReqLine.mk 3 method path (scan_token 15 s2)

/-- The query split: `strchr(path, 63)`, a NUL stored over the question mark,
`query` pointing behind it. -/
def split_query (path : List Nat) : List Nat × Option (List Nat) :=
  if 63 ∈ path then
    (path.takeWhile (fun c => c != 63), some ((path.dropWhile (fun c => c != 63)).drop 1))
  else (path, none)

/-- The call `sscanf(s, " %d", &x)`: the value stored, if one is. -/
def sscanf_d (s : List Nat) : Option Int :=
  let s1 := skip_space s
  let neg := s1.head? == some 45
  let s2 := if s1.head? == some 45 || s1.head? == some 43 then s1.drop 1 else s1
  let ds := s2.takeWhile isdigit
  if ds = [] then none
  else
    let v : Int := (digits_value ds : Nat)
    some (to_int (strtol_sat (if neg then -v else v)))

/-- The loop that scans the header lines for `Content-Length:`. -/
def scan_content_length : Nat → List Nat → Int → Option Int
  | 0, _, _ => none
  | fuel + 1, scan, cl =>
    if scan = [] then some cl
    else
      let line_end := strstr scan CRLF
      let line_len := match line_end with
        | some e => scan.length - e.length
        | none => scan.length
      if line_len = 0 then some cl
      else
        let cl1 :=
          if strncasecmp_eq scan (bytes "Content-Length:") 15 then
            match sscanf_d (scan.drop 15) with
            | some v => v
            | none => cl
          else cl
        match line_end with
        | none => some cl1
        | some e =>
          if CRLF.isPrefixOf (e.drop 2) then some cl1
          else scan_content_length fuel (e.drop 2) cl1

/-! ## The POST body -/

structure BodyResult where
  sock : Sock
  body_data : List Nat
  already_have : Nat
  counts : List Nat
  deriving DecidableEq, Repr

/-- The loop that receives the rest of the body; `counts` collects the
values `already_have` takes. -/
def recv_body_loop : Nat → Sock → List Nat → Nat → Int → List Nat → Option BodyResult
  | 0, _, _, _, _, _ => none
  | fuel + 1, s, body_data, already_have, remaining, counts =>
    if remaining > 0 then
      let r := recv s (to_size_t remaining)
      if r.1 ≤ 0 then some (BodyResult.mk r.2.2 body_data already_have counts)
      else
        match poke body_data already_have r.2.1 with
        | none => none
        | some bd =>
          let a := already_have + (to_int r.1).toNat
          recv_body_loop fuel r.2.2 bd a (remaining - to_int r.1) (counts ++ [a])
    else some (BodyResult.mk s body_data already_have counts)

/-- Lines 111 to 142 of `handle_client`: clamp the declared length, copy the
look-ahead bytes of `reqbuf`, receive the rest, store the final NUL. -/
def assemble_body (req : List Nat) (content_length : Int) (s : Sock) : Option BodyResult :=
  let cl0 := if content_length < 0 then 0 else content_length
  let cl := if cl0 > (POST_MAX : Int) then (POST_MAX : Int) else cl0
  let body_data := List.replicate (POST_MAX + 1) 0
  let copied : Option (List Nat × Nat) :=
    match strstr req CRLFCRLF with
    | some p =>
      let body_start := p.drop 4
      let avail := if to_int body_start.length > cl then to_size_t cl else body_start.length
      (poke body_data 0 (body_start.take avail)).map (fun bd => (bd, (to_int avail).toNat))
    | none => some (body_data, 0)
  match copied with
  | none => none
  | some (bd, already_have) =>
    let remaining := cl - already_have
    match recv_body_loop (remaining.toNat + 1) s bd already_have remaining [already_have] with
    | none => none
    | some r => (poke r.body_data r.already_have [0]).map
        (fun bd1 => BodyResult.mk r.sock bd1 r.already_have r.counts)

/-! ## Responses -/

def BAD_REQUEST : List Nat := bytes "HTTP/1.1 400 Bad Request\r\nConnection: close\r\n\r\n"

def METHOD_NOT_ALLOWED : List Nat :=
  bytes "HTTP/1.1 405 Method Not Allowed\r\nContent-Type: text/plain\r\nConnection: close\r\n\r\n405 - Method Not Allowed"

/-- The header block both 200 answers format, for a body of `n` bytes. -/
def ok_header (n : Nat) : List Nat :=
  bytes "HTTP/1.1 200 OK\r\nContent-Length: " ++ fmt_zu n ++
    bytes "\r\nContent-Type: text/plain\r\nConnection: close\r\n\r\n"

def POST_LABEL : List Nat := bytes "Received POST data:\n"

/-- The array `body` after the GET routing block; `clock` is the string
`ctime(&now)` returns. -/
def get_body (path : List Nat) (query : Option (List Nat)) (clock : List Nat) : List Nat :=
  if path = bytes "/hello" then (snprintf 1024 (bytes "Hello Student!")).1
  else if path = bytes "/time" then (snprintf 1024 (bytes "Current Time: " ++ cstr clock)).1
  else
    let body := (snprintf 1024 (bytes "Unknown Path!")).1
    match query with
    | none => body
    | some q =>
      let b1 := strncat body (bytes "\nQuery=") (1024 - body.length - 1)
      strncat b1 q (1024 - b1.length - 1)

/-- The POST branch of `handle_client` (lines 94 to 166). -/
def handle_post (req : List Nat) (s : Sock) : Option Sock :=
  match scan_content_length (req.length + 1) req 0 with
  | none => none
  | some content_length =>
    match assemble_body req content_length s with
    | none => none
    | some b =>
      let body := cstr b.body_data
      let header := snprintf 256 (ok_header (20 + body.length))
      match send_all b.sock (header.1 ++ [0]) header.2 with
      | none => none
      | some s1 =>
        let body_msg := snprintf (POST_MAX + 64) (POST_LABEL ++ body)
        send_all s1 (body_msg.1 ++ [0]) body_msg.2

/-- The GET branch of `handle_client` (lines 168 to 195). -/
def handle_get (path : List Nat) (query : Option (List Nat)) (clock : List Nat)
    (s : Sock) : Option Sock :=
  let body := get_body path query clock
  let resp := snprintf 2048 (ok_header body.length ++ body)
  send_all s (resp.1 ++ [0]) resp.2

/-- Lines 47 to 196 of `handle_client`: all that follows the header read. -/
def handle_request (reqbuf : List Nat) (s : Sock) (clock : List Nat) : Option Sock :=
  let req := cstr reqbuf
  let line := sscanf_request_line req
  if line.count ≠ 3 then send_all s (BAD_REQUEST ++ [0]) BAD_REQUEST.length
  else
    let pq := split_query line.path
    if line.method ≠ bytes "GET" ∧ line.method ≠ bytes "POST" then
      send_all s (METHOD_NOT_ALLOWED ++ [0]) METHOD_NOT_ALLOWED.length
    else if line.method = bytes "POST" then handle_post req s
    else handle_get pq.1 pq.2 clock s

/-- The function `handle_client(client_fd)`. -/
def handle_client (s : Sock) (clock : List Nat) : Option Sock :=
  match recv_all_headers s (List.replicate BUF_SIZE 0) BUF_SIZE with
  | none => none
  | some r => handle_request r.buf r.sock clock

/-- The function `thread_func`: serve the client, then close the descriptor. -/
def thread_func (s : Sock) (clock : List Nat) : Option Sock :=
  (handle_client s clock).map (fun s1 => { s1 with log := s1.log ++ [Ev.close] })

/-- A client that delivers `data` and accepts every send in full; `sched`
fragments the receives. -/
def client (data : List Nat) (sched : List Nat) : Sock :=
  Sock.mk data sched false [] [] []

/-! ## Vocabulary of the statements -/

/-- No send on this socket fails. -/
def accepts (s : Sock) : Prop := ∀ r ∈ s.outSched, 0 < r

instance (s : Sock) : Decidable (accepts s) := by
  unfold accepts; infer_instance

/-- A token that fits a field of width `w`: not empty, at most `w` bytes,
none of them NUL or white space. -/
def is_token (w : Nat) (t : List Nat) : Prop :=
  t ≠ [] ∧ t.length ≤ w ∧ ∀ c ∈ t, c ≠ 0 ∧ isspace c = false

instance (w : Nat) (t : List Nat) : Decidable (is_token w t) := by
  unfold is_token; infer_instance

/-- The declared length once clamped to the range from 0 to `POST_MAX`. -/
def clamp_length (content_length : Int) : Nat :=
  if content_length < 0 then 0
  else if content_length > 4096 then 4096
  else content_length.toNat

/-- The look-ahead body bytes of the request buffer that are copied: those
behind the first CRLFCRLF, at most `cl` of them. -/
def look_ahead (req : List Nat) (cl : Nat) : List Nat :=
  match strstr req CRLFCRLF with
  | some p => (p.drop 4).take cl
  | none => []

/-- The bytes the POST answer echoes: the C string made of the look-ahead
bytes and of what the stream `d` delivers up to the declared length `v`. -/
def post_echo (req : List Nat) (v : Int) (d : List Nat) : List Nat :=
  cstr (look_ahead req (clamp_length v)
    ++ d.take (clamp_length v - (look_ahead req (clamp_length v)).length))

/-- The bytes of a POST request with the header line `Content-Length: n`,
followed by the body bytes `x`. -/
def post_shape (path : List Nat) (n : Nat) (x : List Nat) : List Nat :=
  bytes "POST" ++ 32 :: (path ++ 32 :: (bytes "HTTP/1.1" ++ 13 :: 10 ::
    (bytes "Content-Length:" ++ 32 :: (fmt_zu n ++ 13 :: 10 :: 13 :: 10 :: x))))

/-- The request target made of a path and, when there is one, of a question
mark and a query. -/
def request_target (path : List Nat) (query : Option (List Nat)) : List Nat :=
  match query with
  | none => path
  | some q => path ++ 63 :: q

/-- The 200 answer that carries `body`. -/
def ok_response (body : List Nat) : List Nat := ok_header body.length ++ body

/-- The bytes on the wire once `handle_client` has returned; `none` if it
does not return in a defined way. -/
def wire_after (s : Sock) (clock : List Nat) : Option (List Nat) :=
  (handle_client s clock).map (fun s1 => s1.wire)

/-- The C string in `reqbuf` once `recv_all_headers` has returned. -/
def received (s : Sock) : Option (List Nat) :=
  (recv_all_headers s (List.replicate BUF_SIZE 0) BUF_SIZE).map (fun r => cstr r.buf)

/-- The socket once `recv_all_headers` has returned. -/
def after_headers (s : Sock) : Option Sock :=
  (recv_all_headers s (List.replicate BUF_SIZE 0) BUF_SIZE).map (fun r => r.sock)

def tokens_aux : List Nat → List Nat → List (List Nat)
  | cur, [] => if cur = [] then [] else [cur]
  | cur, c :: cs =>
    if isspace c then
      (if cur = [] then tokens_aux [] cs else cur :: tokens_aux [] cs)
    else tokens_aux (cur ++ [c]) cs

/-- The tokens of a C string: its maximal runs of bytes that are not white
space, in order. -/
def tokens (s : List Nat) : List (List Nat) := tokens_aux [] s

/-- One turn of `recv_all_headers` stays within a buffer of `size` bytes:
`total` is at most `size - 1` before and after it, and the receive asks for
no more than the room left before the last byte. -/
def step_in_bounds (size : Nat) (st : HdrStep) : Prop :=
  st.total ≤ size - 1 ∧ st.req ≤ size - st.total - 1 ∧ st.n ≤ (st.req : Int)
    ∧ st.total + st.n.toNat ≤ size - 1

instance (size : Nat) (st : HdrStep) : Decidable (step_in_bounds size st) := by
  unfold step_in_bounds; infer_instance

/-- An HTTP message: the status line, the header lines, an empty line, the
body; every line is closed by CRLF. -/
def http_message (status_line : List Nat) (headers : List (List Nat)) (body : List Nat) :
    List Nat :=
  status_line ++ CRLF ++ (headers.map (fun h => h ++ CRLF)).flatten ++ CRLF ++ body

/-- The turns of the loop of `recv_all_headers` on the buffer of 4096 bytes,
for a stream that delivers `d` in all and with `t` bytes received before the
first of them.  Every turn asks for the room left.  Every turn but the last
receives bytes that neither complete a CRLFCRLF among the bytes accumulated
nor fill the buffer; the last turn receives nothing (end of stream, error),
or completes the first CRLFCRLF, or fills the 4095 usable bytes. -/
def turns_ok (d : List Nat) : Nat → List HdrStep → Prop
  | _, [] => False
  | t, st :: rest =>
    st.total = t ∧ st.req = 4095 - t ∧
    (if rest = [] then
      st.n ≤ 0 ∨ (0 < st.n ∧ (CRLFCRLF <:+: d.take (t + st.n.toNat) ∨ t + st.n.toNat = 4095))
    else
      0 < st.n ∧ ¬ (CRLFCRLF <:+: d.take (t + st.n.toNat)) ∧ t + st.n.toNat < 4095
        ∧ turns_ok d (t + st.n.toNat) rest)

instance turns_ok_decidable (d : List Nat) :
    ∀ (t : Nat) (turns : List HdrStep), Decidable (turns_ok d t turns)
  | _, [] => isFalse (fun h => h)
  | t, st :: rest =>
    have := turns_ok_decidable d (t + st.n.toNat) rest
    by unfold turns_ok; exact inferInstance

/-- The number of bytes the turns received. -/
def received_count (turns : List HdrStep) : Nat :=
  (turns.map (fun st => st.n.toNat)).sum

/-- Whether the event is a call of `send`. -/
def Ev.is_send : Ev → Bool
  | Ev.send _ _ => true
  | _ => false

/-- Whether `handle_client` on this client reaches the call of `ctime` of
line 175: the buffer read parses into three tokens, the method is GET and
the path is "/time". -/
def reaches_ctime (s : Sock) : Bool :=
  match recv_all_headers s (List.replicate BUF_SIZE 0) BUF_SIZE with
  | none => false
  | some r =>
    let line := sscanf_request_line (cstr r.buf)
    decide (line.count = 3 ∧ line.method = bytes "GET"
      ∧ (split_query line.path).1 = bytes "/time")

/-- One connection worker (a thread running `thread_func`): its client, the
text `ctime` builds for the value of `time(NULL)` this worker reads, whether
it has passed the call of `ctime`, and its socket once it has returned. -/
structure Worker where
  sock : Sock
  now_text : List Nat
  called : Bool
  result : Option Sock

/-- Two workers of one process.  `ctime_buf` is the static array of the C
library in which `ctime` builds its text and whose address it returns: one
array for the whole process (C11 7.27.3, and POSIX: `ctime` need not be
thread-safe and its result may be overwritten by later calls). -/
structure Process where
  ctime_buf : List Nat
  a : Worker
  b : Worker

/-- A worker that has not started. -/
def Worker.start (s : Sock) (now_text : List Nat) : Worker :=
  Worker.mk s now_text false none

/-- One step of a worker, given the shared array; the new array and worker.
The first step is `handle_client` up to the return from `ctime` (line 175,
evaluation of the last argument of `snprintf`): when the request reaches it,
`ctime` writes its text to the shared array.  The second step is the rest of
`thread_func`: `snprintf` reads the text through the pointer `ctime` returned,
that is, the array as it is then.  The receives and sends of a worker touch
only its own socket, so where they fall among the steps of the other worker
makes no difference and they are all done in the second step. -/
def Worker.step (buf : List Nat) (w : Worker) : List Nat × Worker :=
  if w.called = false then
    (if reaches_ctime w.sock then w.now_text else buf, { w with called := true })
  else if w.result.isNone then (buf, { w with result := thread_func w.sock buf })
  else (buf, w)

/-- One step of the process: `false` schedules worker `a`, `true` worker `b`. -/
def Process.step (p : Process) (who : Bool) : Process :=
  if who then
    let r := p.b.step p.ctime_buf
    { p with ctime_buf := r.1, b := r.2 }
  else
    let r := p.a.step p.ctime_buf
    { p with ctime_buf := r.1, a := r.2 }

/-- The process after a schedule of worker steps. -/
def Process.run (p : Process) (schedule : List Bool) : Process :=
  schedule.foldl Process.step p

/-- The bytes a worker has sent to its client when it has returned. -/
def Worker.sent (w : Worker) : Option (List Nat) := w.result.map (fun s => s.wire)

/-- The bytes sent to the client when its connection is served alone. -/
def served_alone (s : Sock) (now_text : List Nat) : Option (List Nat) :=
  (thread_func s now_text).map (fun s1 => s1.wire)

/-- The value a logged socket call returned (`0` for `close`). -/
def Ev.ret : Ev → Int
  | Ev.recv _ r => r
  | Ev.send _ r => r
  | Ev.close => 0

/-- The value the Content-Length scan of the POST branch leaves in
`content_length` on the request buffer `req` (lines 96 to 109). -/
def declared_length (req : List Nat) : Option Int :=
  scan_content_length (req.length + 1) req 0

/-- A header block: every line is closed by CRLF. -/
def header_block (lines : List (List Nat)) : List Nat :=
  (lines.map (fun l => l ++ CRLF)).flatten

/-- What one header line `l`, taken by itself, makes of `content_length`: a
line whose first 15 bytes match `Content-Length:` in any letter case stores
the number read behind them, if there is one. -/
def scan_line (cl : Int) (l : List Nat) : Int :=
  if strncasecmp_eq l (bytes "Content-Length:") 15 then (sscanf_d (l.drop 15)).getD cl
  else cl

/-- A header line as the scan expects it: not empty, without a carriage
return, and, when it is a Content-Length line, with a value that holds a
byte other than white space. -/
def header_line_ok (l : List Nat) : Prop :=
  l ≠ [] ∧ (∀ c ∈ l, c ≠ 13)
    ∧ (strncasecmp_eq l (bytes "Content-Length:") 15 = true →
        ∃ c ∈ l.drop 15, isspace c = false)

instance (l : List Nat) : Decidable (header_line_ok l) := by
  unfold header_line_ok; infer_instance

/-- A header value that does not start with a number: its first byte is
neither white space nor a digit, and when it is a sign the byte behind it
is no digit. -/
def no_number (word : List Nat) : Prop :=
  match word with
  | [] => False
  | c :: rest => isspace c = false ∧ isdigit c = false
      ∧ ((c = 45 ∨ c = 43) → ∀ d ∈ rest.head?, isdigit d = false)

instance (word : List Nat) : Decidable (no_number word) := by
  unfold no_number; split <;> infer_instance

/-- A header value that is a negative number in the range of `int` (or
`-0`): a minus sign and then decimal digits only, of a value up to 2^31. -/
def negative_number (word : List Nat) : Prop :=
  word.head? = some 45 ∧ word.tail ≠ [] ∧ (∀ d ∈ word.tail, isdigit d = true)
    ∧ digits_value word.tail ≤ 2147483648

instance (word : List Nat) : Decidable (negative_number word) := by
  unfold negative_number; infer_instance

/-- A word of a request line: not empty, without NUL and without white
space. -/
def is_word (t : List Nat) : Prop := t ≠ [] ∧ ∀ c ∈ t, c ≠ 0 ∧ isspace c = false

instance (t : List Nat) : Decidable (is_word t) := by
  unfold is_word; infer_instance

/-- The request line `POST <target> <version>`. -/
def post_line (target version : List Nat) : List Nat :=
  bytes "POST" ++ 32 :: (target ++ 32 :: version)

/-- A header line of a request: well formed for the scan and without NUL. -/
def request_header_ok (l : List Nat) : Prop := header_line_ok l ∧ ∀ c ∈ l, c ≠ 0

instance (l : List Nat) : Decidable (request_header_ok l) := by
  unfold request_header_ok; infer_instance

/-- The bytes of a POST request: the request line, the header lines, the
empty line and the bytes `x` behind it. -/
def post_request (target version : List Nat) (lines : List (List Nat)) (x : List Nat) :
    List Nat :=
  header_block (post_line target version :: lines) ++ (CRLF ++ x)

/-- The request line, the header lines and the empty line fit the 4095 bytes
that `recv_all_headers` can store in `reqbuf`. -/
def fits_reqbuf (target version : List Nat) (lines : List (List Nat)) : Prop :=
  (post_request target version lines []).length ≤ BUF_SIZE - 1

instance (target version : List Nat) (lines : List (List Nat)) :
    Decidable (fits_reqbuf target version lines) := by
  unfold fits_reqbuf; infer_instance

/-! ## Basic facts: C strings, stores, conversions -/

theorem cstr_append_of_nul_free (a b : List Nat) (h : ∀ c ∈ a, c ≠ 0) :
    cstr (a ++ b) = a ++ cstr b := by
  unfold cstr
  apply List.takeWhile_append_of_pos
  intro c hc
  simpa using h c hc

theorem cstr_zero_cons (m : List Nat) : cstr (0 :: m) = [] := by
  simp [cstr]

theorem cstr_replicate_zero (n : Nat) : cstr (List.replicate n 0) = [] := by
  cases n with
  | zero => simp [cstr]
  | succ k => simp [List.replicate_succ, cstr]

theorem cstr_nul_free (m : List Nat) : ∀ c ∈ cstr m, c ≠ 0 := by
  intro c hc
  have := List.mem_takeWhile_imp hc
  simpa using this

theorem mem_of_mem_cstr (m : List Nat) (c : Nat) (h : c ∈ cstr m) : c ∈ m :=
  (List.takeWhile_sublist _).subset h

theorem cstr_length_le (m : List Nat) : (cstr m).length ≤ m.length := by
  unfold cstr
  exact (List.takeWhile_sublist _).length_le

theorem cstr_of_nul_free (a : List Nat) (h : ∀ c ∈ a, c ≠ 0) : cstr a = a := by
  have := cstr_append_of_nul_free a [] h
  simpa [cstr] using this

theorem cstr_append_zeros (a : List Nat) (n : Nat) :
    cstr (a ++ List.replicate (n + 1) 0) = cstr a := by
  induction a with
  | nil => simp [cstr_replicate_zero, cstr]
  | cons c cs ih =>
    by_cases hc : c = 0
    · subst hc; simp [cstr]
    · simp only [List.cons_append, cstr] at ih ⊢
      simp [List.takeWhile_cons, hc, ih]

theorem poke_length (m : List Nat) (i : Nat) (data m1 : List Nat)
    (h : poke m i data = some m1) : m1.length = m.length := by
  unfold poke at h
  split at h
  · injection h with h
    subst h
    simp
    omega
  · cases h

theorem poke_isSome (m : List Nat) (i : Nat) (data : List Nat)
    (h : i + data.length ≤ m.length) :
    poke m i data = some (m.take i ++ data ++ m.drop (i + data.length)) := by
  simp [poke, h]

/-- Storing received bytes and the NUL behind them into a buffer that is
zero from `pre.length` on. -/
theorem poke_zero_tail (pre data : List Nat) (z : Nat) (h : data.length < z) :
    poke (pre ++ List.replicate z 0) pre.length data
      = some (pre ++ data ++ List.replicate (z - data.length) 0) := by
  rw [poke_isSome _ _ _ (by simp; omega)]
  have h1 : List.take pre.length (pre ++ List.replicate z 0) = pre := List.take_left _ _
  have h2 : List.drop (pre.length + data.length) (pre ++ List.replicate z 0)
      = List.replicate (z - data.length) 0 := by
    rw [List.drop_append]; simp
  rw [h1, h2]

theorem poke_nul_zero_tail (pre : List Nat) (z : Nat) (h : 0 < z) :
    poke (pre ++ List.replicate z 0) pre.length [0]
      = some (pre ++ List.replicate z 0) := by
  rw [poke_isSome]
  · have : List.drop (pre.length + 1) (pre ++ List.replicate z 0) = List.replicate (z - 1) 0 := by
      rw [List.drop_append]; simp
    simp only [List.length_singleton, this, List.take_left, List.append_assoc]
    congr 1
    obtain ⟨k, rfl⟩ : ∃ k, z = k + 1 := ⟨z - 1, by omega⟩
    simp [List.replicate_succ]
  · simp; omega

theorem to_int_small (k : Nat) (h : k ≤ 2147483647) : to_int (k : Int) = k := by
  simp only [to_int]; omega

theorem to_size_t_small (k : Nat) (h : k < 18446744073709551616) : to_size_t (k : Int) = k := by
  simp only [to_size_t]; omega

theorem recv_len_small (size total : Nat) (h1 : 1 ≤ size) (h2 : size ≤ 2147483648)
    (h : total ≤ size - 1) :
    to_size_t (to_int (to_size_t ((size : Int) - (total : Int) - 1))) = size - 1 - total := by
  simp only [to_size_t, to_int]; omega

/-! ## The socket calls -/

theorem recv_count_le_len (s : Sock) (len : Nat) : recv_count s len ≤ len := by
  unfold recv_count; omega

theorem recv_count_le_data (s : Sock) (len : Nat) : recv_count s len ≤ s.inData.length := by
  unfold recv_count; omega

theorem recv_count_pos (s : Sock) (len : Nat) (h1 : 0 < len) (h2 : 0 < s.inData.length) :
    0 < recv_count s len := by
  unfold recv_count
  cases s.inSched <;> simp <;> omega

theorem recv_fst_pos_iff (s : Sock) (len : Nat) :
    0 < (recv s len).1 ↔ 0 < recv_count s len := by
  simp only [recv]
  by_cases h : recv_count s len = 0
  · simp only [h, if_true]
    split <;> simp
  · simp only [h, if_false]
    omega

theorem recv_fst_of_pos (s : Sock) (len : Nat) (h : 0 < recv_count s len) :
    (recv s len).1 = (recv_count s len : Int) := by
  simp only [recv]
  rw [if_neg (by omega)]

theorem recv_data (s : Sock) (len : Nat) :
    (recv s len).2.1 = s.inData.take (recv_count s len) := rfl

theorem recv_inData (s : Sock) (len : Nat) :
    (recv s len).2.2.inData = s.inData.drop (recv_count s len) := rfl

theorem recv_inErr (s : Sock) (len : Nat) : (recv s len).2.2.inErr = s.inErr := rfl

theorem recv_outSched (s : Sock) (len : Nat) : (recv s len).2.2.outSched = s.outSched := rfl

theorem recv_wire (s : Sock) (len : Nat) : (recv s len).2.2.wire = s.wire := rfl

/-! ## recv_all_headers on the zeroed request buffer -/

theorem recv_headers_loop_spec (fuel : Nat) :
    ∀ (s : Sock) (pre : List Nat) (steps : List HdrStep),
    s.inData.length < fuel → pre.length ≤ 4095 →
    ∃ r k, recv_headers_loop 4096 fuel s (pre ++ List.replicate (4096 - pre.length) 0)
          pre.length steps = some r
      ∧ k ≤ s.inData.length ∧ pre.length + k ≤ 4095
      ∧ r.buf = pre ++ s.inData.take k ++ List.replicate (4096 - (pre.length + k)) 0
      ∧ r.total = pre.length + k
      ∧ r.sock.inData = s.inData.drop k ∧ r.sock.inErr = s.inErr
      ∧ r.sock.outSched = s.outSched ∧ r.sock.wire = s.wire
      ∧ ((strstr (cstr (pre ++ s.inData.take k)) CRLFCRLF).isSome = true
          ∨ k = s.inData.length ∨ pre.length + k = 4095) := by
  induction fuel with
  | zero => intro s pre steps hf; omega
  | succ fuel ih =>
    intro s pre steps hf hp
    have hreq : to_size_t (to_int (to_size_t (((4096 : Nat) : Int) - (pre.length : Int) - 1)))
        = 4095 - pre.length := by
      rw [recv_len_small 4096 pre.length (by omega) (by omega) (by omega)]
    rw [recv_headers_loop]
    simp only [hreq]
    by_cases hc : 0 < recv_count s (4095 - pre.length)
    · -- bytes arrive
      have hle := recv_count_le_len s (4095 - pre.length)
      have hld := recv_count_le_data s (4095 - pre.length)
      have hfst := recv_fst_of_pos s _ hc
      have hn : to_int (recv s (4095 - pre.length)).1 = (recv_count s (4095 - pre.length) : Int) := by
        rw [hfst, to_int_small _ (by omega)]
      have hlen : (List.take (recv_count s (4095 - pre.length)) s.inData).length
          = recv_count s (4095 - pre.length) := by
        rw [List.length_take]; omega
      have hpoke1 := poke_zero_tail pre (List.take (recv_count s (4095 - pre.length)) s.inData)
        (4096 - pre.length) (by rw [hlen]; omega)
      have hpoke2 := poke_nul_zero_tail (pre ++ List.take (recv_count s (4095 - pre.length)) s.inData)
        (4096 - pre.length - recv_count s (4095 - pre.length)) (by omega)
      rw [hlen] at hpoke1
      rw [List.length_append, hlen] at hpoke2
      simp only [hn, recv_data, hpoke1, Int.toNat_ofNat, hpoke2]
      generalize hcdef : recv_count s (4095 - pre.length) = c at *
      have hzeros : cstr (pre ++ List.take c s.inData ++ List.replicate (4096 - pre.length - c) 0)
          = cstr (pre ++ List.take c s.inData) := by
        obtain ⟨z, hz⟩ : ∃ z, 4096 - pre.length - c = z + 1 := ⟨4095 - pre.length - c, by omega⟩
        rw [hz, cstr_append_zeros]
      have h4 : to_size_t (((4096 : Nat) : Int) - 1) = 4095 := by decide
      have h5 : to_size_t ((pre.length + c : Nat) : Int) = pre.length + c :=
        to_size_t_small _ (by omega)
      rw [if_pos (by exact_mod_cast hc), if_neg (by unfold INT_MAX; omega), hzeros, h4, h5]
      have hsub : 4096 - pre.length - c = 4096 - (pre.length + c) := by omega
      have hin : (recv s (4095 - pre.length)).2.2.inData = List.drop c s.inData := by
        rw [recv_inData, hcdef]
      by_cases hterm : (strstr (cstr (pre ++ List.take c s.inData)) CRLFCRLF).isSome = true
      · rw [if_pos hterm]
        exact ⟨_, c, rfl, hld, by omega, by rw [hsub], rfl, hin, rfl, rfl, rfl, Or.inl hterm⟩
      · rw [if_neg hterm]
        by_cases hfull : pre.length + c ≥ 4095
        · rw [if_pos hfull]
          exact ⟨_, c, rfl, hld, by omega, by rw [hsub], rfl, hin, rfl, rfl, rfl,
            Or.inr (Or.inr (by omega))⟩
        · rw [if_neg hfull]
          have hpl : (pre ++ List.take c s.inData).length = pre.length + c := by
            rw [List.length_append, hlen]
          have := ih (recv s (4095 - pre.length)).2.2 (pre ++ List.take c s.inData)
            (steps ++ [HdrStep.mk pre.length (4095 - pre.length) (c : Int)])
            (by rw [hin, List.length_drop]; omega) (by rw [hpl]; omega)
          rw [hpl, ← hsub] at this
          obtain ⟨r, k, hr, hk1, hk2, hbuf, htot, hd, he, ho, hw, hstop⟩ := this
          rw [hin] at hk1 hd hstop hbuf
          rw [List.length_drop] at hk1 hstop
          have htake : List.take c s.inData ++ List.take k (List.drop c s.inData)
              = List.take (c + k) s.inData := by
            rw [List.take_add]
          refine ⟨r, c + k, hr, by omega, by omega, ?_, by omega, ?_, he, ho, hw, ?_⟩
          · rw [hbuf, List.append_assoc pre, htake, Nat.add_assoc]
          · rw [hd, List.drop_drop, Nat.add_comm]
          · rw [List.append_assoc pre, htake] at hstop
            rcases hstop with h | h | h
            · exact Or.inl h
            · exact Or.inr (Or.inl (by omega))
            · exact Or.inr (Or.inr (by omega))
    · -- end of stream, error, or nothing left to request
      have hc0 : recv_count s (4095 - pre.length) = 0 := by omega
      have hnp : ¬ (to_int (recv s (4095 - pre.length)).1 > 0) := by
        have h1 : ¬ (0 < (recv s (4095 - pre.length)).1) := by
          rw [recv_fst_pos_iff]; omega
        have h2 : (recv s (4095 - pre.length)).1 = 0 ∨ (recv s (4095 - pre.length)).1 = -1 := by
          simp only [recv, hc0, if_true]
          split <;> simp
        rcases h2 with h2 | h2 <;> rw [h2] <;> decide
      rw [if_neg hnp]
      refine ⟨_, 0, rfl, by omega, by omega, by simp, rfl, ?_, rfl, rfl, rfl, ?_⟩
      · rw [recv_inData, hc0]
      · by_cases hd : s.inData.length = 0
        · exact Or.inr (Or.inl hd.symm)
        · by_cases hl : 4095 - pre.length = 0
          · exact Or.inr (Or.inr (by omega))
          · exact absurd (recv_count_pos s _ (by omega) (by omega)) hc

theorem recv_all_headers_spec (s : Sock) :
    ∃ r k, recv_all_headers s (List.replicate BUF_SIZE 0) BUF_SIZE = some r
      ∧ k ≤ s.inData.length ∧ k ≤ 4095
      ∧ r.buf = s.inData.take k ++ List.replicate (4096 - k) 0
      ∧ r.total = k
      ∧ r.sock.inData = s.inData.drop k ∧ r.sock.inErr = s.inErr
      ∧ r.sock.outSched = s.outSched ∧ r.sock.wire = s.wire
      ∧ ((strstr (cstr (s.inData.take k)) CRLFCRLF).isSome = true
          ∨ k = s.inData.length ∨ k = 4095) := by
  obtain ⟨r, k, h1, h2, h3, h4, h5, h6, h7, h8, h9, h10⟩ :=
    recv_headers_loop_spec (s.inData.length + 1) s [] [] (by omega) (by simp)
  refine ⟨r, k, h1, h2, by simpa using h3, by simpa using h4, by simpa using h5,
    h6, h7, h8, h9, by simpa using h10⟩

/-- The C string in `reqbuf` after the header read is the C string of the
bytes received. -/
theorem cstr_reqbuf (d : List Nat) (k : Nat) (hk : k ≤ 4095) :
    cstr (d ++ List.replicate (4096 - k) 0) = cstr d := by
  obtain ⟨z, hz⟩ : ∃ z, 4096 - k = z + 1 := ⟨4095 - k, by omega⟩
  rw [hz, cstr_append_zeros]

/-! ## send_all towards a client that accepts bytes -/

theorem send_accepted (s : Sock) (D : List Nat) (hacc : accepts s) (hD : 0 < D.length) :
    ∃ n : Nat, 0 < n ∧ n ≤ D.length ∧ (send s D).1 = (n : Int)
      ∧ (send s D).2.wire = s.wire ++ D.take n
      ∧ (send s D).2.inData = s.inData ∧ (send s D).2.inSched = s.inSched
      ∧ (send s D).2.inErr = s.inErr ∧ accepts (send s D).2
      ∧ recv_calls (send s D).2 = recv_calls s := by
  unfold send
  cases hs : s.outSched with
  | nil =>
    refine ⟨D.length, hD, le_refl _, rfl, by simp, rfl, rfl, rfl, ?_, ?_⟩
    · intro r hr; simp [hs] at hr
    · simp [recv_calls, List.filter_append, Ev.is_recv]
  | cons r rest =>
    have hr : 0 < r := hacc r (by simp [hs])
    refine ⟨min r.toNat D.length, by omega, by omega, ?_, ?_, ?_, ?_, ?_, ?_, ?_⟩
    · simp only []; rw [if_neg (by omega)]
    · simp only []; rw [if_neg (by omega)]
    · simp only []; rw [if_neg (by omega)]
    · simp only []; rw [if_neg (by omega)]
    · simp only []; rw [if_neg (by omega)]
    · simp only []; rw [if_neg (by omega)]
      intro x hx
      exact hacc x (by rw [hs]; exact List.mem_cons_of_mem _ hx)
    · simp only []; rw [if_neg (by omega)]
      simp [recv_calls, List.filter_append, Ev.is_recv]

theorem send_loop_spec (data : List Nat) (len : Nat) (hlen : len ≤ data.length) (fuel : Nat) :
    ∀ (s : Sock) (sent : Nat), accepts s → sent ≤ len → len - sent < fuel →
    ∃ s1, send_loop data len fuel s sent = some s1
      ∧ s1.wire = s.wire ++ (data.take len).drop sent
      ∧ s1.inData = s.inData ∧ s1.inSched = s.inSched ∧ s1.inErr = s.inErr
      ∧ accepts s1 ∧ recv_calls s1 = recv_calls s := by
  induction fuel with
  | zero => intro s sent _ _ hf; omega
  | succ fuel ih =>
    intro s sent hacc hsent hf
    rw [send_loop]
    by_cases hlt : sent < len
    · rw [if_pos hlt, if_neg (by omega)]
      have hchunk : (data.drop sent).take (len - sent) = (data.take len).drop sent := by
        rw [List.drop_take]
      have hcl : ((data.take len).drop sent).length = len - sent := by
        rw [List.length_drop, List.length_take]; omega
      rw [hchunk]
      obtain ⟨n, hn0, hn1, hn, h3, h4, h5, h6, h7, h8⟩ :=
        send_accepted s ((data.take len).drop sent) hacc (by omega)
      simp only [hn, Int.toNat_ofNat]
      rw [if_neg (by omega)]
      obtain ⟨s1, hs1, hw, ha, hb, hc, hd, he⟩ := ih (send s ((data.take len).drop sent)).2
        (sent + n) h7 (by omega) (by omega)
      refine ⟨s1, hs1, ?_, by rw [ha, h4], by rw [hb, h5], by rw [hc, h6], hd, by rw [he, h8]⟩
      rw [hw, h3, List.append_assoc]
      congr 1
      rw [← List.drop_drop, List.take_append_drop]
    · rw [if_neg hlt]
      have : len ≤ sent := by omega
      refine ⟨s, rfl, ?_, rfl, rfl, rfl, hacc, rfl⟩
      rw [List.drop_eq_nil_of_le (by rw [List.length_take]; omega)]
      simp

/-- Towards a client that accepts bytes, `send_all` puts the first `len`
bytes of `data` on the wire and makes no receive. -/
theorem send_all_spec (s : Sock) (data : List Nat) (len : Nat) (hlen : len ≤ data.length)
    (hacc : accepts s) :
    ∃ s1, send_all s data len = some s1
      ∧ s1.wire = s.wire ++ data.take len
      ∧ s1.inData = s.inData ∧ s1.inSched = s.inSched ∧ s1.inErr = s.inErr
      ∧ accepts s1 ∧ recv_calls s1 = recv_calls s := by
  obtain ⟨s1, h1, h2, h3⟩ := send_loop_spec data len hlen (len + 1) s 0 hacc (by omega) (by omega)
  exact ⟨s1, h1, by simpa using h2, h3⟩

/-- Sending a text that is followed by its NUL in the array. -/
theorem send_all_text (s : Sock) (text : List Nat) (hacc : accepts s) :
    ∃ s1, send_all s (text ++ [0]) text.length = some s1
      ∧ s1.wire = s.wire ++ text
      ∧ s1.inData = s.inData ∧ s1.inSched = s.inSched ∧ s1.inErr = s.inErr
      ∧ accepts s1 ∧ recv_calls s1 = recv_calls s := by
  obtain ⟨s1, h1, h2, h3⟩ := send_all_spec s (text ++ [0]) text.length (by simp) hacc
  exact ⟨s1, h1, by simpa using h2, h3⟩

/-! ## Decimal rendering -/

theorem isdigit_iff (d : Nat) : isdigit d = true ↔ 48 ≤ d ∧ d ≤ 57 := by
  simp [isdigit]

theorem isspace_iff (c : Nat) : isspace c = true ↔ c = 32 ∨ (9 ≤ c ∧ c ≤ 13) := by
  simp [isspace]

theorem isspace_false_iff (c : Nat) : isspace c = false ↔ c ≠ 32 ∧ (c < 9 ∨ 13 < c) := by
  rw [← Bool.not_eq_true, isspace_iff]
  omega

theorem fmt_digits_isdigit (fuel : Nat) : ∀ (n : Nat) (acc : List Nat),
    (∀ d ∈ acc, isdigit d = true) → ∀ d ∈ fmt_digits fuel n acc, isdigit d = true := by
  induction fuel with
  | zero => intro n acc h; simpa [fmt_digits] using h
  | succ fuel ih =>
    intro n acc h
    have hd : isdigit (48 + n % 10) = true := by
      rw [isdigit_iff]; omega
    have hacc : ∀ d ∈ (48 + n % 10) :: acc, isdigit d = true := by
      intro d hmem
      rcases List.mem_cons.mp hmem with h1 | h1
      · rw [h1]; exact hd
      · exact h d h1
    rw [fmt_digits]
    split
    · exact hacc
    · exact ih _ _ hacc

theorem fmt_zu_isdigit (n : Nat) : ∀ d ∈ fmt_zu n, isdigit d = true :=
  fmt_digits_isdigit _ _ _ (by simp)

theorem fmt_digits_ne_nil (fuel : Nat) : ∀ (n : Nat) (acc : List Nat),
    0 < fuel → fmt_digits fuel n acc ≠ [] := by
  induction fuel with
  | zero => intro n acc h; omega
  | succ fuel ih =>
    intro n acc _
    rw [fmt_digits]
    split
    · simp
    · cases fuel with
      | zero => simp [fmt_digits]
      | succ f => exact ih _ _ (by omega)

theorem fmt_zu_ne_nil (n : Nat) : fmt_zu n ≠ [] := fmt_digits_ne_nil _ _ _ (by omega)

theorem fmt_digits_length (fuel : Nat) : ∀ (n k : Nat) (acc : List Nat),
    n < 10 ^ (k + 1) → (fmt_digits fuel n acc).length ≤ k + 1 + acc.length := by
  induction fuel with
  | zero => intro n k acc _; simp [fmt_digits]
  | succ fuel ih =>
    intro n k acc hn
    rw [fmt_digits]
    split
    · simp; omega
    · rename_i hne
      cases k with
      | zero => exact absurd (Nat.div_eq_of_lt (by simpa using hn)) hne
      | succ k =>
        have h1 : n / 10 < 10 ^ (k + 1) := by
          rw [Nat.div_lt_iff_lt_mul (by omega)]
          rw [pow_succ] at hn
          exact hn
        have := ih (n / 10) k ((48 + n % 10) :: acc) h1
        simp only [List.length_cons] at this
        omega

theorem fmt_zu_length (n k : Nat) (h : n < 10 ^ (k + 1)) : (fmt_zu n).length ≤ k + 1 := by
  simpa using fmt_digits_length (n + 1) n k [] h

theorem digits_value_foldl (l : List Nat) : ∀ init : Nat,
    List.foldl (fun acc d => acc * 10 + (d - 48)) init l
      = init * 10 ^ l.length + digits_value l := by
  induction l with
  | nil => intro init; simp [digits_value]
  | cons d l ih =>
    intro init
    simp only [digits_value, List.foldl_cons, List.length_cons]
    rw [ih (init * 10 + (d - 48)), ih (0 * 10 + (d - 48))]
    simp only [digits_value]
    ring

theorem digits_value_cons (d : Nat) (l : List Nat) :
    digits_value (d :: l) = (d - 48) * 10 ^ l.length + digits_value l := by
  have := digits_value_foldl l (0 * 10 + (d - 48))
  simpa [digits_value] using this

theorem fmt_digits_value (fuel : Nat) : ∀ (n : Nat) (acc : List Nat),
    n < fuel → digits_value (fmt_digits fuel n acc) = n * 10 ^ acc.length + digits_value acc := by
  induction fuel with
  | zero => intro n acc h; omega
  | succ fuel ih =>
    intro n acc hn
    rw [fmt_digits]
    split
    · rename_i h0
      rw [digits_value_cons]
      have : n % 10 = n := Nat.mod_eq_of_lt (by omega)
      simp [this]
    · rename_i hne
      have hlt : n / 10 < fuel := by omega
      rw [ih _ _ hlt, digits_value_cons]
      simp only [List.length_cons, Nat.add_sub_cancel_left, pow_succ]
      have h : n = 10 * (n / 10) + n % 10 := (Nat.div_add_mod n 10).symm
      conv_rhs => rw [h]
      ring

/-- Reading back the decimal text that `%zu` printed gives the number. -/
theorem digits_value_fmt_zu (n : Nat) : digits_value (fmt_zu n) = n := by
  have := fmt_digits_value (n + 1) n [] (by omega)
  simpa [fmt_zu, digits_value] using this

theorem isdigit_ne_zero (d : Nat) (h : isdigit d = true) : d ≠ 0 := by
  rw [isdigit_iff] at h; omega

theorem isdigit_not_space (d : Nat) (h : isdigit d = true) : isspace d = false := by
  rw [isdigit_iff] at h
  rw [isspace_false_iff]
  omega

theorem not_space_ne_cr (c : Nat) (h : isspace c = false) : c ≠ 13 := by
  rw [isspace_false_iff] at h; omega

/-! ## strstr -/

theorem strstr_isSome_iff (needle : List Nat) : ∀ hay : List Nat,
    (strstr hay needle).isSome = true ↔ needle <:+: hay := by
  intro hay
  induction hay with
  | nil =>
    rw [strstr]
    by_cases h : needle = []
    · simp [h]
    · simp [h]
  | cons c cs ih =>
    rw [strstr, List.infix_cons_iff]
    by_cases h : needle.isPrefixOf (c :: cs) = true
    · rw [if_pos h]
      simp only [Option.isSome_some, true_iff]
      exact Or.inl (List.isPrefixOf_iff_prefix.mp h)
    · rw [if_neg h, ih]
      constructor
      · exact Or.inr
      · rintro (h1 | h1)
        · exact absurd (List.isPrefixOf_iff_prefix.mpr h1) h
        · exact h1

theorem strstr_isSome_mono (needle l1 l2 : List Nat) (hp : l1 <+: l2)
    (h : (strstr l1 needle).isSome = true) : (strstr l2 needle).isSome = true := by
  rw [strstr_isSome_iff] at h ⊢
  obtain ⟨t, rfl⟩ := hp
  exact h.trans (List.prefix_append l1 t).isInfix

theorem strstr_skip (a r : List Nat) (h : Nat) (nt : List Nat) (ha : ∀ c ∈ a, c ≠ h) :
    strstr (a ++ r) (h :: nt) = strstr r (h :: nt) := by
  induction a with
  | nil => rfl
  | cons c cs ih =>
    have hc : c ≠ h := ha c (List.mem_cons_self _ _)
    have hne : (h == c) = false := by simpa using fun e => hc e.symm
    rw [List.cons_append, strstr]
    simp only [List.isPrefixOf, hne, Bool.false_and]
    exact ih (fun x hx => ha x (List.mem_cons_of_mem _ hx))

theorem strstr_at_needle (needle r : List Nat) :
    strstr (needle ++ r) needle = some (needle ++ r) := by
  cases hn : needle ++ r with
  | nil =>
    have : needle = [] := (List.append_eq_nil.mp hn).1
    simp [strstr, this]
  | cons c cs =>
    rw [strstr, if_pos]
    rw [← hn, List.isPrefixOf_iff_prefix]
    exact List.prefix_append _ _

theorem strstr_none_of_short (needle hay : List Nat) (h : hay.length < needle.length) :
    strstr hay needle = none := by
  cases hs : strstr hay needle with
  | none => rfl
  | some e =>
    have h1 : (strstr hay needle).isSome = true := by rw [hs]; rfl
    rw [strstr_isSome_iff] at h1
    have := h1.length_le
    omega

theorem strstr_length_le (needle : List Nat) : ∀ (hay e : List Nat),
    strstr hay needle = some e → e.length ≤ hay.length := by
  intro hay
  induction hay with
  | nil =>
    intro e h
    rw [strstr] at h
    split at h
    · injection h with h; rw [← h]
    · cases h
  | cons c cs ih =>
    intro e h
    rw [strstr] at h
    split at h
    · injection h with h; rw [← h]
    · have := ih e h
      simp only [List.length_cons]; omega

/-! ## The request-line parse -/

theorem skip_space_token (t r : List Nat) (hne : t ≠ []) (ht : ∀ c ∈ t, isspace c = false) :
    skip_space (t ++ r) = t ++ r := by
  cases t with
  | nil => exact absurd rfl hne
  | cons c cs =>
    have hc := ht c (List.mem_cons_self _ _)
    simp [skip_space, List.dropWhile_cons, hc]

theorem skip_space_cons (c : Nat) (r : List Nat) (hc : isspace c = true) :
    skip_space (c :: r) = skip_space r := by
  simp [skip_space, List.dropWhile_cons, hc]

theorem scan_token_append (w : Nat) (t r : List Nat) (c : Nat)
    (ht : ∀ x ∈ t, isspace x = false) (hw : t.length ≤ w) (hc : isspace c = true) :
    scan_token w (t ++ c :: r) = t := by
  unfold scan_token
  rw [List.takeWhile_append_of_pos (by intro x hx; simp [ht x hx])]
  rw [List.takeWhile_cons_of_neg (by simp [hc])]
  simp [List.take_of_length_le hw]

theorem sscanf_three_tokens (m p v tail : List Nat) (c : Nat)
    (hm : is_token 15 m) (hp : is_token 255 p) (hv : is_token 15 v) (hc : isspace c = true) :
    sscanf_request_line (m ++ 32 :: (p ++ 32 :: (v ++ c :: tail))) = ReqLine.mk 3 m p v := by
  obtain ⟨hm1, hm2, hm3⟩ := hm
  obtain ⟨hp1, hp2, hp3⟩ := hp
  obtain ⟨hv1, hv2, hv3⟩ := hv
  have h32 : isspace 32 = true := by decide
  unfold sscanf_request_line
  have e0 : skip_space (m ++ 32 :: (p ++ 32 :: (v ++ c :: tail)))
      = m ++ 32 :: (p ++ 32 :: (v ++ c :: tail)) :=
    skip_space_token _ _ hm1 (fun x hx => (hm3 x hx).2)
  have e1 : scan_token 15 (m ++ 32 :: (p ++ 32 :: (v ++ c :: tail))) = m :=
    scan_token_append _ _ _ _ (fun x hx => (hm3 x hx).2) hm2 h32
  have e2 : skip_space (List.drop m.length (m ++ 32 :: (p ++ 32 :: (v ++ c :: tail))))
      = p ++ 32 :: (v ++ c :: tail) := by
    rw [List.drop_left, skip_space_cons _ _ h32]
    exact skip_space_token _ _ hp1 (fun x hx => (hp3 x hx).2)
  have e3 : scan_token 255 (p ++ 32 :: (v ++ c :: tail)) = p :=
    scan_token_append _ _ _ _ (fun x hx => (hp3 x hx).2) hp2 h32
  have e4 : skip_space (List.drop p.length (p ++ 32 :: (v ++ c :: tail))) = v ++ c :: tail := by
    rw [List.drop_left, skip_space_cons _ _ h32]
    exact skip_space_token _ _ hv1 (fun x hx => (hv3 x hx).2)
  have e5 : scan_token 15 (v ++ c :: tail) = v :=
    scan_token_append _ _ _ _ (fun x hx => (hv3 x hx).2) hv2 hc
  have n0 : m ++ 32 :: (p ++ 32 :: (v ++ c :: tail)) ≠ [] := by
    intro h; exact hm1 (List.append_eq_nil.mp h).1
  have n1 : p ++ 32 :: (v ++ c :: tail) ≠ [] := by
    intro h; exact hp1 (List.append_eq_nil.mp h).1
  have n2 : v ++ c :: tail ≠ [] := by
    intro h; exact hv1 (List.append_eq_nil.mp h).1
  simp only [e0, e1, e2, e3, e4, e5, if_neg n0, if_neg n1, if_neg n2]

/-! ## The query split and the GET body -/

theorem split_query_none (p : List Nat) (h : 63 ∉ p) : split_query p = (p, none) := by
  simp [split_query, h]

theorem split_query_some (p q : List Nat) (h : 63 ∉ p) :
    split_query (p ++ 63 :: q) = (p, some q) := by
  have hp : ∀ a ∈ p, (a != 63) = true := by
    intro a ha
    simp only [bne_iff_ne, ne_eq]
    intro e; exact h (e ▸ ha)
  unfold split_query
  rw [if_pos (by simp)]
  rw [List.takeWhile_append_of_pos hp, List.dropWhile_append_of_pos hp]
  simp

theorem get_body_hello (query : Option (List Nat)) (clock : List Nat) :
    get_body (bytes "/hello") query clock = bytes "Hello Student!" := by
  unfold get_body
  rw [if_pos rfl]
  decide

theorem get_body_unknown_none (path clock : List Nat)
    (h1 : path ≠ bytes "/hello") (h2 : path ≠ bytes "/time") :
    get_body path none clock = bytes "Unknown Path!" := by
  unfold get_body
  rw [if_neg h1, if_neg h2]
  decide

theorem get_body_unknown_some (path q clock : List Nat)
    (h1 : path ≠ bytes "/hello") (h2 : path ≠ bytes "/time") (hq : q.length ≤ 1003) :
    get_body path (some q) clock = bytes "Unknown Path!\nQuery=" ++ q := by
  unfold get_body
  rw [if_neg h1, if_neg h2]
  have e1 : (snprintf 1024 (bytes "Unknown Path!")).1 = bytes "Unknown Path!" := by decide
  simp only [e1, strncat]
  have e2 : (bytes "Unknown Path!").length = 13 := by decide
  have e3 : (bytes "\nQuery=").length = 7 := by decide
  have e4 : List.take (1024 - 13 - 1) (bytes "\nQuery=") = bytes "\nQuery=" :=
    List.take_of_length_le (by rw [e3]; omega)
  have e5 : bytes "Unknown Path!" ++ bytes "\nQuery=" = bytes "Unknown Path!\nQuery=" := by decide
  rw [e2, e4, e5]
  have e6 : (bytes "Unknown Path!\nQuery=").length = 20 := by decide
  rw [e6, List.take_of_length_le (by omega)]

theorem take_append_cons (a r : List Nat) (c k : Nat) (hk : a.length + 1 ≤ k) :
    (a ++ c :: r).take k = a ++ c :: r.take (k - a.length - 1) := by
  rw [List.take_append_eq_append_take, List.take_of_length_le (by omega)]
  obtain ⟨j, hj⟩ : ∃ j, k - a.length = j + 1 := ⟨k - a.length - 1, by omega⟩
  rw [hj, List.take_succ_cons]
  simp

theorem ok_header_length (n : Nat) (h : n < 10000) : (ok_header n).length ≤ 86 := by
  have h1 : (bytes "HTTP/1.1 200 OK\r\nContent-Length: ").length = 33 := by decide
  have h2 : (bytes "\r\nContent-Type: text/plain\r\nConnection: close\r\n\r\n").length = 49 := by
    decide
  have h3 := fmt_zu_length n 3 (by omega)
  simp only [ok_header, List.length_append, h1, h2]
  omega

theorem get_body_length_le (path : List Nat) (query : Option (List Nat)) (clock : List Nat) :
    (get_body path query clock).length ≤ 1023 := by
  unfold get_body
  split
  · simp [snprintf]
  · split
    · simp [snprintf]
    · have e1 : (snprintf 1024 (bytes "Unknown Path!")).1.length = 13 := by decide
      cases query with
      | none => simp only [e1]; omega
      | some q =>
        simp only [strncat, List.length_append, List.length_take, e1]
        omega

/-- The GET branch towards a client that accepts bytes: one response, whose
Content-Length is the length of the body sent. -/
theorem handle_get_spec (path : List Nat) (query : Option (List Nat)) (clock : List Nat)
    (s : Sock) (hacc : accepts s) :
    ∃ s1, handle_get path query clock s = some s1
      ∧ s1.wire = s.wire ++ (ok_header (get_body path query clock).length
          ++ get_body path query clock)
      ∧ s1.inData = s.inData ∧ recv_calls s1 = recv_calls s := by
  have hb := get_body_length_le path query clock
  have hh := ok_header_length (get_body path query clock).length (by omega)
  unfold handle_get
  simp only [snprintf]
  rw [List.take_of_length_le (by rw [List.length_append]; omega)]
  obtain ⟨s1, h1, h2, h3, _, _, _, h7⟩ := send_all_text s
    (ok_header (get_body path query clock).length ++ get_body path query clock) hacc
  exact ⟨s1, h1, h2, h3, h7⟩

/-- What `handle_client` does with a GET request line whose three tokens fit
their fields, whatever follows the line. -/
theorem get_request_spec (s : Sock) (target version rest clock : List Nat)
    (hacc : accepts s) (htarget : is_token 255 target) (hversion : is_token 15 version)
    (hdata : s.inData = bytes "GET" ++ 32 :: (target ++ 32 :: (version ++ 13 :: 10 :: rest))) :
    ∃ s1, handle_client s clock = some s1
      ∧ s1.wire = s.wire ++ (ok_header
            (get_body (split_query target).1 (split_query target).2 clock).length
          ++ get_body (split_query target).1 (split_query target).2 clock) := by
  obtain ⟨r, k, hr, hk1, hk2, hbuf, _, hin, _, hout, hwire, hstop⟩ := recv_all_headers_spec s
  have hget : is_token 15 (bytes "GET") := by decide
  -- the request line, up to the carriage return
  have hline : ∀ c ∈ bytes "GET" ++ 32 :: (target ++ 32 :: version), c ≠ 0 ∧ c ≠ 13 := by
    intro c hc
    simp only [List.mem_append, List.mem_cons] at hc
    rcases hc with h | h | h | h | h
    · exact ⟨(hget.2.2 c h).1, not_space_ne_cr c (hget.2.2 c h).2⟩
    · subst h; decide
    · exact ⟨(htarget.2.2 c h).1, not_space_ne_cr c (htarget.2.2 c h).2⟩
    · subst h; decide
    · exact ⟨(hversion.2.2 c h).1, not_space_ne_cr c (hversion.2.2 c h).2⟩
  have hd : s.inData = (bytes "GET" ++ 32 :: (target ++ 32 :: version)) ++ 13 :: 10 :: rest := by
    rw [hdata]; simp
  generalize hL : bytes "GET" ++ 32 :: (target ++ 32 :: version) = line at hline hd
  have hlen : line.length ≤ 275 := by
    rw [← hL]
    have := htarget.2.1
    have := hversion.2.1
    have : (bytes "GET").length = 3 := by decide
    simp only [List.length_append, List.length_cons]
    omega
  have hdl : s.inData.length = line.length + 2 + rest.length := by
    rw [hd]; simp; omega
  -- the header read went past the request line
  have hk : line.length + 1 ≤ k := by
    rcases hstop with h | h | h
    · by_contra hlt
      have e1 : s.inData.take k = line.take k := by
        rw [hd, List.take_append_of_le_length (by omega)]
      have e2 : ∀ c ∈ cstr (line.take k), c ≠ 13 := by
        intro c hc
        exact (hline c (List.mem_of_mem_take (mem_of_mem_cstr _ _ hc))).2
      rw [e1] at h
      have e3 := strstr_skip (cstr (line.take k)) [] 13 [10, 13, 10] e2
      rw [List.append_nil] at e3
      rw [show CRLFCRLF = 13 :: [10, 13, 10] from rfl, e3] at h
      simp [strstr] at h
    · omega
    · omega
  have hreq : cstr r.buf = line ++ 13 :: cstr ((10 :: rest).take (k - line.length - 1)) := by
    rw [hbuf, cstr_reqbuf _ _ hk2, hd, take_append_cons _ _ _ _ hk,
      cstr_append_of_nul_free _ _ (fun c hc => (hline c hc).1)]
    simp [cstr, List.takeWhile_cons]
  have hparse : sscanf_request_line (cstr r.buf) = ReqLine.mk 3 (bytes "GET") target version := by
    rw [hreq, ← hL]
    have := sscanf_three_tokens (bytes "GET") target version
      (cstr ((10 :: rest).take (k - (bytes "GET" ++ 32 :: (target ++ 32 :: version)).length - 1)))
      13 hget htarget hversion (by decide)
    simpa using this
  have hacc1 : accepts r.sock := by unfold accepts; rw [hout]; exact hacc
  obtain ⟨s1, h1, h2, _⟩ := handle_get_spec (split_query target).1 (split_query target).2
    clock r.sock hacc1
  refine ⟨s1, ?_, by rw [h2, hwire]⟩
  unfold handle_client
  rw [hr]
  simp only [handle_request, hparse]
  rw [if_neg (by decide), if_neg (by decide), if_neg (by decide)]
  exact h1

/-! ## The POST body -/

theorem recv_body_loop_spec (fuel : Nat) :
    ∀ (s : Sock) (pre : List Nat) (rem : Nat) (counts : List Nat),
    rem < fuel → pre.length + rem ≤ 4096 →
    ∃ r m, recv_body_loop fuel s (pre ++ List.replicate (4097 - pre.length) 0) pre.length
          (rem : Int) counts = some r
      ∧ m = min rem s.inData.length
      ∧ r.body_data = pre ++ s.inData.take m ++ List.replicate (4097 - (pre.length + m)) 0
      ∧ r.already_have = pre.length + m
      ∧ r.sock.inData = s.inData.drop m ∧ r.sock.inErr = s.inErr
      ∧ r.sock.outSched = s.outSched ∧ r.sock.wire = s.wire
      ∧ (∀ a ∈ r.counts, a ∈ counts ∨ a ≤ pre.length + rem) := by
  induction fuel with
  | zero => intro s pre rem counts h; omega
  | succ fuel ih =>
    intro s pre rem counts hf hp
    rw [recv_body_loop]
    by_cases hrem : 0 < rem
    · rw [if_pos (by exact_mod_cast hrem), to_size_t_small rem (by omega)]
      by_cases hc : 0 < recv_count s rem
      · have hle := recv_count_le_len s rem
        have hld := recv_count_le_data s rem
        have hfst := recv_fst_of_pos s _ hc
        have hlen : (List.take (recv_count s rem) s.inData).length = recv_count s rem := by
          rw [List.length_take]; omega
        have hpoke := poke_zero_tail pre (List.take (recv_count s rem) s.inData)
          (4097 - pre.length) (by rw [hlen]; omega)
        rw [hlen] at hpoke
        have hin : (recv s rem).2.2.inData = List.drop (recv_count s rem) s.inData :=
          recv_inData s rem
        rw [if_neg (by rw [hfst]; omega)]
        simp only [recv_data, hpoke, hfst, to_int_small (recv_count s rem) (by omega),
          Int.toNat_ofNat]
        generalize hcdef : recv_count s rem = c at *
        have hpl : (pre ++ List.take c s.inData).length = pre.length + c := by
          rw [List.length_append, hlen]
        have hsub : (rem : Int) - (c : Int) = ((rem - c : Nat) : Int) := by omega
        have hz : 4097 - pre.length - c = 4097 - (pre ++ List.take c s.inData).length := by
          rw [hpl]; omega
        rw [hsub, hz, ← hpl]
        obtain ⟨r, m, hr, hm, hbd, hah, hd, he, ho, hw, hcnt⟩ :=
          ih (recv s rem).2.2 (pre ++ List.take c s.inData) (rem - c)
            (counts ++ [(pre ++ List.take c s.inData).length]) (by omega) (by rw [hpl]; omega)
        rw [hin] at hm hbd hd
        rw [List.length_drop] at hm
        have htake : List.take c s.inData ++ List.take m (List.drop c s.inData)
            = List.take (c + m) s.inData := by
          rw [List.take_add]
        refine ⟨r, c + m, hr, by omega, ?_, by rw [hah, hpl]; omega, ?_, he, ho, hw, ?_⟩
        · rw [hbd, List.append_assoc pre, htake, hpl, Nat.add_assoc]
        · rw [hd, List.drop_drop, Nat.add_comm]
        · intro a ha
          rcases hcnt a ha with h | h
          · rcases List.mem_append.mp h with h | h
            · exact Or.inl h
            · right
              rw [List.mem_singleton] at h
              rw [h, hpl]; omega
          · right
            rw [hpl] at h; omega
      · have hc0 : recv_count s rem = 0 := by omega
        have hd0 : s.inData.length = 0 := by
          by_contra h
          exact hc (recv_count_pos s rem hrem (by omega))
        have hnp : (recv s rem).1 ≤ 0 := by
          have h1 : ¬ (0 < (recv s rem).1) := by rw [recv_fst_pos_iff]; omega
          omega
        rw [if_pos hnp]
        refine ⟨_, 0, rfl, by omega, by simp, rfl, ?_, rfl, rfl, rfl, fun a ha => Or.inl ha⟩
        rw [recv_inData, hc0]
    · have h0 : rem = 0 := by omega
      subst h0
      rw [if_neg (by simp)]
      exact ⟨_, 0, rfl, by simp, by simp, rfl, rfl, rfl, rfl, rfl, fun a ha => Or.inl ha⟩

theorem assemble_body_spec (req : List Nat) (content_length : Int) (s : Sock)
    (hreq : req.length ≤ 4095) :
    ∃ r m, assemble_body req content_length s = some r
      ∧ m = min (clamp_length content_length - (look_ahead req (clamp_length content_length)).length)
            s.inData.length
      ∧ r.body_data = look_ahead req (clamp_length content_length) ++ s.inData.take m
          ++ List.replicate
            (4097 - ((look_ahead req (clamp_length content_length)).length + m)) 0
      ∧ r.already_have = (look_ahead req (clamp_length content_length)).length + m
      ∧ (look_ahead req (clamp_length content_length)).length + m ≤ 4096
      ∧ r.sock.inData = s.inData.drop m ∧ r.sock.inErr = s.inErr
      ∧ r.sock.outSched = s.outSched ∧ r.sock.wire = s.wire
      ∧ (∀ a ∈ r.counts, a ≤ 4096) := by
  have hcl : (if (if content_length < 0 then 0 else content_length) > ((POST_MAX : Nat) : Int)
        then ((POST_MAX : Nat) : Int) else (if content_length < 0 then 0 else content_length))
      = ((clamp_length content_length : Nat) : Int) := by
    unfold clamp_length POST_MAX
    split_ifs <;> omega
  have hC : clamp_length content_length ≤ 4096 := by
    unfold clamp_length
    split_ifs <;> omega
  generalize clamp_length content_length = C at *
  -- the copy of the look-ahead bytes
  have hcopy : (match strstr req CRLFCRLF with
      | some p =>
        (poke (List.replicate (POST_MAX + 1) 0) 0
          ((p.drop 4).take (if to_int ((p.drop 4).length : Int) > (C : Int) then to_size_t (C : Int)
            else (p.drop 4).length))).map
          (fun bd => (bd, (to_int ((if to_int ((p.drop 4).length : Int) > (C : Int)
            then to_size_t (C : Int) else (p.drop 4).length : Nat) : Int)).toNat))
      | none => some (List.replicate (POST_MAX + 1) 0, 0))
      = some (look_ahead req C ++ List.replicate (4097 - (look_ahead req C).length) 0,
          (look_ahead req C).length) := by
    unfold look_ahead
    cases hs : strstr req CRLFCRLF with
    | none => rfl
    | some p =>
      have hp := strstr_length_le _ _ _ hs
      have hbs : (p.drop 4).length ≤ 4095 := by rw [List.length_drop]; omega
      simp only []
      rw [to_int_small (p.drop 4).length (by omega), to_size_t_small C (by omega)]
      have hav : (if ((p.drop 4).length : Int) > (C : Int) then C else (p.drop 4).length)
          = min (p.drop 4).length C := by
        split_ifs <;> omega
      rw [hav, to_int_small (min (p.drop 4).length C) (by omega), Int.toNat_ofNat]
      have htk : List.take (min (p.drop 4).length C) (p.drop 4) = List.take C (p.drop 4) := by
        rw [List.take_eq_take]
        omega
      have hlk : (List.take C (p.drop 4)).length = min (p.drop 4).length C := by
        rw [List.length_take]; omega
      rw [htk]
      have := poke_zero_tail [] (List.take C (p.drop 4)) 4097 (by rw [hlk]; omega)
      simp only [List.nil_append, List.length_nil] at this
      rw [show POST_MAX + 1 = 4097 from rfl, this, hlk]
      rfl
  unfold assemble_body
  simp only [hcl, hcopy]
  generalize hlook : look_ahead req C = look at *
  have hlk : look.length ≤ C := by
    rw [← hlook]; unfold look_ahead
    split
    · rw [List.length_take]; omega
    · simp
  have hrem : (C : Int) - (look.length : Int) = ((C - look.length : Nat) : Int) := by omega
  rw [hrem, Int.toNat_ofNat]
  obtain ⟨r, m, hr, hm, hbd, hah, hd, he, ho, hw, hcnt⟩ :=
    recv_body_loop_spec (C - look.length + 1) s look (C - look.length) [look.length]
      (by omega) (by omega)
  have hpl : (look ++ List.take m s.inData).length = look.length + m := by
    rw [List.length_append, List.length_take]; omega
  have hnul := poke_nul_zero_tail (look ++ List.take m s.inData)
    (4097 - (look.length + m)) (by omega)
  rw [hpl] at hnul
  rw [hr]
  simp only [hbd, hah, hnul, Option.map_some']
  refine ⟨_, m, rfl, hm, rfl, rfl, by omega, hd, he, ho, hw, ?_⟩
  intro a ha
  rcases hcnt a ha with h | h
  · rw [List.mem_singleton] at h; omega
  · omega

/-- The scan for `Content-Length:` ends within its fuel. -/
theorem scan_content_length_total (fuel : Nat) : ∀ (scan : List Nat) (cl : Int),
    scan.length < fuel → ∃ v, scan_content_length fuel scan cl = some v := by
  induction fuel with
  | zero => intro scan cl h; omega
  | succ fuel ih =>
    intro scan cl hf
    rw [scan_content_length]
    by_cases h0 : scan = []
    · rw [if_pos h0]; exact ⟨cl, rfl⟩
    · rw [if_neg h0]
      have hpos : 0 < scan.length := List.length_pos.mpr h0
      cases hs : strstr scan CRLF with
      | none =>
        simp only []
        split
        · exact ⟨_, rfl⟩
        · exact ⟨_, rfl⟩
      | some e =>
        have he := strstr_length_le _ _ _ hs
        simp only []
        split
        · exact ⟨_, rfl⟩
        · split
          · exact ⟨_, rfl⟩
          · exact ih _ _ (by rw [List.length_drop]; omega)

theorem post_echo_length (req : List Nat) (v : Int) (d : List Nat) :
    (post_echo req v d).length ≤ 4096 := by
  have hC : clamp_length v ≤ 4096 := by
    unfold clamp_length
    split_ifs <;> omega
  have hlk : (look_ahead req (clamp_length v)).length ≤ clamp_length v := by
    unfold look_ahead
    split
    · rw [List.length_take]; omega
    · simp
  have := cstr_length_le (look_ahead req (clamp_length v)
    ++ d.take (clamp_length v - (look_ahead req (clamp_length v)).length))
  rw [List.length_append, List.length_take] at this
  unfold post_echo
  omega

/-- The POST branch towards a client that accepts bytes. -/
theorem handle_post_spec (req : List Nat) (s : Sock) (hreq : req.length ≤ 4095)
    (hacc : accepts s) :
    ∃ s1 v, scan_content_length (req.length + 1) req 0 = some v
      ∧ handle_post req s = some s1
      ∧ s1.wire = s.wire ++ (ok_header (20 + (post_echo req v s.inData).length)
          ++ (POST_LABEL ++ post_echo req v s.inData)) := by
  obtain ⟨v, hv⟩ := scan_content_length_total (req.length + 1) req 0 (by omega)
  obtain ⟨b, m, hb, hm, hbd, _, hle, _, _, ho, hw, _⟩ := assemble_body_spec req v s hreq
  have hecho : cstr b.body_data = post_echo req v s.inData := by
    obtain ⟨z, hz⟩ : ∃ z, 4097 - ((look_ahead req (clamp_length v)).length + m) = z + 1 :=
      ⟨4096 - ((look_ahead req (clamp_length v)).length + m), by omega⟩
    have ht : List.take m s.inData
        = List.take (clamp_length v - (look_ahead req (clamp_length v)).length) s.inData := by
      rw [hm, List.take_eq_take]
      omega
    rw [hbd, hz, cstr_append_zeros, ht, post_echo]
  have hel := post_echo_length req v s.inData
  have hacc1 : accepts b.sock := by unfold accepts; rw [ho]; exact hacc
  have hh := ok_header_length (20 + (post_echo req v s.inData).length) (by omega)
  have hlab : POST_LABEL.length = 20 := by decide
  obtain ⟨s1, h1, h2, _, _, _, h6, _⟩ := send_all_text b.sock
    (ok_header (20 + (post_echo req v s.inData).length)) hacc1
  obtain ⟨s2, g1, g2, _⟩ := send_all_text s1 (POST_LABEL ++ post_echo req v s.inData) h6
  refine ⟨s2, v, hv, ?_, by rw [g2, h2, hw, List.append_assoc]⟩
  unfold handle_post
  simp only [hv, hb, hecho, snprintf]
  rw [List.take_of_length_le (by omega), h1]
  simp only []
  rw [List.take_of_length_le (by rw [List.length_append, hlab, show POST_MAX = 4096 from rfl]; omega)]
  exact g1

/-! ## The Content-Length scan on well-formed header lines -/

theorem strstr_crlf_line (a r : List Nat) (h13 : ∀ c ∈ a, c ≠ 13) :
    strstr (a ++ 13 :: 10 :: r) CRLF = some (13 :: 10 :: r) := by
  rw [show CRLF = 13 :: [10] from rfl, strstr_skip a _ 13 [10] h13]
  exact strstr_at_needle [13, 10] r

/-- One turn of the scan on a line `a` that is not empty and is closed by the
first CRLF. -/
theorem scan_content_length_step (f : Nat) (a r : List Nat) (cl : Int) (ha : a ≠ [])
    (h13 : ∀ c ∈ a, c ≠ 13) :
    scan_content_length (f + 1) (a ++ 13 :: 10 :: r) cl
      = if CRLF.isPrefixOf r then
          some (if strncasecmp_eq (a ++ 13 :: 10 :: r) (bytes "Content-Length:") 15 then
            (match sscanf_d ((a ++ 13 :: 10 :: r).drop 15) with
              | some v => v
              | none => cl)
            else cl)
        else scan_content_length f r
          (if strncasecmp_eq (a ++ 13 :: 10 :: r) (bytes "Content-Length:") 15 then
            (match sscanf_d ((a ++ 13 :: 10 :: r).drop 15) with
              | some v => v
              | none => cl)
            else cl) := by
  rw [scan_content_length]
  have hne : a ++ 13 :: 10 :: r ≠ [] := by
    intro h; exact ha (List.append_eq_nil.mp h).1
  have hlen : (a ++ 13 :: 10 :: r).length - (13 :: 10 :: r).length ≠ 0 := by
    have := List.length_pos.mpr ha
    simp only [List.length_append, List.length_cons]
    omega
  rw [if_neg hne, strstr_crlf_line a r h13]
  simp only []
  rw [if_neg hlen]
  rfl

theorem strncasecmp_content_length (x : List Nat) :
    strncasecmp_eq (bytes "Content-Length:" ++ x) (bytes "Content-Length:") 15 = true := by
  unfold strncasecmp_eq
  have h1 : List.take 15 (bytes "Content-Length:" ++ x) = bytes "Content-Length:" :=
    List.take_left (bytes "Content-Length:") x
  have h2 : List.take 15 (bytes "Content-Length:") = bytes "Content-Length:" := by decide
  rw [h1, h2]
  simp

theorem strncasecmp_post (x : List Nat) :
    strncasecmp_eq (bytes "POST" ++ x) (bytes "Content-Length:") 15 = false := by
  unfold strncasecmp_eq
  have h1 : bytes "POST" ++ x = 80 :: (bytes "OST" ++ x) := rfl
  have h2 : List.map tolower (List.take 15 (bytes "Content-Length:"))
      = 99 :: List.map tolower (bytes "ontent-length:") := by decide
  rw [h1, h2, List.take_succ_cons, List.map_cons]
  have h3 : tolower 80 = 112 := by decide
  rw [h3]
  simp

theorem sscanf_d_decimal (n : Nat) (r : List Nat) (hn : n ≤ 2147483647) :
    sscanf_d (32 :: (fmt_zu n ++ 13 :: r)) = some (n : Int) := by
  have hdig := fmt_zu_isdigit n
  have hne := fmt_zu_ne_nil n
  have e1 : skip_space (32 :: (fmt_zu n ++ 13 :: r)) = fmt_zu n ++ 13 :: r := by
    rw [skip_space_cons _ _ (by decide)]
    exact skip_space_token _ _ hne (fun c hc => isdigit_not_space c (hdig c hc))
  obtain ⟨d0, ds, hds⟩ : ∃ d0 ds, fmt_zu n = d0 :: ds := by
    cases h : fmt_zu n with
    | nil => exact absurd h hne
    | cons d0 ds => exact ⟨d0, ds, rfl⟩
  have hd0 : 48 ≤ d0 ∧ d0 ≤ 57 := by
    rw [← isdigit_iff]; exact hdig d0 (by rw [hds]; exact List.mem_cons_self _ _)
  have e2 : (fmt_zu n ++ 13 :: r).head? = some d0 := by rw [hds]; rfl
  have e3 : ((some d0 : Option Nat) == some 45) = false := by
    simp; omega
  have e4 : ((some d0 : Option Nat) == some 43) = false := by
    simp; omega
  have e5 : List.takeWhile isdigit (fmt_zu n ++ 13 :: r) = fmt_zu n := by
    rw [List.takeWhile_append_of_pos hdig, List.takeWhile_cons_of_neg (by decide)]
    simp
  unfold sscanf_d
  simp only [e1, e2, e3, e4, e5, Bool.or_self, Bool.false_eq_true, if_false, if_neg hne,
    digits_value_fmt_zu]
  have e6 : strtol_sat (n : Int) = n := by
    unfold strtol_sat
    rw [if_neg (by omega), if_neg (by omega)]
  rw [e6, to_int_small n hn]

/-- The terminator search runs over two header lines that are not empty. -/
theorem strstr_two_lines (l1 l2 y : List Nat) (h1 : ∀ c ∈ l1, c ≠ 13) (h2 : ∀ c ∈ l2, c ≠ 13)
    (hne : l2 ≠ []) :
    strstr (l1 ++ 13 :: 10 :: (l2 ++ y)) CRLFCRLF = strstr y CRLFCRLF := by
  rw [show CRLFCRLF = 13 :: [10, 13, 10] from rfl, strstr_skip l1 _ 13 _ h1]
  obtain ⟨c0, cs, rfl⟩ : ∃ c0 cs, l2 = c0 :: cs := by
    cases l2 with
    | nil => exact absurd rfl hne
    | cons c0 cs => exact ⟨c0, cs, rfl⟩
  have hc0 : c0 ≠ 13 := h2 c0 (List.mem_cons_self _ _)
  have hb : ((13 : Nat) == c0) = false := by simpa using fun e => hc0 e.symm
  rw [strstr]
  simp only [List.cons_append, List.isPrefixOf, hb, Bool.and_false, Bool.false_and, beq_self_eq_true,
    Bool.true_and, Bool.false_eq_true, if_false]
  have := strstr_skip (10 :: c0 :: cs) y 13 [10, 13, 10] (by
    intro c hc
    rcases List.mem_cons.mp hc with h | h
    · omega
    · exact h2 c h)
  simpa using this

theorem post_shape_eq (path : List Nat) (n : Nat) (x : List Nat) :
    post_shape path n x
      = (bytes "POST" ++ 32 :: (path ++ 32 :: bytes "HTTP/1.1")) ++ 13 :: 10 ::
        ((bytes "Content-Length:" ++ 32 :: fmt_zu n) ++ 13 :: 10 :: 13 :: 10 :: x) := by
  simp [post_shape]

theorem post_shape_append (path : List Nat) (n : Nat) (x : List Nat) :
    post_shape path n x = post_shape path n [] ++ x := by
  simp [post_shape]

theorem post_line1 (path : List Nat) (hpath : is_token 255 path) :
    ∀ c ∈ bytes "POST" ++ 32 :: (path ++ 32 :: bytes "HTTP/1.1"), c ≠ 0 ∧ c ≠ 13 := by
  intro c hc
  have h1 : ∀ c ∈ bytes "POST", c ≠ 0 ∧ c ≠ 13 := by decide
  have h2 : ∀ c ∈ bytes "HTTP/1.1", c ≠ 0 ∧ c ≠ 13 := by decide
  simp only [List.mem_append, List.mem_cons] at hc
  rcases hc with h | h | h | h | h
  · exact h1 c h
  · subst h; decide
  · exact ⟨(hpath.2.2 c h).1, not_space_ne_cr c (hpath.2.2 c h).2⟩
  · subst h; decide
  · exact h2 c h

theorem post_line2 (n : Nat) :
    ∀ c ∈ bytes "Content-Length:" ++ 32 :: fmt_zu n, c ≠ 0 ∧ c ≠ 13 := by
  intro c hc
  have h1 : ∀ c ∈ bytes "Content-Length:", c ≠ 0 ∧ c ≠ 13 := by decide
  simp only [List.mem_append, List.mem_cons] at hc
  rcases hc with h | h | h
  · exact h1 c h
  · subst h; decide
  · have := (isdigit_iff c).mp (fmt_zu_isdigit n c h)
    omega

theorem post_shape_length (path : List Nat) (n : Nat) (x : List Nat) (hpath : is_token 255 path)
    (hn : n ≤ 4096) :
    (post_shape path n x).length = (post_shape path n []).length + x.length
      ∧ (post_shape path n []).length ≤ 295 ∧ 1 ≤ (post_shape path n []).length := by
  have h1 : (bytes "POST").length = 4 := by decide
  have h2 : (bytes "HTTP/1.1").length = 8 := by decide
  have h3 : (bytes "Content-Length:").length = 15 := by decide
  have h4 := fmt_zu_length n 3 (by omega)
  have h5 := hpath.2.1
  simp only [post_shape, List.length_append, List.length_cons, List.length_nil, h1, h2, h3]
  omega

theorem post_shape_nul_free (path : List Nat) (n : Nat) (x : List Nat)
    (hpath : is_token 255 path) (hx : ∀ c ∈ x, c ≠ 0) : ∀ c ∈ post_shape path n x, c ≠ 0 := by
  intro c hc
  rw [post_shape_eq] at hc
  simp only [List.mem_append, List.mem_cons] at hc
  have h1 := post_line1 path hpath
  have h2 := post_line2 n
  rcases hc with h | h | h | h | h | h | h | h | h
  · exact (h1 c (by simp only [List.mem_append, List.mem_cons]; exact h)).1
  · omega
  · omega
  · exact (h2 c (by simp only [List.mem_append, List.mem_cons]; exact h)).1
  · omega
  · omega
  · omega
  · omega
  · exact hx c h

/-- No proper prefix of the header block holds the terminator. -/
theorem post_shape_no_early_terminator (path : List Nat) (n k : Nat) (hpath : is_token 255 path)
    (hk : k < (post_shape path n []).length) :
    (strstr (cstr ((post_shape path n []).take k)) CRLFCRLF).isSome = false := by
  have hnf := post_shape_nul_free path n [] hpath (by simp)
  have hc : cstr ((post_shape path n []).take k) = (post_shape path n []).take k :=
    cstr_of_nul_free _ (fun c hc => hnf c (List.mem_of_mem_take hc))
  rw [hc]
  have hsplit : post_shape path n []
      = ((bytes "POST" ++ 32 :: (path ++ 32 :: bytes "HTTP/1.1")) ++ 13 :: 10 ::
          ((bytes "Content-Length:" ++ 32 :: fmt_zu n) ++ [13, 10, 13])) ++ [10] := by
    simp [post_shape]
  generalize hA : (bytes "POST" ++ 32 :: (path ++ 32 :: bytes "HTTP/1.1")) ++ 13 :: 10 ::
      ((bytes "Content-Length:" ++ 32 :: fmt_zu n) ++ [13, 10, 13]) = A at hsplit
  have hnone : strstr A CRLFCRLF = none := by
    rw [← hA, strstr_two_lines _ _ _ (fun c hc => (post_line1 path hpath c hc).2)
      (fun c hc => (post_line2 n c hc).2) (by simp)]
    exact strstr_none_of_short _ _ (by decide)
  have hkA : k ≤ A.length := by
    rw [hsplit, List.length_append] at hk
    simp only [List.length_singleton] at hk
    omega
  have hpre : (post_shape path n []).take k <+: A := by
    rw [hsplit, List.take_append_of_le_length hkA]
    exact List.take_prefix k A
  cases h : (strstr (List.take k (post_shape path n [])) CRLFCRLF).isSome with
  | false => rfl
  | true =>
    have := strstr_isSome_mono _ _ _ hpre h
    rw [hnone] at this
    cases this

theorem post_shape_parse (path : List Nat) (n : Nat) (x : List Nat) (hpath : is_token 255 path) :
    sscanf_request_line (post_shape path n x)
      = ReqLine.mk 3 (bytes "POST") path (bytes "HTTP/1.1") :=
  sscanf_three_tokens (bytes "POST") path (bytes "HTTP/1.1") _ 13 (by decide) hpath (by decide)
    (by decide)

theorem post_shape_body_start (path : List Nat) (n : Nat) (x : List Nat)
    (hpath : is_token 255 path) :
    strstr (post_shape path n x) CRLFCRLF = some (13 :: 10 :: 13 :: 10 :: x) := by
  rw [post_shape_eq, strstr_two_lines _ _ _ (fun c hc => (post_line1 path hpath c hc).2)
    (fun c hc => (post_line2 n c hc).2) (by simp)]
  exact strstr_at_needle [13, 10, 13, 10] x

theorem post_shape_content_length (path : List Nat) (n : Nat) (x : List Nat)
    (hpath : is_token 255 path) (hn : n ≤ 4096) :
    scan_content_length ((post_shape path n x).length + 1) (post_shape path n x) 0
      = some (n : Int) := by
  obtain ⟨f, hf⟩ : ∃ f, (post_shape path n x).length + 1 = f + 1 + 1 := by
    have := (post_shape_length path n x hpath hn).2.2
    have := (post_shape_length path n x hpath hn).1
    exact ⟨(post_shape path n x).length - 1, by omega⟩
  rw [hf, post_shape_eq]
  rw [scan_content_length_step _ _ _ _ (by simp) (fun c hc => (post_line1 path hpath c hc).2)]
  have hp1 : CRLF.isPrefixOf ((bytes "Content-Length:" ++ 32 :: fmt_zu n)
      ++ 13 :: 10 :: 13 :: 10 :: x) = false := by
    have : bytes "Content-Length:" = 67 :: bytes "ontent-Length:" := by decide
    rw [this]
    rfl
  have hc1 : strncasecmp_eq ((bytes "POST" ++ 32 :: (path ++ 32 :: bytes "HTTP/1.1")) ++ 13 :: 10 ::
      ((bytes "Content-Length:" ++ 32 :: fmt_zu n) ++ 13 :: 10 :: 13 :: 10 :: x))
      (bytes "Content-Length:") 15 = false := by
    rw [List.append_assoc]
    exact strncasecmp_post _
  rw [hp1, hc1]
  simp only [Bool.false_eq_true, if_false]
  rw [scan_content_length_step _ _ _ _ (by simp) (fun c hc => (post_line2 n c hc).2)]
  have hp2 : CRLF.isPrefixOf (13 :: 10 :: x) = true := by
    simp [CRLF, List.isPrefixOf]
  have hc2 : strncasecmp_eq ((bytes "Content-Length:" ++ 32 :: fmt_zu n) ++ 13 :: 10 :: 13 :: 10 :: x)
      (bytes "Content-Length:") 15 = true := by
    rw [List.append_assoc]
    exact strncasecmp_content_length _
  have hdrop : List.drop 15 ((bytes "Content-Length:" ++ 32 :: fmt_zu n) ++ 13 :: 10 :: 13 :: 10 :: x)
      = 32 :: (fmt_zu n ++ 13 :: 10 :: 13 :: 10 :: x) := by
    rw [List.append_assoc]
    exact List.drop_left (bytes "Content-Length:") _
  rw [hp2, hc2, hdrop, sscanf_d_decimal n _ (by omega)]
  rfl

/-- A POST request that declares `b.length` and carries the body `b`: the
answer echoes `b`, however the stream is fragmented. -/
theorem post_request_spec (s : Sock) (path b clock : List Nat)
    (hacc : accepts s) (hpath : is_token 255 path) (hb : ∀ c ∈ b, c ≠ 0)
    (hn : b.length ≤ 4096) (hdata : s.inData = post_shape path b.length b) :
    ∃ s1, handle_client s clock = some s1
      ∧ s1.wire = s.wire ++ (ok_header (20 + b.length) ++ (POST_LABEL ++ b)) := by
  obtain ⟨r, k, hr, hk1, hk2, hbuf, _, hin, _, hout, hwire, hstop⟩ := recv_all_headers_spec s
  obtain ⟨hl1, hl2, hl3⟩ := post_shape_length path b.length b hpath hn
  generalize hH : (post_shape path b.length []).length = H at *
  have hd : s.inData = post_shape path b.length [] ++ b := by
    rw [hdata]; exact post_shape_append _ _ _
  have hdl : s.inData.length = H + b.length := by rw [hdata, hl1]
  -- the header read went past the terminator
  have hk : H ≤ k := by
    rcases hstop with h | h | h
    · by_contra hlt
      have e1 : s.inData.take k = (post_shape path b.length []).take k := by
        rw [hd, List.take_append_of_le_length (by omega)]
      rw [e1, post_shape_no_early_terminator path b.length k hpath (by omega)] at h
      cases h
    · omega
    · omega
  have htake : s.inData.take k = post_shape path b.length (b.take (k - H)) := by
    rw [hd, List.take_append_eq_append_take, List.take_of_length_le (by omega), hH]
    exact (post_shape_append _ _ _).symm
  have hdrop : r.sock.inData = b.drop (k - H) := by
    rw [hin, hd, List.drop_append_eq_append_drop, List.drop_of_length_le (by omega), hH]
    rfl
  have hbt : ∀ c ∈ b.take (k - H), c ≠ 0 := fun c hc => hb c (List.mem_of_mem_take hc)
  have hreq : cstr r.buf = post_shape path b.length (b.take (k - H)) := by
    rw [hbuf, cstr_reqbuf _ _ hk2, htake]
    exact cstr_of_nul_free _ (post_shape_nul_free path b.length _ hpath hbt)
  have hrl : (cstr r.buf).length ≤ 4095 := by
    have := cstr_length_le (s.inData.take k)
    rw [hbuf, cstr_reqbuf _ _ hk2]
    rw [List.length_take] at this
    omega
  have hacc1 : accepts r.sock := by unfold accepts; rw [hout]; exact hacc
  obtain ⟨s1, v, hv, h1, h2⟩ := handle_post_spec (cstr r.buf) r.sock hrl hacc1
  -- the declared length and the echoed bytes
  have hv2 : v = (b.length : Int) := by
    rw [hreq, post_shape_content_length path b.length _ hpath hn] at hv
    injection hv with hv
    exact hv.symm
  have hecho : post_echo (cstr r.buf) v r.sock.inData = b := by
    have hcl : clamp_length (b.length : Int) = b.length := by
      unfold clamp_length
      rw [if_neg (by omega), if_neg (by omega), Int.toNat_ofNat]
    have hla : look_ahead (post_shape path b.length (b.take (k - H))) b.length
        = b.take (k - H) := by
      unfold look_ahead
      rw [post_shape_body_start path b.length _ hpath]
      simp only [List.drop_succ_cons, List.drop_zero]
      rw [List.take_of_length_le (by rw [List.length_take]; omega)]
    have ht : List.take (b.length - (b.take (k - H)).length) (b.drop (k - H))
        = b.drop (k - H) :=
      List.take_of_length_le (by rw [List.length_drop, List.length_take]; omega)
    unfold post_echo
    rw [hv2, hcl, hreq, hla, hdrop, ht, List.take_append_drop]
    exact cstr_of_nul_free b hb
  refine ⟨s1, ?_, by rw [h2, hecho, hwire]⟩
  unfold handle_client
  rw [hr]
  simp only [handle_request, hreq, post_shape_parse path b.length _ hpath]
  rw [if_neg (by decide), if_neg (by decide), if_pos trivial]
  rw [← hreq]
  exact h1

/-! ## Every path through handle_client -/

theorem ok_response_post (e : List Nat) :
    ok_header (20 + e.length) ++ (POST_LABEL ++ e) = ok_response (POST_LABEL ++ e) := by
  have : POST_LABEL.length = 20 := by decide
  unfold ok_response
  rw [List.length_append, this]

/-- What `handle_request` sends towards a client that accepts bytes, by the
outcome of the request-line parse. -/
theorem handle_request_spec (reqbuf : List Nat) (s : Sock) (clock : List Nat)
    (hlen : (cstr reqbuf).length ≤ 4095) (hacc : accepts s) :
    ∃ s1, handle_request reqbuf s clock = some s1
      ∧ ((sscanf_request_line (cstr reqbuf)).count ≠ 3 →
          handle_request reqbuf s clock = send_all s (BAD_REQUEST ++ [0]) BAD_REQUEST.length
          ∧ s1.wire = s.wire ++ BAD_REQUEST ∧ s1.inData = s.inData
          ∧ recv_calls s1 = recv_calls s)
      ∧ ((sscanf_request_line (cstr reqbuf)).count = 3 →
          (sscanf_request_line (cstr reqbuf)).method ≠ bytes "GET" →
          (sscanf_request_line (cstr reqbuf)).method ≠ bytes "POST" →
          handle_request reqbuf s clock
            = send_all s (METHOD_NOT_ALLOWED ++ [0]) METHOD_NOT_ALLOWED.length
          ∧ s1.wire = s.wire ++ METHOD_NOT_ALLOWED ∧ s1.inData = s.inData
          ∧ recv_calls s1 = recv_calls s)
      ∧ ((sscanf_request_line (cstr reqbuf)).count = 3 →
          (sscanf_request_line (cstr reqbuf)).method = bytes "POST" →
          ∃ v, scan_content_length ((cstr reqbuf).length + 1) (cstr reqbuf) 0 = some v
            ∧ s1.wire = s.wire ++ ok_response (POST_LABEL ++ post_echo (cstr reqbuf) v s.inData))
      ∧ ((sscanf_request_line (cstr reqbuf)).count = 3 →
          (sscanf_request_line (cstr reqbuf)).method = bytes "GET" →
          s1.wire = s.wire ++ ok_response
            (get_body (split_query (sscanf_request_line (cstr reqbuf)).path).1
              (split_query (sscanf_request_line (cstr reqbuf)).path).2 clock)) := by
  generalize hline : sscanf_request_line (cstr reqbuf) = line
  have hgp : bytes "GET" ≠ bytes "POST" := by decide
  by_cases h3 : line.count = 3
  · by_cases hpost : line.method = bytes "POST"
    · obtain ⟨s1, v, hv, h1, h2⟩ := handle_post_spec (cstr reqbuf) s hlen hacc
      have hrun : handle_request reqbuf s clock = some s1 := by
        unfold handle_request
        simp only [hline]
        rw [if_neg (by simpa using h3), if_neg (by simp [hpost]), if_pos hpost]
        exact h1
      refine ⟨s1, hrun, fun h => absurd h3 h, fun _ _ h => absurd hpost h,
        fun _ _ => ⟨v, hv, by rw [h2, ok_response_post]⟩, fun _ h => ?_⟩
      rw [hpost] at h
      exact absurd h.symm hgp
    · by_cases hget : line.method = bytes "GET"
      · obtain ⟨s1, h1, h2, _⟩ := handle_get_spec (split_query line.path).1
          (split_query line.path).2 clock s hacc
        have hrun : handle_request reqbuf s clock = some s1 := by
          unfold handle_request
          simp only [hline]
          rw [if_neg (by simpa using h3), if_neg (by simp [hget]), if_neg hpost]
          exact h1
        exact ⟨s1, hrun, fun h => absurd h3 h, fun _ h _ => absurd hget h,
          fun _ h => absurd h hpost, fun _ _ => h2⟩
      · obtain ⟨s1, h1, h2, h3', _, _, _, h7⟩ := send_all_text s METHOD_NOT_ALLOWED hacc
        have hrun : handle_request reqbuf s clock
            = send_all s (METHOD_NOT_ALLOWED ++ [0]) METHOD_NOT_ALLOWED.length := by
          unfold handle_request
          simp only [hline]
          rw [if_neg (by simpa using h3), if_pos ⟨hget, hpost⟩]
        exact ⟨s1, by rw [hrun, h1], fun h => absurd h3 h, fun _ _ _ => ⟨hrun, h2, h3', h7⟩,
          fun _ h => absurd h hpost, fun _ h => absurd h hget⟩
  · obtain ⟨s1, h1, h2, h3', _, _, _, h7⟩ := send_all_text s BAD_REQUEST hacc
    have hrun : handle_request reqbuf s clock
        = send_all s (BAD_REQUEST ++ [0]) BAD_REQUEST.length := by
      unfold handle_request
      simp only [hline]
      rw [if_pos (by simpa using h3)]
    exact ⟨s1, by rw [hrun, h1], fun _ => ⟨hrun, h2, h3', h7⟩, fun h => absurd h h3,
      fun h => absurd h h3, fun h => absurd h h3⟩

/-! ## Tokens and the request-line parse -/

theorem tokens_nil : tokens [] = [] := rfl

theorem tokens_cons_space (c : Nat) (cs : List Nat) (hc : isspace c = true) :
    tokens (c :: cs) = tokens cs := by
  simp [tokens, tokens_aux, hc]

theorem tokens_skip_space (s : List Nat) : tokens (skip_space s) = tokens s := by
  induction s with
  | nil => rfl
  | cons c cs ih =>
    by_cases hc : isspace c = true
    · rw [skip_space_cons c cs hc, ih, tokens_cons_space c cs hc]
    · have : skip_space (c :: cs) = c :: cs := by
        simp [skip_space, List.dropWhile_cons, hc]
      rw [this]

theorem tokens_aux_run (s : List Nat) : ∀ cur : List Nat,
    (cur ≠ [] ∨ ∃ c cs, s = c :: cs ∧ isspace c = false) →
    tokens_aux cur s = (cur ++ s.takeWhile (fun c => !isspace c))
      :: tokens (s.dropWhile (fun c => !isspace c)) := by
  induction s with
  | nil =>
    intro cur h
    rcases h with h | ⟨c, cs, h, _⟩
    · simp [tokens_aux, h, tokens_nil]
    · cases h
  | cons c cs ih =>
    intro cur h
    by_cases hc : isspace c = true
    · have hcur : cur ≠ [] := by
        rcases h with h | ⟨c1, cs1, h, h1⟩
        · exact h
        · injection h with h2 h3
          rw [← h2, hc] at h1
          cases h1
      rw [tokens_aux, if_pos hc, if_neg hcur]
      simp [List.takeWhile_cons, List.dropWhile_cons, hc, tokens_cons_space]
      rfl
    · have hc1 : isspace c = false := by simpa using hc
      rw [tokens_aux, if_neg hc, ih (cur ++ [c]) (Or.inl (by simp))]
      simp [List.takeWhile_cons, List.dropWhile_cons, hc1]

theorem skip_space_head (s : List Nat) : ∀ (c : Nat) (cs : List Nat),
    skip_space s = c :: cs → isspace c = false := by
  induction s with
  | nil => intro c cs h; cases h
  | cons a l ih =>
    intro c cs h
    by_cases ha : isspace a = true
    · rw [skip_space_cons a l ha] at h
      exact ih c cs h
    · have : skip_space (a :: l) = a :: l := by
        simp [skip_space, List.dropWhile_cons, ha]
      rw [this] at h
      injection h with h1 h2
      rw [← h1]
      simpa using ha

theorem tokens_of_not_space (s : List Nat) (hs : skip_space s ≠ []) :
    tokens s = (skip_space s).takeWhile (fun c => !isspace c)
      :: tokens ((skip_space s).dropWhile (fun c => !isspace c)) := by
  rw [← tokens_skip_space s]
  have hhead : ∃ c cs, skip_space s = c :: cs ∧ isspace c = false := by
    cases h : skip_space s with
    | nil => exact absurd h hs
    | cons c cs => exact ⟨c, cs, rfl, skip_space_head s c cs h⟩
  have := tokens_aux_run (skip_space s) [] (Or.inr hhead)
  simpa [tokens] using this

theorem skip_space_eq_nil_of_tokens (s : List Nat) (h : tokens s = []) : skip_space s = [] := by
  by_contra hs
  rw [tokens_of_not_space s hs] at h
  cases h

theorem drop_takeWhile_length (p : Nat → Bool) (l : List Nat) :
    l.drop (l.takeWhile p).length = l.dropWhile p := by
  induction l with
  | nil => rfl
  | cons c cs ih =>
    by_cases hc : p c = true
    · simp [List.takeWhile_cons, List.dropWhile_cons, hc, ih]
    · simp [List.takeWhile_cons, List.dropWhile_cons, hc]

/-- Fewer than three tokens, the first two within the field widths: the
parse does not convert three fields. -/
theorem sscanf_count_of_few_tokens (input : List Nat) (hcount : (tokens input).length < 3)
    (hw1 : ((tokens input).getD 0 []).length ≤ 15)
    (hw2 : ((tokens input).getD 1 []).length ≤ 255) :
    (sscanf_request_line input).count ≠ 3 := by
  unfold sscanf_request_line
  by_cases h0 : skip_space input = []
  · simp only [h0, if_true]; decide
  · rw [if_neg h0]
    have t0 := tokens_of_not_space input h0
    generalize hs0 : skip_space input = s0 at *
    have hm : scan_token 15 s0 = s0.takeWhile (fun c => !isspace c) := by
      unfold scan_token
      apply List.take_of_length_le
      rw [t0] at hw1
      simpa using hw1
    simp only [hm, drop_takeWhile_length]
    by_cases h1 : skip_space (s0.dropWhile (fun c => !isspace c)) = []
    · simp only [h1, if_true]; decide
    · rw [if_neg h1]
      have t1 := tokens_of_not_space _ h1
      generalize hs1 : skip_space (s0.dropWhile (fun c => !isspace c)) = s1 at *
      have hp : scan_token 255 s1 = s1.takeWhile (fun c => !isspace c) := by
        unfold scan_token
        apply List.take_of_length_le
        rw [t0, t1] at hw2
        simpa using hw2
      simp only [hp, drop_takeWhile_length]
      have h2 : skip_space (s1.dropWhile (fun c => !isspace c)) = [] := by
        apply skip_space_eq_nil_of_tokens
        rw [t0, t1] at hcount
        simp only [List.length_cons] at hcount
        exact List.length_eq_zero.mp (by omega)
      simp only [h2, if_true]
      decide

/-! ## The header read and the outcomes of handle_client -/

theorem cstr_idem (m : List Nat) : cstr (cstr m) = cstr m :=
  cstr_of_nul_free _ (cstr_nul_free m)

/-- The header read of `handle_client`, and the rest of `handle_client` as a
function of what it left in `reqbuf`. -/
theorem header_read (s : Sock) :
    ∃ s0 req k, received s = some req ∧ after_headers s = some s0
      ∧ (∀ clock, handle_client s clock = handle_request req s0 clock)
      ∧ cstr req = req ∧ req.length ≤ 4095
      ∧ s0.wire = s.wire ∧ s0.outSched = s.outSched
      ∧ k ≤ 4095 ∧ k ≤ s.inData.length
      ∧ req = cstr (s.inData.take k) ∧ s0.inData = s.inData.drop k
      ∧ ((strstr req CRLFCRLF).isSome = true ∨ k = s.inData.length ∨ k = 4095) := by
  obtain ⟨r, k, hr, hk1, hk2, hbuf, _, hin, _, hout, hwire, hstop⟩ := recv_all_headers_spec s
  have hreq : cstr r.buf = cstr (s.inData.take k) := by rw [hbuf, cstr_reqbuf _ _ hk2]
  refine ⟨r.sock, cstr r.buf, k, ?_, ?_, ?_, cstr_idem _, ?_, hwire, hout, hk2, hk1, hreq, hin, ?_⟩
  · unfold received; rw [hr]; rfl
  · unfold after_headers; rw [hr]; rfl
  · intro clock
    unfold handle_client
    rw [hr]
    simp only [handle_request, cstr_idem]
  · have := cstr_length_le (s.inData.take k)
    rw [List.length_take] at this
    rw [hreq]; omega
  · rw [hreq]; exact hstop

theorem ok_response_take (body : List Nat) :
    (ok_response body).take 12 = bytes "HTTP/1.1 200" := by
  unfold ok_response ok_header
  rw [List.append_assoc, List.append_assoc, List.take_append_of_le_length (by decide)]
  decide

theorem ok_response_ne_bad_request (body : List Nat) : ok_response body ≠ BAD_REQUEST := by
  intro h
  have := ok_response_take body
  rw [h] at this
  revert this
  decide

theorem recv_headers_loop_safe (size : Nat) (h1 : 1 ≤ size) (h2 : size ≤ 2147483648)
    (fuel : Nat) :
    ∀ (s : Sock) (buf : List Nat) (total : Nat) (steps : List HdrStep),
    buf.length = size → total ≤ size - 1 → s.inData.length < fuel →
    (∀ st ∈ steps, step_in_bounds size st) →
    ∃ r, recv_headers_loop size fuel s buf total steps = some r
      ∧ r.total ≤ size - 1 ∧ r.buf.length = size
      ∧ ∀ st ∈ r.steps, step_in_bounds size st := by
  induction fuel with
  | zero => intro s buf total steps _ _ hf; omega
  | succ fuel ih =>
    intro s buf total steps hbuf htot hf hsteps
    have hreq := recv_len_small size total h1 h2 htot
    rw [recv_headers_loop]
    simp only [hreq]
    have hle := recv_count_le_len s (size - 1 - total)
    have hld := recv_count_le_data s (size - 1 - total)
    by_cases hc : 0 < recv_count s (size - 1 - total)
    · have hfst := recv_fst_of_pos s _ hc
      have hn : to_int (recv s (size - 1 - total)).1 = (recv_count s (size - 1 - total) : Int) := by
        rw [hfst, to_int_small _ (by omega)]
      have hlen : (List.take (recv_count s (size - 1 - total)) s.inData).length
          = recv_count s (size - 1 - total) := by
        rw [List.length_take]; omega
      have hpoke1 := poke_isSome buf total (List.take (recv_count s (size - 1 - total)) s.inData)
        (by rw [hlen]; omega)
      have hl1 := poke_length _ _ _ _ hpoke1
      generalize hb1 : List.take total buf ++ List.take (recv_count s (size - 1 - total)) s.inData
        ++ List.drop (total + (List.take (recv_count s (size - 1 - total)) s.inData).length) buf
        = buf1 at hpoke1 hl1
      have hpoke2 := poke_isSome buf1 (total + recv_count s (size - 1 - total)) [0]
        (by rw [hl1, hbuf]; simp only [List.length_singleton]; omega)
      have hl2 := poke_length _ _ _ _ hpoke2
      generalize hb2 : List.take (total + recv_count s (size - 1 - total)) buf1 ++ [0]
        ++ List.drop (total + recv_count s (size - 1 - total) + [0].length) buf1 = buf2
        at hpoke2 hl2
      simp only [hn, recv_data, hpoke1, Int.toNat_ofNat, hpoke2]
      generalize hcdef : recv_count s (size - 1 - total) = c at *
      have hsteps1 : ∀ st ∈ steps ++ [HdrStep.mk total (size - 1 - total) (c : Int)],
          step_in_bounds size st := by
        intro st hst
        rcases List.mem_append.mp hst with h | h
        · exact hsteps st h
        · rw [List.mem_singleton] at h
          subst h
          refine ⟨htot, by simp only []; omega, by simp only []; omega, ?_⟩
          simp only [Int.toNat_ofNat]
          omega
      have h4 : to_size_t ((size : Int) - 1) = size - 1 := by
        simp only [to_size_t]; omega
      have h5 : to_size_t ((total + c : Nat) : Int) = total + c := to_size_t_small _ (by omega)
      rw [if_pos (by exact_mod_cast hc), if_neg (by unfold INT_MAX; omega), h4, h5]
      by_cases hterm : (strstr (cstr buf2) CRLFCRLF).isSome = true
      · rw [if_pos hterm]
        exact ⟨_, rfl, by simp only []; omega, by rw [hl2, hl1, hbuf], hsteps1⟩
      · rw [if_neg hterm]
        by_cases hfull : total + c ≥ size - 1
        · rw [if_pos hfull]
          exact ⟨_, rfl, by simp only []; omega, by rw [hl2, hl1, hbuf], hsteps1⟩
        · rw [if_neg hfull]
          exact ih _ _ _ _ (by rw [hl2, hl1, hbuf]) (by omega)
            (by rw [recv_inData, hcdef, List.length_drop]; omega) hsteps1
    · have hc0 : recv_count s (size - 1 - total) = 0 := by omega
      have h2' : (recv s (size - 1 - total)).1 = 0 ∨ (recv s (size - 1 - total)).1 = -1 := by
        simp only [recv, hc0, if_true]
        split <;> simp
      have hnp : ¬ (to_int (recv s (size - 1 - total)).1 > 0) := by
        rcases h2' with h | h <;> rw [h] <;> decide
      rw [if_neg hnp]
      refine ⟨_, rfl, htot, hbuf, ?_⟩
      intro st hst
      rcases List.mem_append.mp hst with h | h
      · exact hsteps st h
      · rw [List.mem_singleton] at h
        subst h
        have hv : to_int (recv s (size - 1 - total)).1 = 0
            ∨ to_int (recv s (size - 1 - total)).1 = -1 := by
          rcases h2' with h | h <;> rw [h]
          · left; decide
          · right; decide
        refine ⟨htot, by simp only []; omega, ?_, ?_⟩
        · simp only []; rcases hv with h | h <;> rw [h] <;> omega
        · simp only []; rcases hv with h | h <;> rw [h] <;> simp <;> omega

/-- Body assembly stays within `body_data`, whatever length is declared. -/
theorem assemble_body_bounds (req : List Nat) (content_length : Int) (s : Sock)
    (hreq : req.length ≤ 4095) :
    ∃ b, assemble_body req content_length s = some b
      ∧ (∀ a ∈ b.counts, a ≤ POST_MAX) ∧ b.already_have ≤ POST_MAX
      ∧ b.body_data.length = POST_MAX + 1 ∧ (cstr b.body_data).length ≤ POST_MAX := by
  obtain ⟨b, m, hb, hm, hbd, hah, hle, _, _, _, _, hcnt⟩ :=
    assemble_body_spec req content_length s hreq
  generalize look_ahead req (clamp_length content_length) = look at *
  have hml : (List.take m s.inData).length = m := by
    rw [List.length_take]; omega
  refine ⟨b, hb, hcnt, by rw [hah]; exact hle, ?_, ?_⟩
  · rw [hbd]
    simp only [List.length_append, List.length_replicate, hml, POST_MAX]
    omega
  · obtain ⟨z, hz⟩ : ∃ z, 4097 - (look.length + m) = z + 1 := ⟨4096 - (look.length + m), by omega⟩
    rw [hbd, hz, cstr_append_zeros]
    have := cstr_length_le (look ++ List.take m s.inData)
    rw [List.length_append, hml] at this
    unfold POST_MAX
    omega

theorem ok_response_literal (body : List Nat) :
    ok_response body = bytes "HTTP/1.1 200 OK\r\nContent-Length: " ++ fmt_zu body.length
      ++ bytes "\r\nContent-Type: text/plain\r\nConnection: close\r\n\r\n" ++ body := rfl

/-! ## The claims -/

/-- C2, at the failing input: a Content-Length line with no value lets the
`%d` conversion skip the line ends and read the length from the look-ahead
body bytes.  The same stream is answered with the echo `5hell` when one
receive delivers it whole, and with an empty echo when the first receive
ends at the terminator. -/
theorem content_length_read_depends_on_fragmentation :
    wire_after (client (bytes "POST /any HTTP/1.1\r\nContent-Length:\r\n\r\n5hello") []) []
        = some (ok_response (bytes "Received POST data:\n5hell"))
    ∧ wire_after (client (bytes "POST /any HTTP/1.1\r\nContent-Length:\r\n\r\n5hello") [38]) []
        = some (ok_response (bytes "Received POST data:\n")) := by
  decide!

/-- C5: when the request line parses into three tokens and the method token
is neither `GET` nor `POST` (byte for byte), `handle_client` answers with the
405 text, whose status line is `HTTP/1.1 405 Method Not Allowed`; after the
header read it does nothing but send that text (no Content-Length scan, no
body assembly), and it makes no further receive. -/
theorem method_not_allowed (s : Sock) (clock req : List Nat) (hacc : accepts s)
    (hreq : received s = some req)
    (hcount : (sscanf_request_line req).count = 3)
    (hget : (sscanf_request_line req).method ≠ bytes "GET")
    (hpost : (sscanf_request_line req).method ≠ bytes "POST") :
    wire_after s clock = some (s.wire ++ METHOD_NOT_ALLOWED)
      ∧ bytes "HTTP/1.1 405 Method Not Allowed\r\n" <+: METHOD_NOT_ALLOWED
      ∧ handle_client s clock = (after_headers s).bind
          (fun s0 => send_all s0 (METHOD_NOT_ALLOWED ++ [0]) METHOD_NOT_ALLOWED.length)
      ∧ (handle_client s clock).map recv_calls = (after_headers s).map recv_calls := by
  obtain ⟨s0, req0, k, h1, h2, h3, h4, h5, h6, h7, _⟩ := header_read s
  rw [h1] at hreq
  injection hreq with hreq
  subst hreq
  have hacc0 : accepts s0 := by unfold accepts; rw [h7]; exact hacc
  obtain ⟨s1, g1, _, g2, _⟩ := handle_request_spec req0 s0 clock (by rw [h4]; exact h5) hacc0
  rw [h4] at g2
  obtain ⟨g3, g4, _, g5⟩ := g2 hcount hget hpost
  refine ⟨?_, by decide, ?_, ?_⟩
  · unfold wire_after
    rw [h3, g1, Option.map_some', g4, h6]
  · rw [h3, h2, g3]; rfl
  · rw [h3, h2, g1, Option.map_some', Option.map_some', g5]

theorem method_not_allowed_witness :
    wire_after (client (bytes "DELETE /x HTTP/1.1\r\n\r\n") [5]) []
        = some ((client (bytes "DELETE /x HTTP/1.1\r\n\r\n") [5]).wire ++ METHOD_NOT_ALLOWED)
      ∧ bytes "HTTP/1.1 405 Method Not Allowed\r\n" <+: METHOD_NOT_ALLOWED
      ∧ handle_client (client (bytes "DELETE /x HTTP/1.1\r\n\r\n") [5]) []
          = (after_headers (client (bytes "DELETE /x HTTP/1.1\r\n\r\n") [5])).bind
            (fun s0 => send_all s0 (METHOD_NOT_ALLOWED ++ [0]) METHOD_NOT_ALLOWED.length)
      ∧ (handle_client (client (bytes "DELETE /x HTTP/1.1\r\n\r\n") [5]) []).map recv_calls
          = (after_headers (client (bytes "DELETE /x HTTP/1.1\r\n\r\n") [5])).map recv_calls :=
  method_not_allowed (client (bytes "DELETE /x HTTP/1.1\r\n\r\n") [5]) []
    (bytes "DELETE /x HTTP/1.1\r\n\r\n") (by decide) (by decide!) (by decide) (by decide)
    (by decide)

/-- C6, counterexample: a first line of four tokens is answered 200 and a
first line of one token followed by a header line is answered 405; neither
is answered 400. -/
theorem first_line_token_count_not_checked :
    wire_after (client (bytes "GET /hello HTTP/1.1 extra\r\n\r\n") []) []
        = some (ok_response (bytes "Hello Student!"))
    ∧ wire_after (client (bytes "GARBAGE\r\nHost: h\r\n\r\n") []) []
        = some METHOD_NOT_ALLOWED := by
  decide!

/-- C6, amended: when the received buffer holds fewer than three tokens in
all, the first of at most 15 bytes and the second of at most 255, the
request-line parse does not convert three fields and `handle_client` answers
with the 400 text; after the header read it does nothing but send that text
(no routing), and it makes no further receive (no body is read). -/
theorem few_tokens_bad_request (s : Sock) (clock req : List Nat) (hacc : accepts s)
    (hreq : received s = some req)
    (hcount : (tokens req).length < 3)
    (hw1 : ((tokens req).getD 0 []).length ≤ 15)
    (hw2 : ((tokens req).getD 1 []).length ≤ 255) :
    (sscanf_request_line req).count ≠ 3
      ∧ wire_after s clock = some (s.wire ++ BAD_REQUEST)
      ∧ bytes "HTTP/1.1 400 Bad Request\r\n" <+: BAD_REQUEST
      ∧ handle_client s clock = (after_headers s).bind
          (fun s0 => send_all s0 (BAD_REQUEST ++ [0]) BAD_REQUEST.length)
      ∧ (handle_client s clock).map recv_calls = (after_headers s).map recv_calls := by
  have hparse := sscanf_count_of_few_tokens req hcount hw1 hw2
  obtain ⟨s0, req0, k, h1, h2, h3, h4, h5, h6, h7, _⟩ := header_read s
  rw [h1] at hreq
  injection hreq with hreq
  subst hreq
  have hacc0 : accepts s0 := by unfold accepts; rw [h7]; exact hacc
  obtain ⟨s1, g1, g2, _⟩ := handle_request_spec req0 s0 clock (by rw [h4]; exact h5) hacc0
  rw [h4] at g2
  obtain ⟨g3, g4, _, g5⟩ := g2 hparse
  refine ⟨hparse, ?_, by decide, ?_, ?_⟩
  · unfold wire_after
    rw [h3, g1, Option.map_some', g4, h6]
  · rw [h3, h2, g3]; rfl
  · rw [h3, h2, g1, Option.map_some', Option.map_some', g5]

theorem few_tokens_bad_request_witness :
    (sscanf_request_line (bytes "GARBAGE\r\n\r\n")).count ≠ 3
      ∧ wire_after (client (bytes "GARBAGE\r\n\r\n") [2]) []
          = some ((client (bytes "GARBAGE\r\n\r\n") [2]).wire ++ BAD_REQUEST)
      ∧ bytes "HTTP/1.1 400 Bad Request\r\n" <+: BAD_REQUEST
      ∧ handle_client (client (bytes "GARBAGE\r\n\r\n") [2]) []
          = (after_headers (client (bytes "GARBAGE\r\n\r\n") [2])).bind
            (fun s0 => send_all s0 (BAD_REQUEST ++ [0]) BAD_REQUEST.length)
      ∧ (handle_client (client (bytes "GARBAGE\r\n\r\n") [2]) []).map recv_calls
          = (after_headers (client (bytes "GARBAGE\r\n\r\n") [2])).map recv_calls :=
  few_tokens_bad_request (client (bytes "GARBAGE\r\n\r\n") [2]) [] (bytes "GARBAGE\r\n\r\n")
    (by decide) (by decide!) (by decide) (by decide) (by decide)

/-- C7, counterexample: the stream ends before any CRLFCRLF arrives, the
buffer holds no terminator, and the request is routed and answered 200. -/
theorem truncated_headers_are_routed :
    received (client (bytes "GET /hello HTTP/1.1") []) = some (bytes "GET /hello HTTP/1.1")
    ∧ strstr (bytes "GET /hello HTTP/1.1") CRLFCRLF = none
    ∧ wire_after (client (bytes "GET /hello HTTP/1.1") []) []
        = some (ok_response (bytes "Hello Student!")) := by
  decide!

/-- C7, amended: when `recv_all_headers` ends without the terminator in the
buffer, the buffer holds the first 4095 bytes of the stream (all of it when
it is shorter) and `handle_client` parses them like a complete request: it
sends the 400 text exactly when they do not parse into three tokens. -/
theorem truncated_headers_parsed_as_received (s : Sock) (clock req : List Nat)
    (hacc : accepts s) (hreq : received s = some req) (hterm : strstr req CRLFCRLF = none) :
    req = cstr (s.inData.take 4095)
      ∧ (wire_after s clock = some (s.wire ++ BAD_REQUEST)
          ↔ (sscanf_request_line req).count ≠ 3) := by
  obtain ⟨s0, req0, k, h1, h2, h3, h4, h5, h6, h7, h8, h9, h10, _, hstop⟩ := header_read s
  rw [h1] at hreq
  injection hreq with hreq
  subst hreq
  have hacc0 : accepts s0 := by unfold accepts; rw [h7]; exact hacc
  obtain ⟨s1, g1, gbad, gmna, gpost, gget⟩ :=
    handle_request_spec req0 s0 clock (by rw [h4]; exact h5) hacc0
  rw [h4] at gbad gmna gpost gget
  have hwire : wire_after s clock = some s1.wire := by
    unfold wire_after
    rw [h3, g1, Option.map_some']
  constructor
  · rcases hstop with h | h | h
    · rw [hterm] at h; cases h
    · rw [h10, h, List.take_of_length_le (le_refl _), List.take_of_length_le (by omega)]
    · rw [h10, h]
  · rw [hwire]
    constructor
    · intro hw h3'
      injection hw with hw
      by_cases hpost : (sscanf_request_line req0).method = bytes "POST"
      · obtain ⟨v, _, hv⟩ := gpost h3' hpost
        rw [hv, h6] at hw
        exact ok_response_ne_bad_request _ (List.append_cancel_left hw)
      · by_cases hget : (sscanf_request_line req0).method = bytes "GET"
        · have hv := gget h3' hget
          rw [hv, h6] at hw
          exact ok_response_ne_bad_request _ (List.append_cancel_left hw)
        · obtain ⟨_, hv, _⟩ := gmna h3' hget hpost
          rw [hv, h6] at hw
          have := List.append_cancel_left hw
          revert this
          decide
    · intro hc
      rw [(gbad hc).2.1, h6]

theorem truncated_headers_parsed_as_received_witness :
    bytes "GARBAGE" = cstr ((client (bytes "GARBAGE") [1, 2]).inData.take 4095)
      ∧ (wire_after (client (bytes "GARBAGE") [1, 2]) []
            = some ((client (bytes "GARBAGE") [1, 2]).wire ++ BAD_REQUEST)
          ↔ (sscanf_request_line (bytes "GARBAGE")).count ≠ 3) :=
  truncated_headers_parsed_as_received (client (bytes "GARBAGE") [1, 2]) [] (bytes "GARBAGE")
    (by decide) (by decide!) (by decide)

/-- C8, counterexample: for a buffer of 2^31 + 1 bytes the cast to `int`
wraps, and the first receive asks for 2^64 - 2^31 bytes, more than
`size - total - 1 = 2^31`. -/
theorem large_buffer_request_exceeds_room :
    (recv_all_headers (client [] []) (List.replicate 2147483649 0) 2147483649).map
        (fun r => r.steps) = some [HdrStep.mk 0 18446744071562067968 0]
    ∧ ¬ (18446744071562067968 ≤ 2147483649 - 0 - 1) := by
  decide!

/-- C8, amended: for every buffer size from 1 to 2^31 (so that `size - 1`
fits the `int` the length is cast to), every buffer of that size and every
client stream, `recv_all_headers` returns without a store outside the
buffer (the stores of the received bytes and of the NUL at `buf[total]` are
checked by `poke`), with `total ≤ size - 1`; on every turn `total ≤ size - 1`
before and after it and the receive asks for at most `size - total - 1`
bytes. -/
theorem recv_all_headers_in_bounds (size : Nat) (s : Sock) (buf : List Nat)
    (h1 : 1 ≤ size) (h2 : size ≤ 2147483648) (hbuf : buf.length = size) :
    ∃ r, recv_all_headers s buf size = some r
      ∧ r.total ≤ size - 1 ∧ r.buf.length = size
      ∧ ∀ st ∈ r.steps, step_in_bounds size st :=
  recv_headers_loop_safe size h1 h2 (s.inData.length + 1) s buf 0 [] hbuf (by omega) (by omega)
    (by simp)

theorem recv_all_headers_in_bounds_witness :
    ∃ r, recv_all_headers (client (bytes "abcdefgh\r\n\r\nxx") [0, 1, 2]) (List.replicate 8 7) 8
        = some r
      ∧ r.total ≤ 8 - 1 ∧ r.buf.length = 8
      ∧ ∀ st ∈ r.steps, step_in_bounds 8 st :=
  recv_all_headers_in_bounds 8 (client (bytes "abcdefgh\r\n\r\nxx") [0, 1, 2])
    (List.replicate 8 7) (by decide) (by decide) (by decide)

/-- C9: for every POST request, whatever length is declared (`content_length`
ranges over all integers) and whatever the stream still holds, body assembly
returns without a store outside `body_data[POST_MAX + 1]` (the stores of the
copied and received bytes and of the final NUL are checked by `poke`), every
value `already_have` takes is at most `POST_MAX`, and the answer echoes at
most 4096 bytes behind the label. -/
theorem post_body_bounded (s : Sock) (clock req : List Nat) (hacc : accepts s)
    (hreq : received s = some req)
    (hcount : (sscanf_request_line req).count = 3)
    (hpost : (sscanf_request_line req).method = bytes "POST") :
    ∃ s0, after_headers s = some s0
      ∧ (∀ content_length : Int, ∃ b, assemble_body req content_length s0 = some b
          ∧ (∀ a ∈ b.counts, a ≤ POST_MAX) ∧ b.already_have ≤ POST_MAX
          ∧ b.body_data.length = POST_MAX + 1 ∧ (cstr b.body_data).length ≤ POST_MAX)
      ∧ ∃ e, e.length ≤ 4096
          ∧ wire_after s clock = some (s.wire ++ ok_response (bytes "Received POST data:\n" ++ e)) := by
  obtain ⟨s0, req0, k, h1, h2, h3, h4, h5, h6, h7, _⟩ := header_read s
  rw [h1] at hreq
  injection hreq with hreq
  subst hreq
  have hacc0 : accepts s0 := by unfold accepts; rw [h7]; exact hacc
  obtain ⟨s1, g1, _, _, gpost, _⟩ :=
    handle_request_spec req0 s0 clock (by rw [h4]; exact h5) hacc0
  rw [h4] at gpost
  obtain ⟨v, _, hv⟩ := gpost hcount hpost
  refine ⟨s0, h2, fun cl => assemble_body_bounds req0 cl s0 h5,
    post_echo req0 v s0.inData, post_echo_length _ _ _, ?_⟩
  unfold wire_after
  rw [h3, g1, Option.map_some', hv, h6]
  rfl

theorem post_body_bounded_witness :
    ∃ s0, after_headers (client (bytes "POST /p HTTP/1.1\r\nContent-Length: 99999\r\n\r\nabc") [30])
        = some s0
      ∧ (∀ content_length : Int, ∃ b,
          assemble_body (bytes "POST /p HTTP/1.1\r\nContent-Length: 99999\r\n\r\nabc")
            content_length s0 = some b
          ∧ (∀ a ∈ b.counts, a ≤ POST_MAX) ∧ b.already_have ≤ POST_MAX
          ∧ b.body_data.length = POST_MAX + 1 ∧ (cstr b.body_data).length ≤ POST_MAX)
      ∧ ∃ e, e.length ≤ 4096
          ∧ wire_after (client (bytes "POST /p HTTP/1.1\r\nContent-Length: 99999\r\n\r\nabc") [30]) []
            = some ((client (bytes "POST /p HTTP/1.1\r\nContent-Length: 99999\r\n\r\nabc") [30]).wire
                ++ ok_response (bytes "Received POST data:\n" ++ e)) :=
  post_body_bounded (client (bytes "POST /p HTTP/1.1\r\nContent-Length: 99999\r\n\r\nabc") [30]) []
    (bytes "POST /p HTTP/1.1\r\nContent-Length: 99999\r\n\r\nabc")
    (by decide) (by decide!) (by decide) (by decide)

/-- C10: towards a client that accepts bytes `handle_client` always returns,
and when what it sent starts with `HTTP/1.1 200` it is the status line, a
Content-Length line whose decimal value is the number of body bytes sent
behind the blank line, the Content-Type line and `Connection: close`.  No
`snprintf` truncates: not the one into `resp[2048]`, for any path and query;
not those into `body[1024]` (for `/time` as long as `ctime` returns at most
1009 bytes; it returns 25); not those into `header[256]` and
`body_msg[POST_MAX + 64]`, for any declared length. -/
theorem ok_response_declares_length (s : Sock) (clock : List Nat) (hacc : accepts s) :
    (∃ w, wire_after s clock = some (s.wire ++ w)
      ∧ (bytes "HTTP/1.1 200" <+: w → ∃ body,
          w = bytes "HTTP/1.1 200 OK\r\nContent-Length: " ++ fmt_zu body.length
              ++ bytes "\r\nContent-Type: text/plain\r\nConnection: close\r\n\r\n" ++ body
          ∧ digits_value (fmt_zu body.length) = body.length))
    ∧ (∀ path query,
        (snprintf 2048 (ok_header (get_body path query clock).length
          ++ get_body path query clock)).2 < 2048)
    ∧ (snprintf 1024 (bytes "Hello Student!")).2 < 1024
    ∧ (snprintf 1024 (bytes "Unknown Path!")).2 < 1024
    ∧ ((cstr clock).length ≤ 1009 →
        (snprintf 1024 (bytes "Current Time: " ++ cstr clock)).2 < 1024)
    ∧ (∃ s0 req, after_headers s = some s0 ∧ received s = some req
        ∧ ∀ content_length : Int, ∃ b, assemble_body req content_length s0 = some b
          ∧ (snprintf 256 (ok_header (20 + (cstr b.body_data).length))).2 < 256
          ∧ (snprintf (POST_MAX + 64) (POST_LABEL ++ cstr b.body_data)).2 < POST_MAX + 64) := by
  obtain ⟨s0, req0, k, h1, h2, h3, h4, h5, h6, h7, _⟩ := header_read s
  have hacc0 : accepts s0 := by unfold accepts; rw [h7]; exact hacc
  obtain ⟨s1, g1, gbad, gmna, gpost, gget⟩ :=
    handle_request_spec req0 s0 clock (by rw [h4]; exact h5) hacc0
  rw [h4] at gbad gmna gpost gget
  have hwire : wire_after s clock = some s1.wire := by
    unfold wire_after
    rw [h3, g1, Option.map_some']
  have hok : ∀ body, ∃ b1, ok_response body
      = bytes "HTTP/1.1 200 OK\r\nContent-Length: " ++ fmt_zu b1.length
        ++ bytes "\r\nContent-Type: text/plain\r\nConnection: close\r\n\r\n" ++ b1
      ∧ digits_value (fmt_zu b1.length) = b1.length :=
    fun body => ⟨body, ok_response_literal body, digits_value_fmt_zu _⟩
  refine ⟨?_, ?_, by decide, by decide, ?_, ?_⟩
  · by_cases hc : (sscanf_request_line req0).count = 3
    · by_cases hpost : (sscanf_request_line req0).method = bytes "POST"
      · obtain ⟨v, _, hv⟩ := gpost hc hpost
        exact ⟨_, by rw [hwire, hv, h6], fun _ => hok _⟩
      · by_cases hget : (sscanf_request_line req0).method = bytes "GET"
        · exact ⟨_, by rw [hwire, gget hc hget, h6], fun _ => hok _⟩
        · have hno : ¬ (bytes "HTTP/1.1 200" <+: METHOD_NOT_ALLOWED) := by decide
          exact ⟨METHOD_NOT_ALLOWED, by rw [hwire, (gmna hc hget hpost).2.1, h6],
            fun h => absurd h hno⟩
    · have hno : ¬ (bytes "HTTP/1.1 200" <+: BAD_REQUEST) := by decide
      exact ⟨BAD_REQUEST, by rw [hwire, (gbad hc).2.1, h6], fun h => absurd h hno⟩
  · intro path query
    have hb := get_body_length_le path query clock
    have hh := ok_header_length (get_body path query clock).length (by omega)
    simp only [snprintf, List.length_append]
    omega
  · intro hclock
    have : (bytes "Current Time: ").length = 14 := by decide
    simp only [snprintf, List.length_append, this]
    omega
  · refine ⟨s0, req0, h2, h1, fun cl => ?_⟩
    obtain ⟨b, hb, _, _, _, hlen⟩ := assemble_body_bounds req0 cl s0 h5
    have hh := ok_header_length (20 + (cstr b.body_data).length) (by unfold POST_MAX at hlen; omega)
    have hlab : POST_LABEL.length = 20 := by decide
    refine ⟨b, hb, ?_, ?_⟩
    · simp only [snprintf]; omega
    · simp only [snprintf, List.length_append, hlab]
      unfold POST_MAX at *
      omega

theorem ok_response_declares_length_witness :
    ∃ w, wire_after (client (bytes "GET /time HTTP/1.1\r\nHost: h\r\n\r\n") [9])
          (bytes "Thu Jan  1 00:00:00 1970\n")
        = some ((client (bytes "GET /time HTTP/1.1\r\nHost: h\r\n\r\n") [9]).wire ++ w)
      ∧ (bytes "HTTP/1.1 200" <+: w → ∃ body,
          w = bytes "HTTP/1.1 200 OK\r\nContent-Length: " ++ fmt_zu body.length
              ++ bytes "\r\nContent-Type: text/plain\r\nConnection: close\r\n\r\n" ++ body
          ∧ digits_value (fmt_zu body.length) = body.length) :=
  (ok_response_declares_length (client (bytes "GET /time HTTP/1.1\r\nHost: h\r\n\r\n") [9])
    (bytes "Thu Jan  1 00:00:00 1970\n") (by decide)).1

theorem ok_response_message (body : List Nat) :
    ok_response body = http_message (bytes "HTTP/1.1 200 OK")
      [bytes "Content-Length: " ++ fmt_zu body.length, bytes "Content-Type: text/plain",
        bytes "Connection: close"] body := by
  have e1 : bytes "HTTP/1.1 200 OK\r\nContent-Length: "
      = bytes "HTTP/1.1 200 OK" ++ CRLF ++ bytes "Content-Length: " := by decide
  have e2 : bytes "\r\nContent-Type: text/plain\r\nConnection: close\r\n\r\n"
      = CRLF ++ (bytes "Content-Type: text/plain" ++ CRLF)
        ++ (bytes "Connection: close" ++ CRLF) ++ CRLF := by decide
  unfold ok_response ok_header http_message
  rw [e1, e2]
  simp [List.flatten, List.append_assoc]

/-- C11, counterexample: the 400 answer carries neither a Content-Type nor a
Content-Length line, and the 405 answer carries no Content-Length line. -/
theorem error_answers_lack_content_length :
    wire_after (client (bytes "GARBAGE\r\n\r\n") []) [] = some BAD_REQUEST
      ∧ ¬ (bytes "Content-Length" <:+: BAD_REQUEST)
      ∧ ¬ (bytes "Content-Type" <:+: BAD_REQUEST)
      ∧ wire_after (client (bytes "DELETE /x HTTP/1.1\r\n\r\n") []) [] = some METHOD_NOT_ALLOWED
      ∧ ¬ (bytes "Content-Length" <:+: METHOD_NOT_ALLOWED) := by
  decide!

/-- C11, amended: every answer `handle_client` puts on the wire is a status
line, header lines, an empty line and a body.  The 400 answer has the one
header line `Connection: close` and no body; the 405 answer has the header
lines Content-Type and `Connection: close` and the body
`405 - Method Not Allowed`; a 200 answer has the header lines
Content-Length, Content-Type and `Connection: close`, and its body has as
many bytes as the Content-Length line declares. -/
theorem response_shapes (s : Sock) (clock : List Nat) (hacc : accepts s) :
    ∃ w, wire_after s clock = some (s.wire ++ w)
      ∧ (w = http_message (bytes "HTTP/1.1 400 Bad Request") [bytes "Connection: close"] []
        ∨ w = http_message (bytes "HTTP/1.1 405 Method Not Allowed")
            [bytes "Content-Type: text/plain", bytes "Connection: close"]
            (bytes "405 - Method Not Allowed")
        ∨ ∃ body, w = http_message (bytes "HTTP/1.1 200 OK")
            [bytes "Content-Length: " ++ fmt_zu body.length, bytes "Content-Type: text/plain",
              bytes "Connection: close"] body
          ∧ digits_value (fmt_zu body.length) = body.length) := by
  obtain ⟨s0, req0, k, h1, h2, h3, h4, h5, h6, h7, _⟩ := header_read s
  have hacc0 : accepts s0 := by unfold accepts; rw [h7]; exact hacc
  obtain ⟨s1, g1, gbad, gmna, gpost, gget⟩ :=
    handle_request_spec req0 s0 clock (by rw [h4]; exact h5) hacc0
  rw [h4] at gbad gmna gpost gget
  have hwire : wire_after s clock = some s1.wire := by
    unfold wire_after
    rw [h3, g1, Option.map_some']
  have hbad : BAD_REQUEST
      = http_message (bytes "HTTP/1.1 400 Bad Request") [bytes "Connection: close"] [] := by
    decide
  have hmna : METHOD_NOT_ALLOWED = http_message (bytes "HTTP/1.1 405 Method Not Allowed")
      [bytes "Content-Type: text/plain", bytes "Connection: close"]
      (bytes "405 - Method Not Allowed") := by decide
  by_cases hc : (sscanf_request_line req0).count = 3
  · by_cases hpost : (sscanf_request_line req0).method = bytes "POST"
    · obtain ⟨v, _, hv⟩ := gpost hc hpost
      exact ⟨_, by rw [hwire, hv, h6], Or.inr (Or.inr
        ⟨_, ok_response_message _, digits_value_fmt_zu _⟩)⟩
    · by_cases hget : (sscanf_request_line req0).method = bytes "GET"
      · exact ⟨_, by rw [hwire, gget hc hget, h6], Or.inr (Or.inr
          ⟨_, ok_response_message _, digits_value_fmt_zu _⟩)⟩
      · exact ⟨_, by rw [hwire, (gmna hc hget hpost).2.1, h6], Or.inr (Or.inl hmna)⟩
  · exact ⟨_, by rw [hwire, (gbad hc).2.1, h6], Or.inl hbad⟩

theorem response_shapes_witness :
    ∃ w, wire_after (client (bytes "POST /p HTTP/1.1\r\nContent-Length: 2\r\n\r\nhi") [4]) []
        = some ((client (bytes "POST /p HTTP/1.1\r\nContent-Length: 2\r\n\r\nhi") [4]).wire ++ w)
      ∧ (w = http_message (bytes "HTTP/1.1 400 Bad Request") [bytes "Connection: close"] []
        ∨ w = http_message (bytes "HTTP/1.1 405 Method Not Allowed")
            [bytes "Content-Type: text/plain", bytes "Connection: close"]
            (bytes "405 - Method Not Allowed")
        ∨ ∃ body, w = http_message (bytes "HTTP/1.1 200 OK")
            [bytes "Content-Length: " ++ fmt_zu body.length, bytes "Content-Type: text/plain",
              bytes "Connection: close"] body
          ∧ digits_value (fmt_zu body.length) = body.length) :=
  response_shapes (client (bytes "POST /p HTTP/1.1\r\nContent-Length: 2\r\n\r\nhi") [4]) []
    (by decide)

/-! ## The log of socket calls -/

theorem recv_headers_loop_log (size fuel : Nat) :
    ∀ (s : Sock) (buf : List Nat) (total : Nat) (steps : List HdrStep) (r : HdrResult),
    recv_headers_loop size fuel s buf total steps = some r →
    ∃ rs, r.sock.log = s.log ++ rs ∧ (∀ e ∈ rs, Ev.is_recv e = true)
      ∧ r.sock.outSched = s.outSched := by
  induction fuel with
  | zero => intro s buf total steps r h; cases h
  | succ fuel ih =>
    intro s buf total steps r h
    rw [recv_headers_loop] at h
    simp only [] at h
    have hone : ∀ len, ∃ rs, (recv s len).2.2.log = s.log ++ rs
        ∧ (∀ e ∈ rs, Ev.is_recv e = true) ∧ (recv s len).2.2.outSched = s.outSched := by
      intro len
      refine ⟨[Ev.recv len (recv s len).1], rfl, ?_, rfl⟩
      intro e he
      rw [List.mem_singleton] at he
      rw [he]; rfl
    split at h
    · split at h
      · cases h
      · split at h
        · cases h
        · split at h
          · cases h
          · split at h
            · injection h with h
              rw [← h]
              exact hone _
            · split at h
              · injection h with h
                rw [← h]
                exact hone _
              · obtain ⟨rs1, h1, h2, h3⟩ := hone
                  (to_size_t (to_int (to_size_t ((size : Int) - (total : Int) - 1))))
                obtain ⟨rs2, g1, g2, g3⟩ := ih _ _ _ _ r h
                refine ⟨rs1 ++ rs2, by rw [g1, h1, List.append_assoc], ?_, by rw [g3, h3]⟩
                intro e he
                rcases List.mem_append.mp he with h' | h'
                · exact h2 e h'
                · exact g2 e h'
    · injection h with h
      rw [← h]
      exact hone _

theorem recv_body_loop_log (fuel : Nat) :
    ∀ (s : Sock) (bd : List Nat) (a : Nat) (rem : Int) (counts : List Nat) (r : BodyResult),
    recv_body_loop fuel s bd a rem counts = some r →
    ∃ rs, r.sock.log = s.log ++ rs ∧ (∀ e ∈ rs, Ev.is_recv e = true)
      ∧ r.sock.outSched = s.outSched := by
  induction fuel with
  | zero => intro s bd a rem counts r h; cases h
  | succ fuel ih =>
    intro s bd a rem counts r h
    rw [recv_body_loop] at h
    simp only [] at h
    have hone : ∀ len, ∃ rs, (recv s len).2.2.log = s.log ++ rs
        ∧ (∀ e ∈ rs, Ev.is_recv e = true) ∧ (recv s len).2.2.outSched = s.outSched := by
      intro len
      refine ⟨[Ev.recv len (recv s len).1], rfl, ?_, rfl⟩
      intro e he
      rw [List.mem_singleton] at he
      rw [he]; rfl
    split at h
    · split at h
      · injection h with h
        rw [← h]
        exact hone _
      · split at h
        · cases h
        · obtain ⟨rs1, h1, h2, h3⟩ := hone (to_size_t rem)
          obtain ⟨rs2, g1, g2, g3⟩ := ih _ _ _ _ _ r h
          refine ⟨rs1 ++ rs2, by rw [g1, h1, List.append_assoc], ?_, by rw [g3, h3]⟩
          intro e he
          rcases List.mem_append.mp he with h' | h'
          · exact h2 e h'
          · exact g2 e h'
    · injection h with h
      rw [← h]
      exact ⟨[], by simp, by simp, rfl⟩

theorem assemble_body_log (req : List Nat) (cl : Int) (s : Sock) (b : BodyResult)
    (h : assemble_body req cl s = some b) :
    ∃ rs, b.sock.log = s.log ++ rs ∧ (∀ e ∈ rs, Ev.is_recv e = true)
      ∧ b.sock.outSched = s.outSched := by
  unfold assemble_body at h
  simp only [] at h
  split at h
  · cases h
  · split at h
    · cases h
    · rename_i r hr
      cases hp : poke r.body_data r.already_have [0] with
      | none => rw [hp] at h; cases h
      | some bd1 =>
        rw [hp] at h
        simp only [Option.map_some'] at h
        injection h with h
        rw [← h]
        exact recv_body_loop_log _ _ _ _ _ _ r hr

theorem send_any (s : Sock) (D : List Nat) (hD : 0 < D.length) :
    ((send s D).1 ≤ 0 ∨ ∃ n : Nat, 0 < n ∧ n ≤ D.length ∧ (send s D).1 = (n : Int))
      ∧ (send s D).2.log = s.log ++ [Ev.send D.length (send s D).1] := by
  unfold send
  cases hs : s.outSched with
  | nil => exact ⟨Or.inr ⟨D.length, hD, le_refl _, rfl⟩, rfl⟩
  | cons r rest =>
    simp only []
    by_cases hr : r ≤ 0
    · rw [if_pos hr]
      exact ⟨Or.inl hr, rfl⟩
    · rw [if_neg hr]
      exact ⟨Or.inr ⟨min r.toNat D.length, by omega, by omega, rfl⟩, rfl⟩

/-- The loop of `send_all` ends within its fuel whatever the sends return,
and logs sends only. -/
theorem send_loop_log (data : List Nat) (len : Nat) (hlen : len ≤ data.length) (fuel : Nat) :
    ∀ (s : Sock) (sent : Nat), sent ≤ len → len - sent < fuel →
    ∃ s1 ss, send_loop data len fuel s sent = some s1
      ∧ s1.log = s.log ++ ss ∧ (∀ e ∈ ss, Ev.is_send e = true) := by
  induction fuel with
  | zero => intro s sent _ hf; omega
  | succ fuel ih =>
    intro s sent hsent hf
    rw [send_loop]
    by_cases hlt : sent < len
    · rw [if_pos hlt, if_neg (by omega)]
      have hcl : ((data.drop sent).take (len - sent)).length = len - sent := by
        rw [List.length_take, List.length_drop]; omega
      obtain ⟨hret, hlog⟩ := send_any s ((data.drop sent).take (len - sent)) (by omega)
      have hev : ∀ e ∈ [Ev.send ((data.drop sent).take (len - sent)).length
          (send s ((data.drop sent).take (len - sent))).1], Ev.is_send e = true := by
        intro e he
        rw [List.mem_singleton] at he
        rw [he]; rfl
      simp only []
      rcases hret with h | ⟨n, hn0, hn1, hn⟩
      · rw [if_pos h]
        exact ⟨_, _, rfl, hlog, hev⟩
      · rw [if_neg (by rw [hn]; omega), hn, Int.toNat_ofNat]
        obtain ⟨s1, ss, h1, h2, h3⟩ := ih (send s ((data.drop sent).take (len - sent))).2
          (sent + n) (by omega) (by omega)
        refine ⟨s1, [Ev.send ((data.drop sent).take (len - sent)).length
          (send s ((data.drop sent).take (len - sent))).1] ++ ss, h1,
          by rw [h2, hlog, List.append_assoc], ?_⟩
        intro e he
        rcases List.mem_append.mp he with h' | h'
        · exact hev e h'
        · exact h3 e h'
    · rw [if_neg hlt]
      exact ⟨s, [], rfl, by simp, by simp⟩

theorem send_all_log (s : Sock) (data : List Nat) (len : Nat) (hlen : len ≤ data.length) :
    ∃ s1 ss, send_all s data len = some s1
      ∧ s1.log = s.log ++ ss ∧ (∀ e ∈ ss, Ev.is_send e = true) :=
  send_loop_log data len hlen (len + 1) s 0 (by omega) (by omega)

theorem handle_post_log (req : List Nat) (s : Sock) (hreq : req.length ≤ 4095) :
    ∃ s1 rs ss, handle_post req s = some s1
      ∧ s1.log = s.log ++ rs ++ ss
      ∧ (∀ e ∈ rs, Ev.is_recv e = true) ∧ (∀ e ∈ ss, Ev.is_send e = true) := by
  obtain ⟨v, hv⟩ := scan_content_length_total (req.length + 1) req 0 (by omega)
  obtain ⟨b, hb, _, _, _, hlen⟩ := assemble_body_bounds req v s hreq
  obtain ⟨rs, hr1, hr2, _⟩ := assemble_body_log req v s b hb
  have hh := ok_header_length (20 + (cstr b.body_data).length) (by unfold POST_MAX at hlen; omega)
  have hlab : POST_LABEL.length = 20 := by decide
  have e1 : List.take (256 - 1) (ok_header (20 + (cstr b.body_data).length))
      = ok_header (20 + (cstr b.body_data).length) := List.take_of_length_le (by omega)
  have e2 : List.take (POST_MAX + 64 - 1) (POST_LABEL ++ cstr b.body_data)
      = POST_LABEL ++ cstr b.body_data :=
    List.take_of_length_le (by
      rw [List.length_append, hlab]; unfold POST_MAX at *; omega)
  obtain ⟨s1, ss1, h1, h2, h3⟩ := send_all_log b.sock
    (ok_header (20 + (cstr b.body_data).length) ++ [0])
    (ok_header (20 + (cstr b.body_data).length)).length (by simp)
  obtain ⟨s2, ss2, g1, g2, g3⟩ := send_all_log s1 (POST_LABEL ++ cstr b.body_data ++ [0])
    (POST_LABEL ++ cstr b.body_data).length (by simp)
  refine ⟨s2, rs, ss1 ++ ss2, ?_, by rw [g2, h2, hr1]; simp only [List.append_assoc], hr2, ?_⟩
  · unfold handle_post
    simp only [hv, hb, snprintf, e1, e2, h1]
    exact g1
  · intro e he
    rcases List.mem_append.mp he with h' | h'
    · exact h3 e h'
    · exact g3 e h'

theorem handle_get_log (path : List Nat) (query : Option (List Nat)) (clock : List Nat)
    (s : Sock) :
    ∃ s1 ss, handle_get path query clock s = some s1
      ∧ s1.log = s.log ++ ss ∧ (∀ e ∈ ss, Ev.is_send e = true) := by
  have hb := get_body_length_le path query clock
  have hh := ok_header_length (get_body path query clock).length (by omega)
  unfold handle_get
  simp only [snprintf]
  rw [List.take_of_length_le (by rw [List.length_append]; omega)]
  exact send_all_log s _ _ (by simp)

theorem handle_request_log (reqbuf : List Nat) (s : Sock) (clock : List Nat)
    (hlen : (cstr reqbuf).length ≤ 4095) :
    ∃ s1 rs ss, handle_request reqbuf s clock = some s1
      ∧ s1.log = s.log ++ rs ++ ss
      ∧ (∀ e ∈ rs, Ev.is_recv e = true) ∧ (∀ e ∈ ss, Ev.is_send e = true) := by
  unfold handle_request
  simp only []
  split
  · obtain ⟨s1, ss, h1, h2, h3⟩ := send_all_log s (BAD_REQUEST ++ [0]) BAD_REQUEST.length (by simp)
    exact ⟨s1, [], ss, h1, by simpa using h2, by simp, h3⟩
  · split
    · obtain ⟨s1, ss, h1, h2, h3⟩ := send_all_log s (METHOD_NOT_ALLOWED ++ [0])
        METHOD_NOT_ALLOWED.length (by simp)
      exact ⟨s1, [], ss, h1, by simpa using h2, by simp, h3⟩
    · split
      · exact handle_post_log (cstr reqbuf) s hlen
      · obtain ⟨s1, ss, h1, h2, h3⟩ := handle_get_log
          (split_query (sscanf_request_line (cstr reqbuf)).path).1
          (split_query (sscanf_request_line (cstr reqbuf)).path).2 clock s
        exact ⟨s1, [], ss, h1, by simpa using h2, by simp, h3⟩

theorem handle_client_log (s : Sock) (clock : List Nat) :
    ∃ s1 rs ss, handle_client s clock = some s1
      ∧ s1.log = s.log ++ rs ++ ss
      ∧ (∀ e ∈ rs, Ev.is_recv e = true) ∧ (∀ e ∈ ss, Ev.is_send e = true) := by
  obtain ⟨r, k, hr, hk1, hk2, hbuf, _⟩ := recv_all_headers_spec s
  obtain ⟨rs1, a1, a2, _⟩ := recv_headers_loop_log _ _ _ _ _ _ r hr
  have hlen : (cstr r.buf).length ≤ 4095 := by
    have := cstr_length_le (s.inData.take k)
    rw [hbuf, cstr_reqbuf _ _ hk2]
    rw [List.length_take] at this
    omega
  obtain ⟨s1, rs2, ss, h1, h2, h3, h4⟩ := handle_request_log r.buf r.sock clock hlen
  refine ⟨s1, rs1 ++ rs2, ss, ?_, by rw [h2, a1]; simp only [List.append_assoc], ?_, h4⟩
  · unfold handle_client
    rw [hr]
    exact h1
  · intro e he
    rcases List.mem_append.mp he with h' | h'
    · exact a2 e h'
    · exact h3 e h'

/-- C12: for every client stream and every behaviour of the sends and
receives (failures included), `thread_func` returns, and the socket calls it
adds to the log are receives, then sends, then one close: every receive
comes before every send, and the single close is last. -/
theorem thread_func_closes_last (s : Sock) (clock : List Nat) :
    ∃ s1 rs ss, thread_func s clock = some s1
      ∧ s1.log = s.log ++ rs ++ ss ++ [Ev.close]
      ∧ (∀ e ∈ rs, Ev.is_recv e = true) ∧ (∀ e ∈ ss, Ev.is_send e = true) := by
  obtain ⟨s1, rs, ss, h1, h2, h3, h4⟩ := handle_client_log s clock
  have ht : thread_func s clock = some { s1 with log := s1.log ++ [Ev.close] } := by
    unfold thread_func
    rw [h1]
    rfl
  exact ⟨{ s1 with log := s1.log ++ [Ev.close] }, rs, ss, ht, by simp only [h2], h3, h4⟩

/-! ## Letter case and the Content-Length scan -/

theorem tolower_cases (c : Nat) : tolower c = c ∨ (65 ≤ c ∧ c ≤ 90 ∧ tolower c = c + 32) := by
  unfold tolower
  split
  · right; omega
  · left; rfl

theorem tolower_idem (c : Nat) : tolower (tolower c) = tolower c := by
  rcases tolower_cases c with h | ⟨h1, h2, h3⟩
  · rw [h, h]
  · rw [h3]
    unfold tolower
    rw [if_neg (by omega)]

theorem isspace_tolower (c : Nat) : isspace (tolower c) = isspace c := by
  rcases tolower_cases c with h | ⟨h1, h2, h3⟩
  · rw [h]
  · rw [h3]
    have e1 : isspace c = false := by rw [isspace_false_iff]; omega
    have e2 : isspace (c + 32) = false := by rw [isspace_false_iff]; omega
    rw [e1, e2]

theorem isdigit_tolower (c : Nat) : isdigit (tolower c) = isdigit c := by
  rcases tolower_cases c with h | ⟨h1, h2, h3⟩
  · rw [h]
  · rw [h3]
    have e1 : isdigit c = false := by
      rw [← Bool.not_eq_true, isdigit_iff]; omega
    have e2 : isdigit (c + 32) = false := by
      rw [← Bool.not_eq_true, isdigit_iff]; omega
    rw [e1, e2]

theorem tolower_of_isdigit (c : Nat) (h : isdigit c = true) : tolower c = c := by
  rw [isdigit_iff] at h
  unfold tolower
  rw [if_neg (by omega)]

/-- A byte below the letters is the lower case of itself only. -/
theorem tolower_eq_small (c x : Nat) (hx : x < 65) : tolower c = x ↔ c = x := by
  rcases tolower_cases c with h | ⟨h1, h2, h3⟩
  · rw [h]
  · rw [h3]; omega

theorem beq_tolower_small (c x : Nat) (hx : x < 65) : (x == tolower c) = (x == c) := by
  have := tolower_eq_small c x hx
  by_cases h : c = x
  · have h1 : tolower c = x := this.mpr h
    rw [h1, h]
  · have h1 : tolower c ≠ x := fun e => h (this.mp e)
    have e1 : (x == tolower c) = false := by simpa using fun e => h1 e.symm
    have e2 : (x == c) = false := by simpa using fun e => h e.symm
    rw [e1, e2]

theorem crlf_prefix_lower (l : List Nat) :
    CRLF.isPrefixOf (l.map tolower) = CRLF.isPrefixOf l := by
  cases l with
  | nil => rfl
  | cons c cs =>
    cases cs with
    | nil => simp [CRLF, List.isPrefixOf, beq_tolower_small]
    | cons d ds => simp [CRLF, List.isPrefixOf, beq_tolower_small]

theorem strstr_crlf_lower (a : List Nat) :
    strstr (a.map tolower) CRLF = (strstr a CRLF).map (List.map tolower) := by
  induction a with
  | nil => rfl
  | cons c cs ih =>
    have hp := crlf_prefix_lower (c :: cs)
    rw [List.map_cons] at hp ⊢
    rw [strstr, strstr, hp]
    by_cases h : CRLF.isPrefixOf (c :: cs) = true
    · rw [if_pos h, if_pos h]; rfl
    · rw [if_neg h, if_neg h, ih]

theorem skip_space_lower (a : List Nat) :
    skip_space (a.map tolower) = (skip_space a).map tolower := by
  unfold skip_space
  rw [List.dropWhile_map]
  have : isspace ∘ tolower = isspace := funext isspace_tolower
  rw [this]

theorem takeWhile_isdigit_lower (a : List Nat) :
    List.takeWhile isdigit (a.map tolower) = List.takeWhile isdigit a := by
  rw [List.takeWhile_map]
  have : isdigit ∘ tolower = isdigit := funext isdigit_tolower
  rw [this]
  have hall : ∀ c ∈ List.takeWhile isdigit a, tolower c = c := fun c hc =>
    tolower_of_isdigit c (List.mem_takeWhile_imp hc)
  rw [List.map_congr_left hall, List.map_id']

theorem sscanf_d_lower (a : List Nat) : sscanf_d (a.map tolower) = sscanf_d a := by
  unfold sscanf_d
  rw [skip_space_lower]
  generalize skip_space a = s1
  cases s1 with
  | nil => rfl
  | cons c cs =>
    have h45 : ((some (tolower c) : Option Nat) == some 45) = ((some c : Option Nat) == some 45) := by
      have := tolower_eq_small c 45 (by omega)
      by_cases h : c = 45
      · rw [h]; rfl
      · have h1 : tolower c ≠ 45 := fun e => h (this.mp e)
        simp [h, h1]
    have h43 : ((some (tolower c) : Option Nat) == some 43) = ((some c : Option Nat) == some 43) := by
      have := tolower_eq_small c 43 (by omega)
      by_cases h : c = 43
      · rw [h]; rfl
      · have h1 : tolower c ≠ 43 := fun e => h (this.mp e)
        simp [h, h1]
    simp only [List.map_cons, List.head?_cons, h45, h43]
    have hdrop : List.drop 1 (tolower c :: List.map tolower cs) = List.map tolower (List.drop 1 (c :: cs)) := by
      simp
    have hcons : tolower c :: List.map tolower cs = List.map tolower (c :: cs) := rfl
    rw [hdrop, hcons]
    split
    · rw [takeWhile_isdigit_lower]
    · rw [takeWhile_isdigit_lower]

theorem strncasecmp_lower (a x : List Nat) (n : Nat) :
    strncasecmp_eq (a.map tolower) x n = strncasecmp_eq a x n := by
  unfold strncasecmp_eq
  rw [← List.map_take, List.map_map]
  have : tolower ∘ tolower = tolower := funext tolower_idem
  rw [this]

/-- The scan reads a buffer and its lower-case copy alike. -/
theorem scan_content_length_lower (fuel : Nat) : ∀ (a : List Nat) (cl : Int),
    scan_content_length fuel (a.map tolower) cl = scan_content_length fuel a cl := by
  induction fuel with
  | zero => intro a cl; rfl
  | succ fuel ih =>
    intro a cl
    rw [scan_content_length, scan_content_length, strstr_crlf_lower, strncasecmp_lower,
      ← List.map_drop, sscanf_d_lower]
    by_cases h0 : a = []
    · subst h0; rfl
    · have h1 : List.map tolower a ≠ [] := by simpa using h0
      rw [if_neg h0, if_neg h1]
      cases hs : strstr a CRLF with
      | none => simp only [Option.map_none', List.length_map]
      | some e =>
        simp only [Option.map_some', List.length_map]
        rw [← List.map_drop, crlf_prefix_lower, ih]

/-- C13: for every spelling `name` of the field name that differs from
`Content-Length` only in the case of its letters, every buffer text `pre`
before it and every text `rest` behind it (so every value), the
Content-Length scan of the POST branch yields the same length as with the
canonical spelling. -/
theorem content_length_name_any_case (pre name rest : List Nat)
    (hname : name.map tolower = (bytes "Content-Length").map tolower) :
    scan_content_length ((pre ++ name ++ rest).length + 1) (pre ++ name ++ rest) 0
      = scan_content_length ((pre ++ bytes "Content-Length" ++ rest).length + 1)
          (pre ++ bytes "Content-Length" ++ rest) 0 := by
  have hlen : name.length = (bytes "Content-Length").length := by
    have := congrArg List.length hname
    simpa using this
  have hl : (pre ++ name ++ rest).length = (pre ++ bytes "Content-Length" ++ rest).length := by
    simp only [List.length_append, hlen]
  have hmap : (pre ++ name ++ rest).map tolower
      = (pre ++ bytes "Content-Length" ++ rest).map tolower := by
    simp only [List.map_append, hname]
  rw [hl, ← scan_content_length_lower _ (pre ++ name ++ rest), hmap, scan_content_length_lower]

theorem content_length_name_any_case_witness :
    scan_content_length (([] ++ bytes "content-length" ++ bytes ": 3\r\n").length + 1)
        ([] ++ bytes "content-length" ++ bytes ": 3\r\n") 0
      = scan_content_length (([] ++ bytes "Content-Length" ++ bytes ": 3\r\n").length + 1)
          ([] ++ bytes "Content-Length" ++ bytes ": 3\r\n") 0
    ∧ scan_content_length ((bytes "content-length: 3\r\n").length + 1)
        (bytes "content-length: 3\r\n") 0 = some 3
    ∧ scan_content_length ((bytes "CONTENT-LENGTH: 3\r\n").length + 1)
        (bytes "CONTENT-LENGTH: 3\r\n") 0 = some 3 :=
  ⟨content_length_name_any_case [] (bytes "content-length") (bytes ": 3\r\n") (by decide),
    by decide!, by decide!⟩

/-- The request line of a GET request whose tokens fit their fields is in
the buffer when the header read returns, whatever follows the line, and
parses into its three tokens. -/
theorem get_request_parse (s : Sock) (target version rest : List Nat)
    (htarget : is_token 255 target) (hversion : is_token 15 version)
    (hdata : s.inData = bytes "GET" ++ 32 :: (target ++ 32 :: (version ++ 13 :: 10 :: rest))) :
    ∃ req, received s = some req
      ∧ sscanf_request_line req = ReqLine.mk 3 (bytes "GET") target version := by
  obtain ⟨s0, req, k, h1, _, _, _, _, _, _, hk2, hk1, hreq, _, hstop⟩ := header_read s
  have hget : is_token 15 (bytes "GET") := by decide
  have hline : ∀ c ∈ bytes "GET" ++ 32 :: (target ++ 32 :: version), c ≠ 0 ∧ c ≠ 13 := by
    intro c hc
    simp only [List.mem_append, List.mem_cons] at hc
    rcases hc with h | h | h | h | h
    · exact ⟨(hget.2.2 c h).1, not_space_ne_cr c (hget.2.2 c h).2⟩
    · subst h; decide
    · exact ⟨(htarget.2.2 c h).1, not_space_ne_cr c (htarget.2.2 c h).2⟩
    · subst h; decide
    · exact ⟨(hversion.2.2 c h).1, not_space_ne_cr c (hversion.2.2 c h).2⟩
  have hd : s.inData = (bytes "GET" ++ 32 :: (target ++ 32 :: version)) ++ 13 :: 10 :: rest := by
    rw [hdata]; simp
  generalize hL : bytes "GET" ++ 32 :: (target ++ 32 :: version) = line at hline hd
  have hlen : line.length ≤ 275 := by
    rw [← hL]
    have := htarget.2.1
    have := hversion.2.1
    have : (bytes "GET").length = 3 := by decide
    simp only [List.length_append, List.length_cons]
    omega
  have hdl : s.inData.length = line.length + 2 + rest.length := by
    rw [hd]; simp; omega
  have hk : line.length + 1 ≤ k := by
    rcases hstop with h | h | h
    · by_contra hlt
      have e1 : s.inData.take k = line.take k := by
        rw [hd, List.take_append_of_le_length (by omega)]
      have e2 : ∀ c ∈ cstr (line.take k), c ≠ 13 := by
        intro c hc
        exact (hline c (List.mem_of_mem_take (mem_of_mem_cstr _ _ hc))).2
      rw [hreq, e1] at h
      have e3 := strstr_skip (cstr (line.take k)) [] 13 [10, 13, 10] e2
      rw [List.append_nil] at e3
      rw [show CRLFCRLF = 13 :: [10, 13, 10] from rfl, e3] at h
      simp [strstr] at h
    · omega
    · omega
  have hreq2 : req = line ++ 13 :: cstr ((10 :: rest).take (k - line.length - 1)) := by
    rw [hreq, hd, take_append_cons _ _ _ _ hk,
      cstr_append_of_nul_free _ _ (fun c hc => (hline c hc).1)]
    simp [cstr, List.takeWhile_cons]
  refine ⟨req, h1, ?_⟩
  rw [hreq2, ← hL]
  have := sscanf_three_tokens (bytes "GET") target version
    (cstr ((10 :: rest).take (k - (bytes "GET" ++ 32 :: (target ++ 32 :: version)).length - 1)))
    13 hget htarget hversion (by decide)
  simpa using this

/-- C14, counterexample: a path of 256 bytes does not fit the field of 255;
the parse stores its first 255 bytes as the path and its last byte as the
version. -/
theorem long_path_is_cut :
    sscanf_request_line
        (bytes "GET " ++ List.replicate 256 97 ++ bytes " HTTP/1.1\r\nHost: h\r\n\r\n")
      = ReqLine.mk 3 (bytes "GET") (List.replicate 255 97) [97]
    ∧ received (client
        (bytes "GET " ++ List.replicate 256 97 ++ bytes " HTTP/1.1\r\nHost: h\r\n\r\n") [])
      = some (bytes "GET " ++ List.replicate 256 97 ++ bytes " HTTP/1.1\r\nHost: h\r\n\r\n") := by
  decide!

/-- C14, amended: for every path string that is one token (not empty, no
white space, no NUL) of at most 255 bytes, on the stream
`GET <path> HTTP/1.1\r\nHost: h\r\n\r\n` and for every fragmentation, the
request-line parse in `handle_client` yields the method `GET`, the version
`HTTP/1.1` and the token `<path>`, and the query split leaves as path the
part of `<path>` before its first question mark (all of it when it has
none). -/
theorem get_line_is_parsed (s : Sock) (path : List Nat) (hpath : is_token 255 path)
    (hdata : s.inData = bytes "GET " ++ path ++ bytes " HTTP/1.1\r\nHost: h\r\n\r\n") :
    ∃ req, received s = some req
      ∧ sscanf_request_line req = ReqLine.mk 3 (bytes "GET") path (bytes "HTTP/1.1")
      ∧ 63 ∉ (split_query path).1
      ∧ ((split_query path).1 = path ∨ (split_query path).1 ++ [63] <+: path) := by
  have hshape : s.inData = bytes "GET" ++ 32 :: (path ++ 32 :: (bytes "HTTP/1.1" ++ 13 :: 10 ::
      bytes "Host: h\r\n\r\n")) := by
    rw [hdata]
    have e1 : bytes "GET " = bytes "GET" ++ [32] := by decide
    have e2 : bytes " HTTP/1.1\r\nHost: h\r\n\r\n"
        = 32 :: (bytes "HTTP/1.1" ++ 13 :: 10 :: bytes "Host: h\r\n\r\n") := by decide
    rw [e1, e2]
    simp
  obtain ⟨req, h1, h2⟩ := get_request_parse s path (bytes "HTTP/1.1") _ hpath (by decide) hshape
  refine ⟨req, h1, h2, ?_⟩
  by_cases h : 63 ∈ path
  · obtain ⟨p, q, rfl, hp⟩ := List.eq_append_cons_of_mem h
    rw [split_query_some p q hp]
    exact ⟨hp, Or.inr ⟨q, by simp⟩⟩
  · rw [split_query_none path h]
    exact ⟨h, Or.inl rfl⟩

theorem get_line_is_parsed_witness :
    ∃ req, received (client (bytes "GET /a/b?x=1?y HTTP/1.1\r\nHost: h\r\n\r\n") [0, 1, 13]) = some req
      ∧ sscanf_request_line req
          = ReqLine.mk 3 (bytes "GET") (bytes "/a/b?x=1?y") (bytes "HTTP/1.1")
      ∧ 63 ∉ (split_query (bytes "/a/b?x=1?y")).1
      ∧ ((split_query (bytes "/a/b?x=1?y")).1 = bytes "/a/b?x=1?y"
          ∨ (split_query (bytes "/a/b?x=1?y")).1 ++ [63] <+: bytes "/a/b?x=1?y") :=
  get_line_is_parsed (client (bytes "GET /a/b?x=1?y HTTP/1.1\r\nHost: h\r\n\r\n") [0, 1, 13])
    (bytes "/a/b?x=1?y") (by decide) (by decide)

/-- C15: the query split of a request target `t`.  When `t` holds a question
mark, `query` is set, `path` holds no question mark and `path`, the question
mark and `query` make up `t` again (so `path` is what stands before the first
question mark and `query` all that stands behind it); when `t` holds none,
`path` is `t` and `query` is unset. -/
theorem split_query_at_first_question_mark (t : List Nat) :
    if 63 ∈ t then
      ∃ q, (split_query t).2 = some q ∧ 63 ∉ (split_query t).1
        ∧ (split_query t).1 ++ 63 :: q = t
    else split_query t = (t, none) := by
  by_cases h : 63 ∈ t
  · rw [if_pos h]
    obtain ⟨p, q, rfl, hp⟩ := List.eq_append_cons_of_mem h
    rw [split_query_some p q hp]
    exact ⟨q, rfl, hp, rfl⟩
  · rw [if_neg h]
    exact split_query_none t h

/-- C16: towards a stream whose sends each accept between 1 and the
requested number of bytes, `send_all` returns with exactly the bytes
`data[0..len)` appended to the wire, in order; two calls in a row append the
bytes of the first and then those of the second, and so the POST branch puts
its header block and then the label and the echoed bytes on the wire. -/
theorem send_all_delivers (s : Sock) (data : List Nat) (len : Nat)
    (hlen : len ≤ data.length) (hacc : accepts s) :
    (send_all s data len).map (fun s1 => s1.wire) = some (s.wire ++ data.take len)
      ∧ (∀ (data2 : List Nat) (len2 : Nat), len2 ≤ data2.length →
          ((send_all s data len).bind (fun s1 => send_all s1 data2 len2)).map (fun s2 => s2.wire)
            = some (s.wire ++ data.take len ++ data2.take len2))
      ∧ (∀ req : List Nat, req.length ≤ 4095 → ∃ e,
          (handle_post req s).map (fun s2 => s2.wire)
            = some (s.wire ++ ok_header (20 + e.length) ++ (POST_LABEL ++ e))) := by
  obtain ⟨s1, h1, h2, _, _, _, h6, _⟩ := send_all_spec s data len hlen hacc
  refine ⟨by rw [h1, Option.map_some', h2], ?_, ?_⟩
  · intro data2 len2 hlen2
    obtain ⟨s2, g1, g2, _⟩ := send_all_spec s1 data2 len2 hlen2 h6
    rw [h1, Option.some_bind, g1, Option.map_some', g2, h2]
  · intro req hreq
    obtain ⟨s2, v, _, g1, g2⟩ := handle_post_spec req s hreq hacc
    exact ⟨post_echo req v s.inData, by rw [g1, Option.map_some', g2, List.append_assoc]⟩

theorem send_all_delivers_witness :
    (send_all (Sock.mk [] [] false [2, 1, 5] [7] []) (bytes "abcdef" ++ [0]) 6).map
        (fun s1 => s1.wire) = some ([7] ++ (bytes "abcdef" ++ [0]).take 6) :=
  (send_all_delivers (Sock.mk [] [] false [2, 1, 5] [7] []) (bytes "abcdef" ++ [0]) 6
    (by decide) (by decide)).1

theorem get_body_clock (path : List Nat) (query : Option (List Nat)) (c1 c2 : List Nat)
    (h : path ≠ bytes "/time" ∨ cstr c1 = cstr c2) :
    get_body path query c1 = get_body path query c2 := by
  unfold get_body
  rcases h with h | h
  · rw [if_neg h, if_neg h]
  · rw [h]

/-- C17, counterexample: the same `GET /time` request, served on two
connections one second apart, gets two different answers. -/
theorem time_answers_differ :
    wire_after (client (bytes "GET /time HTTP/1.1\r\nHost: h\r\n\r\n") [])
        (bytes "Thu Jan  1 00:00:00 1970\n")
      ≠ wire_after (client (bytes "GET /time HTTP/1.1\r\nHost: h\r\n\r\n") [])
        (bytes "Thu Jan  1 00:00:01 1970\n") := by
  decide!

/-- A POST request that declares `n` and whose stream ends after the body
bytes `b`, at most `n` of them: the answer echoes `b`. -/
theorem post_request_partial (s : Sock) (path b clock : List Nat) (n : Nat)
    (hacc : accepts s) (hpath : is_token 255 path) (hb : ∀ c ∈ b, c ≠ 0)
    (hn : n ≤ 4096) (hbn : b.length ≤ n) (hdata : s.inData = post_shape path n b) :
    ∃ s1, handle_client s clock = some s1
      ∧ s1.wire = s.wire ++ (ok_header (20 + b.length) ++ (POST_LABEL ++ b)) := by
  obtain ⟨r, k, hr, hk1, hk2, hbuf, _, hin, _, hout, hwire, hstop⟩ := recv_all_headers_spec s
  obtain ⟨hl1, hl2, hl3⟩ := post_shape_length path n b hpath hn
  generalize hH : (post_shape path n []).length = H at *
  have hd : s.inData = post_shape path n [] ++ b := by
    rw [hdata]; exact post_shape_append _ _ _
  have hdl : s.inData.length = H + b.length := by rw [hdata, hl1]
  -- the header read went past the terminator
  have hk : H ≤ k := by
    rcases hstop with h | h | h
    · by_contra hlt
      have e1 : s.inData.take k = (post_shape path n []).take k := by
        rw [hd, List.take_append_of_le_length (by omega)]
      rw [e1, post_shape_no_early_terminator path n k hpath (by omega)] at h
      cases h
    · omega
    · omega
  have htake : s.inData.take k = post_shape path n (b.take (k - H)) := by
    rw [hd, List.take_append_eq_append_take, List.take_of_length_le (by omega), hH]
    exact (post_shape_append _ _ _).symm
  have hdrop : r.sock.inData = b.drop (k - H) := by
    rw [hin, hd, List.drop_append_eq_append_drop, List.drop_of_length_le (by omega), hH]
    rfl
  have hbt : ∀ c ∈ b.take (k - H), c ≠ 0 := fun c hc => hb c (List.mem_of_mem_take hc)
  have hreq : cstr r.buf = post_shape path n (b.take (k - H)) := by
    rw [hbuf, cstr_reqbuf _ _ hk2, htake]
    exact cstr_of_nul_free _ (post_shape_nul_free path n _ hpath hbt)
  have hrl : (cstr r.buf).length ≤ 4095 := by
    have := cstr_length_le (s.inData.take k)
    rw [hbuf, cstr_reqbuf _ _ hk2]
    rw [List.length_take] at this
    omega
  have hacc1 : accepts r.sock := by unfold accepts; rw [hout]; exact hacc
  obtain ⟨s1, v, hv, h1, h2⟩ := handle_post_spec (cstr r.buf) r.sock hrl hacc1
  -- the declared length and the echoed bytes
  have hv2 : v = (n : Int) := by
    rw [hreq, post_shape_content_length path n _ hpath hn] at hv
    injection hv with hv
    exact hv.symm
  have hecho : post_echo (cstr r.buf) v r.sock.inData = b := by
    have hcl : clamp_length (n : Int) = n := by
      unfold clamp_length
      rw [if_neg (by omega), if_neg (by omega), Int.toNat_ofNat]
    have hla : look_ahead (post_shape path n (b.take (k - H))) n
        = b.take (k - H) := by
      unfold look_ahead
      rw [post_shape_body_start path n _ hpath]
      simp only [List.drop_succ_cons, List.drop_zero]
      rw [List.take_of_length_le (by rw [List.length_take]; omega)]
    have ht : List.take (n - (b.take (k - H)).length) (b.drop (k - H))
        = b.drop (k - H) :=
      List.take_of_length_le (by rw [List.length_drop, List.length_take]; omega)
    unfold post_echo
    rw [hv2, hcl, hreq, hla, hdrop, ht, List.take_append_drop]
    exact cstr_of_nul_free b hb
  refine ⟨s1, ?_, by rw [h2, hecho, hwire]⟩
  unfold handle_client
  rw [hr]
  simp only [handle_request, hreq, post_shape_parse path n _ hpath]
  rw [if_neg (by decide), if_neg (by decide), if_pos trivial]
  rw [← hreq]
  exact h1

/-! ## The turns of the header read -/

theorem recv_log (s : Sock) (len : Nat) :
    (recv s len).2.2.log = s.log ++ [Ev.recv len (recv s len).1] := rfl

theorem recv_headers_loop_turns (fuel : Nat) :
    ∀ (s : Sock) (pre : List Nat) (steps : List HdrStep),
    s.inData.length < fuel → pre.length ≤ 4095 → (∀ c ∈ pre ++ s.inData, c ≠ 0) →
    ∃ r new, recv_headers_loop 4096 fuel s (pre ++ List.replicate (4096 - pre.length) 0)
          pre.length steps = some r
      ∧ r.steps = steps ++ new
      ∧ turns_ok (pre ++ s.inData) pre.length new
      ∧ r.total = pre.length + received_count new
      ∧ r.sock.log = s.log ++ new.map (fun st => Ev.recv st.req st.n) := by
  induction fuel with
  | zero => intro s pre steps hf; omega
  | succ fuel ih =>
    intro s pre steps hf hp hnul
    have hreq : to_size_t (to_int (to_size_t (((4096 : Nat) : Int) - (pre.length : Int) - 1)))
        = 4095 - pre.length := by
      rw [recv_len_small 4096 pre.length (by omega) (by omega) (by omega)]
    rw [recv_headers_loop]
    simp only [hreq]
    by_cases hc : 0 < recv_count s (4095 - pre.length)
    · have hle := recv_count_le_len s (4095 - pre.length)
      have hld := recv_count_le_data s (4095 - pre.length)
      have hfst := recv_fst_of_pos s _ hc
      have hn : to_int (recv s (4095 - pre.length)).1 = (recv_count s (4095 - pre.length) : Int) := by
        rw [hfst, to_int_small _ (by omega)]
      have hlen : (List.take (recv_count s (4095 - pre.length)) s.inData).length
          = recv_count s (4095 - pre.length) := by
        rw [List.length_take]; omega
      have hpoke1 := poke_zero_tail pre (List.take (recv_count s (4095 - pre.length)) s.inData)
        (4096 - pre.length) (by rw [hlen]; omega)
      have hpoke2 := poke_nul_zero_tail (pre ++ List.take (recv_count s (4095 - pre.length)) s.inData)
        (4096 - pre.length - recv_count s (4095 - pre.length)) (by omega)
      rw [hlen] at hpoke1
      rw [List.length_append, hlen] at hpoke2
      have hlog : (recv s (4095 - pre.length)).2.2.log
          = s.log ++ [Ev.recv (4095 - pre.length) (recv_count s (4095 - pre.length) : Int)] := by
        rw [recv_log, hfst]
      have hin : (recv s (4095 - pre.length)).2.2.inData
          = List.drop (recv_count s (4095 - pre.length)) s.inData := recv_inData s _
      simp only [hn, recv_data, hpoke1, Int.toNat_ofNat, hpoke2]
      generalize hcdef : recv_count s (4095 - pre.length) = c at *
      have hacc : (pre ++ s.inData).take (pre.length + c) = pre ++ List.take c s.inData :=
        List.take_append c
      have hnf : ∀ x ∈ pre ++ List.take c s.inData, x ≠ 0 := by
        intro x hx
        rcases List.mem_append.mp hx with h | h
        · exact hnul x (List.mem_append_left _ h)
        · exact hnul x (List.mem_append_right _ (List.mem_of_mem_take h))
      have hzeros : cstr (pre ++ List.take c s.inData ++ List.replicate (4096 - pre.length - c) 0)
          = pre ++ List.take c s.inData := by
        obtain ⟨z, hz⟩ : ∃ z, 4096 - pre.length - c = z + 1 := ⟨4095 - pre.length - c, by omega⟩
        rw [hz, cstr_append_zeros, cstr_of_nul_free _ hnf]
      have h4 : to_size_t (((4096 : Nat) : Int) - 1) = 4095 := by decide
      have h5 : to_size_t ((pre.length + c : Nat) : Int) = pre.length + c :=
        to_size_t_small _ (by omega)
      rw [if_pos (by exact_mod_cast hc), if_neg (by unfold INT_MAX; omega), hzeros, h4, h5]
      have hone : received_count [HdrStep.mk pre.length (4095 - pre.length) (c : Int)] = c := by
        simp [received_count]
      by_cases hterm : (strstr (pre ++ List.take c s.inData) CRLFCRLF).isSome = true
      · rw [if_pos hterm]
        refine ⟨_, [HdrStep.mk pre.length (4095 - pre.length) (c : Int)], rfl, rfl, ?_,
          by rw [hone], by rw [hlog]; rfl⟩
        refine ⟨rfl, rfl, ?_⟩
        rw [if_pos rfl]
        right
        refine ⟨by simp only []; omega, Or.inl ?_⟩
        simp only [Int.toNat_ofNat]
        rw [hacc, ← strstr_isSome_iff]
        exact hterm
      · rw [if_neg hterm]
        by_cases hfull : pre.length + c ≥ 4095
        · rw [if_pos hfull]
          refine ⟨_, [HdrStep.mk pre.length (4095 - pre.length) (c : Int)], rfl, rfl, ?_,
            by rw [hone], by rw [hlog]; rfl⟩
          refine ⟨rfl, rfl, ?_⟩
          rw [if_pos rfl]
          right
          refine ⟨by simp only []; omega, Or.inr ?_⟩
          simp only [Int.toNat_ofNat]
          omega
        · rw [if_neg hfull]
          have hpl : (pre ++ List.take c s.inData).length = pre.length + c := by
            rw [List.length_append, hlen]
          have hD : pre ++ List.take c s.inData ++ (recv s (4095 - pre.length)).2.2.inData
              = pre ++ s.inData := by
            rw [hin, List.append_assoc, List.take_append_drop]
          have := ih (recv s (4095 - pre.length)).2.2 (pre ++ List.take c s.inData)
            (steps ++ [HdrStep.mk pre.length (4095 - pre.length) (c : Int)])
            (by rw [hin, List.length_drop]; omega) (by rw [hpl]; omega)
            (by rw [hD]; exact hnul)
          rw [hpl, hD] at this
          have hsub : 4096 - pre.length - c = 4096 - (pre.length + c) := by omega
          rw [hsub]
          obtain ⟨r, new, hr, hst, hturns, htot, hlg⟩ := this
          have hnew : new ≠ [] := by
            intro h
            rw [h] at hturns
            exact hturns
          refine ⟨r, HdrStep.mk pre.length (4095 - pre.length) (c : Int) :: new, hr,
            by rw [hst, List.append_assoc]; rfl, ?_, ?_, ?_⟩
          · refine ⟨rfl, rfl, ?_⟩
            rw [if_neg hnew]
            simp only [Int.toNat_ofNat]
            refine ⟨by omega, ?_, by omega, hturns⟩
            rw [hacc, ← strstr_isSome_iff]
            exact hterm
          · rw [htot]
            simp only [received_count, List.map_cons, List.sum_cons, Int.toNat_ofNat]
            omega
          · rw [hlg, hlog, List.append_assoc]
            rfl
    · have hc0 : recv_count s (4095 - pre.length) = 0 := by omega
      have h2 : (recv s (4095 - pre.length)).1 = 0 ∨ (recv s (4095 - pre.length)).1 = -1 := by
        simp only [recv, hc0, if_true]
        split <;> simp
      have hv : to_int (recv s (4095 - pre.length)).1 = (recv s (4095 - pre.length)).1
          ∧ (recv s (4095 - pre.length)).1 ≤ 0 := by
        rcases h2 with h | h <;> rw [h] <;> decide
      rw [if_neg (by rw [hv.1]; omega)]
      refine ⟨_, [HdrStep.mk pre.length (4095 - pre.length) (recv s (4095 - pre.length)).1],
        rfl, by rw [hv.1], ?_, ?_, by rw [recv_log]; rfl⟩
      · refine ⟨rfl, rfl, ?_⟩
        rw [if_pos rfl]
        exact Or.inl hv.2
      · have : (recv s (4095 - pre.length)).1.toNat = 0 := by
          rcases h2 with h | h <;> rw [h] <;> rfl
        simp [received_count, this]

/-- C19, counterexample: on a NUL-free stream of 4095 bytes followed by
CRLFCRLF the read stops after the receive that fills the buffer, with the
terminator still unread; on the NUL-free stream `abc` it stops after a
receive that returns 0.  In both runs no receive has left a CRLFCRLF among
the accumulated bytes. -/
theorem header_read_stops_without_terminator :
    (recv_all_headers (client (List.replicate 4095 97 ++ bytes "\r\n\r\n") [])
        (List.replicate BUF_SIZE 0) BUF_SIZE).map (fun r => (r.steps, r.total, r.sock.inData))
      = some ([HdrStep.mk 0 4095 4095], 4095, bytes "\r\n\r\n")
    ∧ (recv_all_headers (client (bytes "abc") [])
        (List.replicate BUF_SIZE 0) BUF_SIZE).map (fun r => (r.steps, r.total, cstr r.buf))
      = some ([HdrStep.mk 0 4095 3, HdrStep.mk 3 4092 0], 3, bytes "abc") := by
  decide!

/-- C19, amended: for every NUL-free client stream, `recv_all_headers` (on
the zeroed buffer of `handle_client`) keeps receiving until the first
receive after which the accumulated bytes contain CRLFCRLF, or until a
receive returns no byte (end of stream, error) or the 4095 usable bytes are
filled, and then makes no further receive: its turns are `turns_ok` and the
receives logged are exactly these turns.  On return the buffer holds the
bytes received, look-ahead bytes included, followed by NUL bytes, and the
value returned is their count. -/
theorem header_read_turns (s : Sock) (hnul : ∀ c ∈ s.inData, c ≠ 0) :
    ∃ r, recv_all_headers s (List.replicate BUF_SIZE 0) BUF_SIZE = some r
      ∧ turns_ok s.inData 0 r.steps
      ∧ r.sock.log = s.log ++ r.steps.map (fun st => Ev.recv st.req st.n)
      ∧ r.total = received_count r.steps ∧ r.total ≤ 4095
      ∧ r.buf = s.inData.take r.total ++ List.replicate (BUF_SIZE - r.total) 0
      ∧ r.sock.inData = s.inData.drop r.total := by
  obtain ⟨r, new, h1, h2, h3, h4, h5⟩ :=
    recv_headers_loop_turns (s.inData.length + 1) s [] [] (by omega) (by simp)
      (by simpa using hnul)
  obtain ⟨r2, k, g1, g2, g3, g4, g5, g6, _⟩ := recv_all_headers_spec s
  have hr : recv_all_headers s (List.replicate BUF_SIZE 0) BUF_SIZE = some r := h1
  rw [hr] at g1
  injection g1 with g1
  subst g1
  have hsteps : r.steps = new := by simpa using h2
  refine ⟨r, hr, ?_, ?_, ?_, by rw [g5]; exact g3, ?_, ?_⟩
  · rw [hsteps]; simpa using h3
  · rw [hsteps]; exact h5
  · rw [hsteps]; simpa using h4
  · rw [g5]; exact g4
  · rw [g5]; exact g6

theorem header_read_turns_witness :
    ∃ r, recv_all_headers (client (bytes "GET / HTTP/1.1\r\n\r\nlook") [5, 100])
          (List.replicate BUF_SIZE 0) BUF_SIZE = some r
      ∧ turns_ok (client (bytes "GET / HTTP/1.1\r\n\r\nlook") [5, 100]).inData 0 r.steps
      ∧ r.sock.log = (client (bytes "GET / HTTP/1.1\r\n\r\nlook") [5, 100]).log
          ++ r.steps.map (fun st => Ev.recv st.req st.n)
      ∧ r.total = received_count r.steps ∧ r.total ≤ 4095
      ∧ r.buf = (client (bytes "GET / HTTP/1.1\r\n\r\nlook") [5, 100]).inData.take r.total
          ++ List.replicate (BUF_SIZE - r.total) 0
      ∧ r.sock.inData = (client (bytes "GET / HTTP/1.1\r\n\r\nlook") [5, 100]).inData.drop r.total :=
  header_read_turns (client (bytes "GET / HTTP/1.1\r\n\r\nlook") [5, 100]) (by decide)

/-- A request that does not reach the call of `ctime` is answered without
the clock. -/
theorem handle_request_clock (reqbuf : List Nat) (s : Sock) (t b : List Nat)
    (h : ¬ ((sscanf_request_line (cstr reqbuf)).count = 3
      ∧ (sscanf_request_line (cstr reqbuf)).method = bytes "GET"
      ∧ (split_query (sscanf_request_line (cstr reqbuf)).path).1 = bytes "/time")) :
    handle_request reqbuf s b = handle_request reqbuf s t := by
  unfold handle_request
  simp only []
  split
  · rfl
  · rename_i h3
    split
    · rfl
    · rename_i hm
      split
      · rfl
      · rename_i hp
        have hne : (split_query (sscanf_request_line (cstr reqbuf)).path).1
            ≠ bytes "/time" := by
          intro hq
          apply h
          refine ⟨not_not.mp h3, ?_, hq⟩
          by_contra hg
          exact hm ⟨hg, hp⟩
        unfold handle_get get_body
        simp only [if_neg hne]

theorem thread_func_clock (s : Sock) (t b : List Nat) :
    thread_func s (if reaches_ctime s = true then t else b) = thread_func s t := by
  by_cases h : reaches_ctime s = true
  · rw [if_pos h]
  · rw [if_neg h]
    unfold reaches_ctime at h
    unfold thread_func handle_client
    generalize List.replicate BUF_SIZE 0 = z at h ⊢
    cases hr : recv_all_headers s z BUF_SIZE with
    | none => rfl
    | some r =>
      rw [hr] at h
      simp only [decide_eq_true_eq] at h
      show Option.map _ (handle_request r.buf r.sock b) = Option.map _ (handle_request r.buf r.sock t)
      rw [handle_request_clock r.buf r.sock t b h]

theorem worker_two_steps (s : Sock) (t buf : List Nat) :
    (Worker.step (Worker.step buf (Worker.start s t)).1
        (Worker.step buf (Worker.start s t)).2).2.sent = served_alone s t := by
  have h1 : Worker.step buf (Worker.start s t)
      = (if reaches_ctime s = true then t else buf, Worker.mk s t true none) := by
    unfold Worker.step Worker.start
    simp only [if_true]
  rw [h1]
  unfold Worker.step
  simp only [Bool.true_eq_false, if_false, Option.isNone_none, if_true, Worker.sent,
    served_alone, thread_func_clock]

/-- The model of two workers agrees with the sequential one when the workers
run one after the other: each client gets the bytes of a connection served
alone. -/
theorem workers_in_sequence (sa sb : Sock) (ta tb buf : List Nat) :
    ((Process.mk buf (Worker.start sa ta) (Worker.start sb tb)).run
        [false, false, true, true]).a.sent = served_alone sa ta
    ∧ ((Process.mk buf (Worker.start sa ta) (Worker.start sb tb)).run
        [false, false, true, true]).b.sent = served_alone sb tb := by
  constructor
  · simp only [Process.run, List.foldl, Process.step, if_true, if_false, Bool.false_eq_true,
      worker_two_steps]
  · simp only [Process.run, List.foldl, Process.step, if_true, if_false, Bool.false_eq_true,
      worker_two_steps]

theorem time_alone :
    served_alone (client (bytes "GET /time HTTP/1.1\r\n\r\n") [])
        (bytes "Fri Oct 30 09:00:00 2026\n")
      = some (ok_response (bytes "Current Time: Fri Oct 30 09:00:00 2026\n")) := by
  decide!

theorem time_interleaved :
    ((Process.mk []
          (Worker.start (client (bytes "GET /time HTTP/1.1\r\n\r\n") [])
            (bytes "Fri Oct 30 09:00:00 2026\n"))
          (Worker.start (client (bytes "GET /time HTTP/1.1\r\n\r\n") [])
            (bytes "Fri Oct 30 09:00:01 2026\n"))).run
        [false, true, false, true]).a.sent
      = some (ok_response (bytes "Current Time: Fri Oct 30 09:00:01 2026\n")) := by
  decide!

/-- C20: the workers share the static array of `ctime`.  Two clients send
`GET /time`; worker `a` reads the time 09:00:00 and worker `b` 09:00:01.
Served alone, client `a` is sent the text of 09:00:00.  When `b` calls
`ctime` between the call of `a` and the `snprintf` of `a`, client `a` is
sent the text of 09:00:01, the one `b` wrote: not the bytes of the
connection served alone. -/
theorem ctime_buffer_is_shared :
    served_alone (client (bytes "GET /time HTTP/1.1\r\n\r\n") [])
        (bytes "Fri Oct 30 09:00:00 2026\n")
      = some (ok_response (bytes "Current Time: Fri Oct 30 09:00:00 2026\n"))
    ∧ ((Process.mk []
          (Worker.start (client (bytes "GET /time HTTP/1.1\r\n\r\n") [])
            (bytes "Fri Oct 30 09:00:00 2026\n"))
          (Worker.start (client (bytes "GET /time HTTP/1.1\r\n\r\n") [])
            (bytes "Fri Oct 30 09:00:01 2026\n"))).run
        [false, true, false, true]).a.sent
      = some (ok_response (bytes "Current Time: Fri Oct 30 09:00:01 2026\n"))
    ∧ ((Process.mk []
          (Worker.start (client (bytes "GET /time HTTP/1.1\r\n\r\n") [])
            (bytes "Fri Oct 30 09:00:00 2026\n"))
          (Worker.start (client (bytes "GET /time HTTP/1.1\r\n\r\n") [])
            (bytes "Fri Oct 30 09:00:01 2026\n"))).run
        [false, true, false, true]).a.sent
      ≠ served_alone (client (bytes "GET /time HTTP/1.1\r\n\r\n") [])
        (bytes "Fri Oct 30 09:00:00 2026\n") := by
  refine ⟨time_alone, time_interleaved, ?_⟩
  rw [time_alone, time_interleaved]
  decide!

/-! ## The Content-Length scan over a block of header lines -/

theorem takeWhile_isdigit_cr (a r : List Nat) :
    List.takeWhile isdigit (a ++ 13 :: r) = List.takeWhile isdigit a := by
  induction a with
  | nil => simp [List.takeWhile_cons, isdigit]
  | cons c cs ih =>
    simp only [List.cons_append, List.takeWhile_cons]
    split
    · rw [ih]
    · rfl

theorem skip_space_append (x r : List Nat) (hx : ∃ c ∈ x, isspace c = false) :
    skip_space (x ++ r) = skip_space x ++ r ∧ skip_space x ≠ [] := by
  induction x with
  | nil => obtain ⟨c, hc, _⟩ := hx; simp at hc
  | cons c cs ih =>
    by_cases hc : isspace c = true
    · have hx2 : ∃ c ∈ cs, isspace c = false := by
        obtain ⟨d, hd, hd2⟩ := hx
        rcases List.mem_cons.mp hd with h | h
        · rw [h, hc] at hd2; cases hd2
        · exact ⟨d, h, hd2⟩
      rw [List.cons_append, skip_space_cons c _ hc, skip_space_cons c _ hc]
      exact ih hx2
    · have hc2 : isspace c = false := by simpa using hc
      unfold skip_space
      simp [List.dropWhile_cons, hc2]

/-- The `%d` conversion on a value that holds a byte other than white space
does not read past the carriage return that closes the line. -/
theorem sscanf_d_line (x r : List Nat) (hx : ∃ c ∈ x, isspace c = false) :
    sscanf_d (x ++ 13 :: r) = sscanf_d x := by
  obtain ⟨e1, hne⟩ := skip_space_append x (13 :: r) hx
  obtain ⟨c, w, hw⟩ : ∃ c w, skip_space x = c :: w := by
    cases h : skip_space x with
    | nil => exact absurd h hne
    | cons c w => exact ⟨c, w, rfl⟩
  unfold sscanf_d
  simp only [e1, hw, List.cons_append, List.head?_cons]
  split
  · simp only [List.drop_succ_cons, List.drop_zero, takeWhile_isdigit_cr]
  · rw [← List.cons_append, takeWhile_isdigit_cr]

theorem strncasecmp_line (l r : List Nat) :
    strncasecmp_eq (l ++ 13 :: r) (bytes "Content-Length:") 15
      = strncasecmp_eq l (bytes "Content-Length:") 15 := by
  unfold strncasecmp_eq
  by_cases hl : 15 ≤ l.length
  · rw [List.take_append_of_le_length hl]
  · have h1 : (List.map tolower (List.take 15 l)
        == List.map tolower (List.take 15 (bytes "Content-Length:"))) = false := by
      rw [beq_eq_false_iff_ne]
      intro h
      have := congrArg List.length h
      rw [List.length_map, List.length_map, List.length_take] at this
      have h15 : (List.take 15 (bytes "Content-Length:")).length = 15 := by decide
      omega
    have h2 : (List.map tolower (List.take 15 (l ++ 13 :: r))
        == List.map tolower (List.take 15 (bytes "Content-Length:"))) = false := by
      rw [beq_eq_false_iff_ne]
      intro h
      have hmem : tolower 13 ∈ List.map tolower (List.take 15 (l ++ 13 :: r)) := by
        apply List.mem_map_of_mem
        rw [List.take_append_eq_append_take]
        apply List.mem_append_right
        obtain ⟨z, hz⟩ : ∃ z, 15 - l.length = z + 1 := ⟨15 - l.length - 1, by omega⟩
        rw [hz, List.take_succ_cons]
        exact List.mem_cons_self _ _
      rw [h] at hmem
      revert hmem
      decide
    rw [h1, h2]

/-- One turn of the scan on a well-formed header line, in terms of the line
alone. -/
theorem scan_line_step (f : Nat) (l r : List Nat) (cl : Int) (hl : header_line_ok l) :
    scan_content_length (f + 1) (l ++ 13 :: 10 :: r) cl
      = if CRLF.isPrefixOf r then some (scan_line cl l)
        else scan_content_length f r (scan_line cl l) := by
  obtain ⟨hne, h13, hval⟩ := hl
  rw [scan_content_length_step f l r cl hne h13, strncasecmp_line]
  by_cases hm : strncasecmp_eq l (bytes "Content-Length:") 15 = true
  · have hlen : 15 ≤ l.length := by
      by_contra hlt
      unfold strncasecmp_eq at hm
      rw [beq_iff_eq] at hm
      have := congrArg List.length hm
      rw [List.length_map, List.length_map, List.length_take] at this
      have h15 : (List.take 15 (bytes "Content-Length:")).length = 15 := by decide
      omega
    have hs : scan_line cl l = (sscanf_d (l.drop 15)).getD cl := by
      unfold scan_line
      rw [if_pos hm]
    rw [hs, List.drop_append_of_le_length hlen, sscanf_d_line _ _ (hval hm)]
    simp only [hm, if_true]
    cases sscanf_d (List.drop 15 l) <;> rfl
  · have hs : scan_line cl l = cl := by
      unfold scan_line
      rw [if_neg hm]
    rw [hs]
    simp only [hm, if_false, Bool.false_eq_true]

theorem header_block_cons (l : List Nat) (ls : List (List Nat)) (y : List Nat) :
    header_block (l :: ls) ++ y = l ++ 13 :: 10 :: (header_block ls ++ y) := by
  simp [header_block, CRLF]

/-- The scan over a block of well-formed header lines that the empty line
closes: every line in turn acts on `content_length`, so a later
Content-Length line overrides an earlier one. -/
theorem scan_header_block (rest : List Nat) :
    ∀ (lines : List (List Nat)) (fuel : Nat) (cl : Int), lines ≠ [] →
    (∀ l ∈ lines, header_line_ok l) → lines.length < fuel →
    scan_content_length fuel (header_block lines ++ (CRLF ++ rest)) cl
      = some (lines.foldl scan_line cl) := by
  intro lines
  induction lines with
  | nil => intro _ _ h; exact absurd rfl h
  | cons l ls ih =>
    intro fuel cl _ hok hfuel
    obtain ⟨f, rfl⟩ : ∃ f, fuel = f + 1 := ⟨fuel - 1, by omega⟩
    rw [header_block_cons, scan_line_step f l _ cl (hok l (List.mem_cons_self _ _))]
    cases ls with
    | nil =>
      have : CRLF.isPrefixOf (header_block [] ++ (CRLF ++ rest)) = true := by
        simp [header_block, CRLF, List.isPrefixOf]
      rw [this, if_pos rfl]
      rfl
    | cons l2 ls2 =>
      obtain ⟨hne2, h13, _⟩ := hok l2 (by simp)
      obtain ⟨c, w, rfl⟩ : ∃ c w, l2 = c :: w := by
        cases l2 with
        | nil => exact absurd rfl hne2
        | cons c w => exact ⟨c, w, rfl⟩
      have hc : c ≠ 13 := h13 c (List.mem_cons_self _ _)
      have : CRLF.isPrefixOf (header_block ((c :: w) :: ls2) ++ (CRLF ++ rest)) = false := by
        rw [header_block_cons]
        simp only [CRLF, List.cons_append, List.isPrefixOf]
        have : ((13 : Nat) == c) = false := by simpa using fun e => hc e.symm
        rw [this]
        rfl
      rw [this, if_neg (by simp)]
      rw [ih f (scan_line cl l) (by simp)
        (fun l' hl' => hok l' (List.mem_cons_of_mem _ hl'))
        (by simp only [List.length_cons] at hfuel ⊢; omega)]
      rfl

theorem scan_line_other (cl : Int) (l : List Nat)
    (h : strncasecmp_eq l (bytes "Content-Length:") 15 = false) : scan_line cl l = cl := by
  unfold scan_line
  rw [if_neg (by rw [h]; simp)]

theorem scan_line_decimal (cl : Int) (v : Nat) (hv : v ≤ INT_MAX) :
    scan_line cl (bytes "Content-Length: " ++ fmt_zu v) = v := by
  have e : bytes "Content-Length: " ++ fmt_zu v = bytes "Content-Length:" ++ 32 :: fmt_zu v := by
    have : bytes "Content-Length: " = bytes "Content-Length:" ++ [32] := by decide
    rw [this]; simp
  obtain ⟨d0, ds, hds⟩ : ∃ d0 ds, fmt_zu v = d0 :: ds := by
    cases h : fmt_zu v with
    | nil => exact absurd h (fmt_zu_ne_nil v)
    | cons d0 ds => exact ⟨d0, ds, rfl⟩
  have hd0 : d0 ∈ fmt_zu v := by rw [hds]; exact List.mem_cons_self _ _
  have hx : ∃ c ∈ 32 :: fmt_zu v, isspace c = false :=
    ⟨d0, List.mem_cons_of_mem _ hd0, isdigit_not_space d0 (fmt_zu_isdigit v d0 hd0)⟩
  have h := sscanf_d_decimal v [] (by unfold INT_MAX at hv; omega)
  rw [show (32 :: (fmt_zu v ++ [13])) = (32 :: fmt_zu v) ++ 13 :: [] by simp,
    sscanf_d_line _ _ hx] at h
  unfold scan_line
  rw [e, strncasecmp_content_length, if_pos rfl, List.drop_left' (by decide), h]
  rfl

theorem content_length_line_ok (v : Nat) :
    header_line_ok (bytes "Content-Length: " ++ fmt_zu v) := by
  have e : bytes "Content-Length: " ++ fmt_zu v = bytes "Content-Length:" ++ 32 :: fmt_zu v := by
    have : bytes "Content-Length: " = bytes "Content-Length:" ++ [32] := by decide
    rw [this]; simp
  obtain ⟨d0, ds, hds⟩ : ∃ d0 ds, fmt_zu v = d0 :: ds := by
    cases h : fmt_zu v with
    | nil => exact absurd h (fmt_zu_ne_nil v)
    | cons d0 ds => exact ⟨d0, ds, rfl⟩
  have hd0 : d0 ∈ fmt_zu v := by rw [hds]; exact List.mem_cons_self _ _
  rw [e]
  refine ⟨by simp, fun c hc => (post_line2 v c hc).2, fun _ => ?_⟩
  rw [List.drop_left' (by decide)]
  exact ⟨d0, List.mem_cons_of_mem _ hd0, isdigit_not_space d0 (fmt_zu_isdigit v d0 hd0)⟩

theorem foldl_scan_line_other (cl : Int) : ∀ (ls : List (List Nat)),
    (∀ l ∈ ls, strncasecmp_eq l (bytes "Content-Length:") 15 = false) →
    ls.foldl scan_line cl = cl := by
  intro ls
  induction ls with
  | nil => intro _; rfl
  | cons l r ih =>
    intro h
    rw [List.foldl_cons, scan_line_other cl l (h l (List.mem_cons_self _ _))]
    exact ih (fun l' hl' => h l' (List.mem_cons_of_mem _ hl'))

/-- The scan yields the value of the last Content-Length line of a block of
well-formed header lines. -/
theorem scan_last_content_length (before after : List (List Nat)) (v : Nat)
    (rest : List Nat) (hv : v ≤ INT_MAX)
    (hbefore : ∀ l ∈ before, header_line_ok l)
    (hafter : ∀ l ∈ after, header_line_ok l
      ∧ strncasecmp_eq l (bytes "Content-Length:") 15 = false) :
    declared_length (header_block (before ++ (bytes "Content-Length: " ++ fmt_zu v) :: after)
        ++ (CRLF ++ rest)) = some (v : Int) := by
  unfold declared_length
  have hlen : (before ++ (bytes "Content-Length: " ++ fmt_zu v) :: after).length
      < (header_block (before ++ (bytes "Content-Length: " ++ fmt_zu v) :: after)
        ++ (CRLF ++ rest)).length + 1 := by
    have hb : ∀ ls : List (List Nat), ls.length ≤ (header_block ls).length := by
      intro ls
      induction ls with
      | nil => simp
      | cons l r ih =>
        have := header_block_cons l r []
        simp only [List.append_nil] at this
        rw [this]
        simp only [List.length_cons, List.length_append]
        omega
    have := hb (before ++ (bytes "Content-Length: " ++ fmt_zu v) :: after)
    rw [List.length_append _ (CRLF ++ rest)]
    omega
  rw [scan_header_block rest _ _ 0 (by simp) ?_ hlen]
  · rw [List.foldl_append, List.foldl_cons, scan_line_decimal _ v hv,
      foldl_scan_line_other _ after (fun l hl => (hafter l hl).2)]
  · intro l hl
    rcases List.mem_append.mp hl with h | h
    · exact hbefore l h
    · rcases List.mem_cons.mp h with h | h
      · rw [h]; exact content_length_line_ok v
      · exact (hafter l h).1

/-- C22: two request buffers agree up to and including the first CRLFCRLF
and differ only in the body bytes behind it; the Content-Length scan yields
5 on one and 7 on the other.  The value of the Content-Length line is empty,
and the white-space skip of the `%d` conversion runs over the terminator
into the look-ahead bytes.  The answers echo 5 and 6 bytes. -/
theorem scan_reads_look_ahead :
    strstr (bytes "POST /p HTTP/1.1\r\nContent-Length:\r\n\r\n") CRLFCRLF = some CRLFCRLF
    ∧ declared_length (bytes "POST /p HTTP/1.1\r\nContent-Length:\r\n\r\n"
        ++ bytes "5hello") = some 5
    ∧ declared_length (bytes "POST /p HTTP/1.1\r\nContent-Length:\r\n\r\n"
        ++ bytes "7 days") = some 7
    ∧ wire_after (client (bytes "POST /p HTTP/1.1\r\nContent-Length:\r\n\r\n"
        ++ bytes "5hello") []) [] = some (ok_response (bytes "Received POST data:\n5hell"))
    ∧ wire_after (client (bytes "POST /p HTTP/1.1\r\nContent-Length:\r\n\r\n"
        ++ bytes "7 days") []) [] = some (ok_response (bytes "Received POST data:\n7 days")) := by
  decide!

/-- C23: declared lengths outside the range of `int`.  The `%d` conversion
stores the low 32 bits of what `strtol` yields: 4294967296 is read as 0,
2147483648 as -2147483648, 4294967297 as 1 and 99999999999999999999 as -1.
The length used for body assembly is then 0, 0, 1 and 0, not 4096: of the
body `hello` the answers echo nothing for 4294967296 and `h` for
4294967297, while for 5000 they echo all of it. -/
theorem declared_length_beyond_int_wraps :
    declared_length (bytes "POST /p HTTP/1.1\r\nContent-Length: 4294967296\r\n\r\n")
        = some 0
    ∧ declared_length (bytes "POST /p HTTP/1.1\r\nContent-Length: 2147483648\r\n\r\n")
        = some (-2147483648)
    ∧ declared_length (bytes "POST /p HTTP/1.1\r\nContent-Length: 4294967297\r\n\r\n")
        = some 1
    ∧ declared_length
        (bytes "POST /p HTTP/1.1\r\nContent-Length: 99999999999999999999\r\n\r\n")
        = some (-1)
    ∧ clamp_length 0 = 0 ∧ clamp_length (-2147483648) = 0 ∧ clamp_length 1 = 1
    ∧ clamp_length (-1) = 0 ∧ clamp_length 5000 = 4096
    ∧ wire_after (client
        (bytes "POST /p HTTP/1.1\r\nContent-Length: 4294967296\r\n\r\nhello") []) []
        = some (ok_response (bytes "Received POST data:\n"))
    ∧ wire_after (client
        (bytes "POST /p HTTP/1.1\r\nContent-Length: 4294967297\r\n\r\nhello") []) []
        = some (ok_response (bytes "Received POST data:\nh"))
    ∧ wire_after (client
        (bytes "POST /p HTTP/1.1\r\nContent-Length: 5000\r\n\r\nhello") []) []
        = some (ok_response (bytes "Received POST data:\nhello")) := by
  decide!

/-- C25: the header write of a POST answer fails part-way, after 5 bytes (a
send of 84 bytes accepts 5, the next send returns -1), and the body write is
made all the same: its 22 bytes follow the 5 header bytes on the wire.  When
the first send of the header fails, the body alone is sent. -/
theorem body_sent_after_failed_header :
    (handle_client (Sock.mk (bytes "POST /p HTTP/1.1\r\nContent-Length: 2\r\n\r\nhi") [] false
        [5, -1] [] []) []).map (fun s => (s.wire, s.log))
      = some (bytes "HTTP/" ++ bytes "Received POST data:\nhi",
          [Ev.recv 4095 41, Ev.send 84 5, Ev.send 79 (-1), Ev.send 22 22])
    ∧ (handle_client (Sock.mk (bytes "POST /p HTTP/1.1\r\nContent-Length: 2\r\n\r\nhi") [] false
        [-1] [] []) []).map (fun s => (s.wire, s.log))
      = some (bytes "Received POST data:\nhi",
          [Ev.recv 4095 41, Ev.send 84 (-1), Ev.send 22 22]) := by
  decide!

/-- A declared length in the range of `int` is read as it is written, and
the length used is the smaller of it and 4096. -/
theorem declared_length_in_range (path x : List Nat) (v : Nat) (hpath : is_token 255 path)
    (hv : v ≤ INT_MAX) :
    declared_length (post_shape path v x) = some (v : Int)
      ∧ clamp_length (v : Int) = min v 4096 := by
  constructor
  · have hb : post_shape path v x
        = header_block ([bytes "POST" ++ 32 :: (path ++ 32 :: bytes "HTTP/1.1")]
            ++ (bytes "Content-Length: " ++ fmt_zu v) :: []) ++ (CRLF ++ x) := by
      have e : bytes "Content-Length: " = bytes "Content-Length:" ++ [32] := by decide
      rw [post_shape_eq, e]
      simp [header_block, CRLF]
    rw [hb]
    apply scan_last_content_length _ [] v x hv
    · intro l hl
      rw [List.mem_singleton] at hl
      rw [hl]
      exact ⟨by simp, fun c hc => (post_line1 path hpath c hc).2,
        fun h => by rw [strncasecmp_post] at h; cases h⟩
    · intro l hl
      cases hl
  · unfold clamp_length
    split_ifs <;> omega

/-! ## POST requests with an arbitrary Content-Length value -/

/-- The header read of a request of two header lines: the buffer holds the
two lines, the terminator and the look-ahead bytes up to their first NUL. -/
theorem two_line_read (s : Sock) (l1 l2 x : List Nat) (h1 : ∀ c ∈ l1, c ≠ 0 ∧ c ≠ 13)
    (h2 : ∀ c ∈ l2, c ≠ 0 ∧ c ≠ 13) (hne : l2 ≠ [])
    (hfit : l1.length + l2.length + 6 ≤ 4095)
    (hdata : s.inData = l1 ++ 13 :: 10 :: (l2 ++ 13 :: 10 :: 13 :: 10 :: x)) :
    ∃ r y, recv_all_headers s (List.replicate BUF_SIZE 0) BUF_SIZE = some r
      ∧ cstr r.buf = l1 ++ 13 :: 10 :: (l2 ++ 13 :: 10 :: 13 :: 10 :: y)
      ∧ (cstr r.buf).length ≤ 4095
      ∧ r.sock.outSched = s.outSched ∧ r.sock.wire = s.wire := by
  obtain ⟨r, k, hr, hk1, hk2, hbuf, _, hin, _, hout, hwire, hstop⟩ := recv_all_headers_spec s
  have hA : ∀ c ∈ l1 ++ 13 :: 10 :: (l2 ++ [13, 10, 13]), c ≠ 0 := by
    intro c hc
    simp only [List.mem_append, List.mem_cons, List.mem_singleton, List.not_mem_nil,
      or_false] at hc
    rcases hc with h | h | h | h | h | h | h
    · exact (h1 c h).1
    · omega
    · omega
    · exact (h2 c h).1
    · omega
    · omega
    · omega
  have hsplit : s.inData = (l1 ++ 13 :: 10 :: (l2 ++ [13, 10, 13])) ++ 10 :: x := by
    rw [hdata]; simp
  generalize hAdef : l1 ++ 13 :: 10 :: (l2 ++ [13, 10, 13]) = A at hsplit hA
  have hAlen : A.length = l1.length + l2.length + 5 := by
    rw [← hAdef]; simp; omega
  have hnone : strstr A CRLFCRLF = none := by
    rw [← hAdef, strstr_two_lines _ _ _ (fun c hc => (h1 c hc).2) (fun c hc => (h2 c hc).2) hne]
    exact strstr_none_of_short _ _ (by decide)
  have hdl : s.inData.length = A.length + 1 + x.length := by
    rw [hsplit]; simp; omega
  have hk : A.length + 1 ≤ k := by
    rcases hstop with h | h | h
    · by_contra hlt
      have e1 : s.inData.take k = A.take k := by
        rw [hsplit, List.take_append_of_le_length (by omega)]
      have e2 : cstr (A.take k) = A.take k :=
        cstr_of_nul_free _ (fun c hc => hA c (List.mem_of_mem_take hc))
      rw [e1, e2] at h
      have := strstr_isSome_mono _ _ _ (List.take_prefix k A) h
      rw [hnone] at this
      cases this
    · omega
    · omega
  have htake : s.inData.take k = (A ++ [10]) ++ x.take (k - (A.length + 1)) := by
    have : s.inData = (A ++ [10]) ++ x := by rw [hsplit]; simp
    rw [this, List.take_append_eq_append_take, List.take_of_length_le (by simp; omega)]
    simp
  have hreq : cstr r.buf = (A ++ [10]) ++ cstr (x.take (k - (A.length + 1))) := by
    rw [hbuf, cstr_reqbuf _ _ hk2, htake]
    apply cstr_append_of_nul_free
    intro c hc
    rcases List.mem_append.mp hc with h | h
    · exact hA c h
    · rw [List.mem_singleton] at h; omega
  refine ⟨r, cstr (x.take (k - (A.length + 1))), hr, ?_, ?_, hout, hwire⟩
  · rw [hreq, ← hAdef]; simp
  · have := cstr_length_le (s.inData.take k)
    rw [hbuf, cstr_reqbuf _ _ hk2]
    rw [List.length_take] at this
    omega

theorem recv_body_loop_done (fuel : Nat) (s : Sock) (bd : List Nat) (a : Nat) (rem : Int)
    (counts : List Nat) (r : BodyResult) (hrem : rem ≤ 0)
    (h : recv_body_loop fuel s bd a rem counts = some r) : r.sock = s := by
  cases fuel with
  | zero => cases h
  | succ f =>
    rw [recv_body_loop, if_neg (by omega)] at h
    rw [← Option.some.inj h]

/-- With a declared length that clamps to 0, body assembly makes no receive. -/
theorem assemble_body_no_recv (req : List Nat) (v : Int) (s : Sock) (b : BodyResult)
    (hz : clamp_length v = 0) (h : assemble_body req v s = some b) : b.sock = s := by
  have hcl : (if (if v < 0 then 0 else v) > ((POST_MAX : Nat) : Int)
        then ((POST_MAX : Nat) : Int) else (if v < 0 then 0 else v)) = 0 := by
    unfold clamp_length at hz
    unfold POST_MAX
    split_ifs at hz ⊢ <;> omega
  unfold assemble_body at h
  simp only [hcl] at h
  split at h
  · cases h
  · split at h
    · cases h
    · rename_i r hr
      cases hp : poke r.body_data r.already_have [0] with
      | none => rw [hp] at h; cases h
      | some bd1 =>
        rw [hp] at h
        simp only [Option.map_some'] at h
        rw [← Option.some.inj h]
        exact recv_body_loop_done _ _ _ _ _ _ r (by omega) hr

theorem post_echo_zero (req : List Nat) (v : Int) (d : List Nat) (hz : clamp_length v = 0) :
    post_echo req v d = [] := by
  unfold post_echo look_ahead
  rw [hz]
  cases strstr req CRLFCRLF <;> simp [cstr]

/-- The POST branch with a declared length that clamps to 0: the answer is
the label alone, and nothing is received. -/
theorem handle_post_zero (req : List Nat) (s : Sock) (v : Int) (hreq : req.length ≤ 4095)
    (hacc : accepts s) (hv : scan_content_length (req.length + 1) req 0 = some v)
    (hz : clamp_length v = 0) :
    ∃ s1, handle_post req s = some s1
      ∧ s1.wire = s.wire ++ ok_response POST_LABEL
      ∧ s1.inData = s.inData ∧ recv_calls s1 = recv_calls s := by
  obtain ⟨s1, v', hv', h1, h2⟩ := handle_post_spec req s hreq hacc
  rw [hv] at hv'
  have hvv := Option.some.inj hv'
  subst hvv
  rw [post_echo_zero req v _ hz] at h2
  obtain ⟨b, hb, _, _, _, hlen⟩ := assemble_body_bounds req v s hreq
  have hbs := assemble_body_no_recv req v s b hz hb
  have hh := ok_header_length (20 + (cstr b.body_data).length)
    (by unfold POST_MAX at hlen; omega)
  have hlab : POST_LABEL.length = 20 := by decide
  obtain ⟨t1, a1, _, a3, _, _, a6, a7⟩ := send_all_text b.sock
    (ok_header (20 + (cstr b.body_data).length)) (by rw [hbs]; exact hacc)
  obtain ⟨t2, g1, _, g3, _, _, _, g7⟩ := send_all_text t1 (POST_LABEL ++ cstr b.body_data) a6
  have hpost : handle_post req s = some t2 := by
    unfold handle_post
    simp only [hv, hb, snprintf]
    rw [List.take_of_length_le (by omega), a1]
    simp only []
    rw [List.take_of_length_le (by
      rw [List.length_append, hlab]; unfold POST_MAX at *; omega)]
    exact g1
  rw [h1] at hpost
  have := Option.some.inj hpost
  subst this
  refine ⟨s1, h1, ?_, by rw [g3, a3, hbs], by rw [g7, a7, hbs]⟩
  rw [h2]
  rfl

theorem skip_space_lead (lead w : List Nat) (hlead : ∀ c ∈ lead, isspace c = true) :
    skip_space (lead ++ w) = skip_space w := by
  induction lead with
  | nil => rfl
  | cons c cs ih =>
    rw [List.cons_append, skip_space_cons c _ (hlead c (List.mem_cons_self _ _))]
    exact ih (fun d hd => hlead d (List.mem_cons_of_mem _ hd))

theorem skip_space_self (c : Nat) (rest : List Nat) (hc : isspace c = false) :
    skip_space (c :: rest) = c :: rest := by
  unfold skip_space
  rw [List.dropWhile_cons_of_neg (by simp [hc])]

/-- The `%d` conversion stores nothing for a value that does not start with
a number. -/
theorem sscanf_d_no_number (lead word : List Nat) (hlead : ∀ c ∈ lead, isspace c = true)
    (hword : no_number word) : sscanf_d (lead ++ word) = none := by
  cases word with
  | nil => exact absurd hword (by simp [no_number])
  | cons c rest =>
    obtain ⟨hs, hd, hsign⟩ := hword
    unfold sscanf_d
    simp only [skip_space_lead lead _ hlead, skip_space_self c rest hs, List.head?_cons]
    by_cases hc : c = 45 ∨ c = 43
    · have hb : ((some c == some 45) || (some c == some 43)) = true := by
        rcases hc with h | h <;> simp [h]
      have ht : List.takeWhile isdigit rest = [] := by
        cases rest with
        | nil => rfl
        | cons d ds =>
          have := hsign hc d (by simp)
          rw [List.takeWhile_cons_of_neg (by simp [this])]
      simp only [hb, if_true, List.drop_succ_cons, List.drop_zero, ht]
    · have hb : ((some c == some 45) || (some c == some 43)) = false := by
        simp only [not_or] at hc
        simp [hc.1, hc.2]
      have ht : List.takeWhile isdigit (c :: rest) = [] := by
        rw [List.takeWhile_cons_of_neg (by simp [hd])]
      simp only [hb, Bool.false_eq_true, if_false, ht, if_true]

/-- The `%d` conversion on a negative number in the range of `int`. -/
theorem sscanf_d_negative (lead word : List Nat) (hlead : ∀ c ∈ lead, isspace c = true)
    (hword : negative_number word) :
    ∃ v : Int, sscanf_d (lead ++ word) = some v ∧ v ≤ 0 := by
  obtain ⟨hh, hne, hdig, hval⟩ := hword
  cases word with
  | nil => cases hh
  | cons c ds =>
    simp only [List.head?_cons, Option.some.injEq] at hh
    subst hh
    simp only [List.tail_cons] at hne hdig hval
    have ht : List.takeWhile isdigit ds = ds := by
      rw [List.takeWhile_eq_self_iff]
      exact hdig
    refine ⟨-(digits_value ds : Int), ?_, by omega⟩
    unfold sscanf_d
    simp only [skip_space_lead lead _ hlead, skip_space_self 45 ds (by decide), List.head?_cons,
      beq_self_eq_true, Bool.true_or, if_true, List.drop_succ_cons, List.drop_zero, ht,
      if_neg hne]
    have e1 : strtol_sat (-(digits_value ds : Int)) = -(digits_value ds : Int) := by
      unfold strtol_sat
      rw [if_neg (by omega), if_neg (by omega)]
    rw [e1]
    simp only [to_int, Option.some.injEq]
    omega

theorem clamp_length_nonpos (v : Int) (hv : v ≤ 0) : clamp_length v = 0 := by
  unfold clamp_length
  split_ifs <;> omega

/-! ## The 400 answer and the tokens of the buffer -/

/-- With the first two tokens within the field widths, the parse converts
the first three tokens of the buffer, the third cut to 15 bytes. -/
theorem sscanf_of_three_tokens (input : List Nat) (hcount : 3 ≤ (tokens input).length)
    (hw1 : ((tokens input).getD 0 []).length ≤ 15)
    (hw2 : ((tokens input).getD 1 []).length ≤ 255) :
    sscanf_request_line input = ReqLine.mk 3 ((tokens input).getD 0 [])
      ((tokens input).getD 1 []) (((tokens input).getD 2 []).take 15) := by
  have hnil : ∀ x : List Nat, skip_space x = [] → tokens x = [] := by
    intro x hx
    rw [← tokens_skip_space, hx]
    rfl
  unfold sscanf_request_line
  have h0 : skip_space input ≠ [] := by
    intro h
    rw [hnil input h] at hcount
    simp at hcount
  rw [if_neg h0]
  have t0 := tokens_of_not_space input h0
  generalize hs0 : skip_space input = s0 at *
  have hm : scan_token 15 s0 = s0.takeWhile (fun c => !isspace c) := by
    unfold scan_token
    apply List.take_of_length_le
    rw [t0] at hw1
    simpa using hw1
  simp only [hm, drop_takeWhile_length]
  have h1 : skip_space (s0.dropWhile (fun c => !isspace c)) ≠ [] := by
    intro h
    rw [t0, hnil _ h] at hcount
    simp at hcount
  rw [if_neg h1]
  have t1 := tokens_of_not_space _ h1
  generalize hs1 : skip_space (s0.dropWhile (fun c => !isspace c)) = s1 at *
  have hp : scan_token 255 s1 = s1.takeWhile (fun c => !isspace c) := by
    unfold scan_token
    apply List.take_of_length_le
    rw [t0, t1] at hw2
    simpa using hw2
  simp only [hp, drop_takeWhile_length]
  have h2 : skip_space (s1.dropWhile (fun c => !isspace c)) ≠ [] := by
    intro h
    rw [t0, t1, hnil _ h] at hcount
    simp at hcount
  rw [if_neg h2]
  have t2 := tokens_of_not_space _ h2
  rw [t0, t1, t2]
  simp [scan_token]

/-- The 400 text is on the wire exactly when the parse does not convert
three fields. -/
theorem bad_request_iff_count (s : Sock) (clock req : List Nat) (hacc : accepts s)
    (hreq : received s = some req) :
    wire_after s clock = some (s.wire ++ BAD_REQUEST)
      ↔ (sscanf_request_line req).count ≠ 3 := by
  obtain ⟨s0, req0, k, h1, h2, h3, h4, h5, h6, h7, _⟩ := header_read s
  rw [h1] at hreq
  injection hreq with hreq
  subst hreq
  have hacc0 : accepts s0 := by unfold accepts; rw [h7]; exact hacc
  obtain ⟨s1, g1, gbad, gmna, gpost, gget⟩ :=
    handle_request_spec req0 s0 clock (by rw [h4]; exact h5) hacc0
  rw [h4] at gbad gmna gpost gget
  have hwire : wire_after s clock = some s1.wire := by
    unfold wire_after
    rw [h3, g1, Option.map_some']
  rw [hwire]
  constructor
  · intro hw h3'
    injection hw with hw
    by_cases hpost : (sscanf_request_line req0).method = bytes "POST"
    · obtain ⟨v, _, hv⟩ := gpost h3' hpost
      rw [hv, h6] at hw
      exact ok_response_ne_bad_request _ (List.append_cancel_left hw)
    · by_cases hget : (sscanf_request_line req0).method = bytes "GET"
      · have hv := gget h3' hget
        rw [hv, h6] at hw
        exact ok_response_ne_bad_request _ (List.append_cancel_left hw)
      · obtain ⟨_, hv, _⟩ := gmna h3' hget hpost
        rw [hv, h6] at hw
        have := List.append_cancel_left hw
        revert this
        decide
  · intro hc
    rw [(gbad hc).2.1, h6]

/-- C26: for every received buffer whose first token is at most 15 bytes and
whose second is at most 255 bytes, `handle_client` sends the 400 text
`HTTP/1.1 400 Bad Request\r\nConnection: close\r\n\r\n` exactly when the
whole buffer holds fewer than three tokens; with three or more, the parse
stores the first three tokens of the buffer wherever the line breaks are.
So `GARBAGE\r\nHost: h\r\n\r\n` parses as method `GARBAGE`, path `Host:`,
version `h`, and is answered 405. -/
theorem bad_request_iff_few_tokens (s : Sock) (clock req : List Nat) (hacc : accepts s)
    (hreq : received s = some req)
    (hw1 : ((tokens req).getD 0 []).length ≤ 15)
    (hw2 : ((tokens req).getD 1 []).length ≤ 255) :
    (wire_after s clock = some (s.wire ++ BAD_REQUEST) ↔ (tokens req).length < 3)
      ∧ BAD_REQUEST = bytes "HTTP/1.1 400 Bad Request\r\nConnection: close\r\n\r\n"
      ∧ (3 ≤ (tokens req).length →
          sscanf_request_line req = ReqLine.mk 3 ((tokens req).getD 0 [])
            ((tokens req).getD 1 []) (((tokens req).getD 2 []).take 15))
      ∧ tokens (bytes "GARBAGE\r\nHost: h\r\n\r\n")
          = [bytes "GARBAGE", bytes "Host:", bytes "h"]
      ∧ sscanf_request_line (bytes "GARBAGE\r\nHost: h\r\n\r\n")
          = ReqLine.mk 3 (bytes "GARBAGE") (bytes "Host:") (bytes "h")
      ∧ wire_after (client (bytes "GARBAGE\r\nHost: h\r\n\r\n") []) clock
          = some METHOD_NOT_ALLOWED := by
  refine ⟨?_, rfl, fun h => sscanf_of_three_tokens req h hw1 hw2, by decide, by decide, ?_⟩
  · rw [bad_request_iff_count s clock req hacc hreq]
    constructor
    · intro hc
      by_contra hlt
      apply hc
      rw [sscanf_of_three_tokens req (by omega) hw1 hw2]
    · intro hlt
      exact sscanf_count_of_few_tokens req hlt hw1 hw2
  · have hr : received (client (bytes "GARBAGE\r\nHost: h\r\n\r\n") [])
        = some (bytes "GARBAGE\r\nHost: h\r\n\r\n") := by decide!
    obtain ⟨s0, req0, k, h1, h2, h3, h4, h5, h6, h7, _⟩ :=
      header_read (client (bytes "GARBAGE\r\nHost: h\r\n\r\n") [])
    rw [h1] at hr
    have hr := Option.some.inj hr
    subst hr
    have hacc0 : accepts s0 := by
      unfold accepts; rw [h7]; intro r hr; simp [client] at hr
    obtain ⟨s1, g1, _, gmna, _⟩ :=
      handle_request_spec (bytes "GARBAGE\r\nHost: h\r\n\r\n") s0 clock
        (by rw [h4]; exact h5) hacc0
    rw [h4] at gmna
    obtain ⟨_, hv, _⟩ := gmna (by decide) (by decide) (by decide)
    unfold wire_after
    rw [h3, g1, Option.map_some', hv, h6]
    show some ([] ++ METHOD_NOT_ALLOWED) = some METHOD_NOT_ALLOWED
    rw [List.nil_append]

theorem bad_request_iff_few_tokens_witness :
    (wire_after (client (bytes "GET /hello\r\n\r\n") [3]) []
        = some ((client (bytes "GET /hello\r\n\r\n") [3]).wire ++ BAD_REQUEST)
      ↔ (tokens (bytes "GET /hello\r\n\r\n")).length < 3) :=
  (bad_request_iff_few_tokens (client (bytes "GET /hello\r\n\r\n") [3]) []
    (bytes "GET /hello\r\n\r\n") (by decide) (by decide!) (by decide) (by decide)).1

/-- C27: the stream `GET\r\n\r\n/hello HTTP/1.1` is answered in two ways.
Delivered by a single receive, the buffer holds all of it, the parse takes
its three tokens across the terminator and the answer is 200 with the body
`Hello Student!`.  Delivered as `GET\r\n\r\n` and then the rest, the header
read stops at the terminator, the buffer holds one token and the answer is
400. -/
theorem answer_depends_on_fragmentation :
    received (client (bytes "GET\r\n\r\n/hello HTTP/1.1") [])
        = some (bytes "GET\r\n\r\n/hello HTTP/1.1")
    ∧ sscanf_request_line (bytes "GET\r\n\r\n/hello HTTP/1.1")
        = ReqLine.mk 3 (bytes "GET") (bytes "/hello") (bytes "HTTP/1.1")
    ∧ wire_after (client (bytes "GET\r\n\r\n/hello HTTP/1.1") []) []
        = some (ok_response (bytes "Hello Student!"))
    ∧ received (client (bytes "GET\r\n\r\n/hello HTTP/1.1") [6]) = some (bytes "GET\r\n\r\n")
    ∧ (sscanf_request_line (bytes "GET\r\n\r\n")).count = 1
    ∧ wire_after (client (bytes "GET\r\n\r\n/hello HTTP/1.1") [6]) [] = some BAD_REQUEST := by
  decide!

theorem scan_token_length_le (w : Nat) (s : List Nat) : (scan_token w s).length ≤ w := by
  unfold scan_token
  rw [List.length_take]
  omega

theorem sscanf_request_line_lengths (input : List Nat) :
    (sscanf_request_line input).method.length ≤ 15
      ∧ (sscanf_request_line input).path.length ≤ 255
      ∧ (sscanf_request_line input).version.length ≤ 15 := by
  unfold sscanf_request_line
  simp only []
  split
  · simp
  · split
    · exact ⟨scan_token_length_le _ _, by simp, by simp⟩
    · split
      · exact ⟨scan_token_length_le _ _, scan_token_length_le _ _, by simp⟩
      · exact ⟨scan_token_length_le _ _, scan_token_length_le _ _, scan_token_length_le _ _⟩

theorem scan_token_not_space (w : Nat) (s : List Nat) :
    ∀ c ∈ scan_token w s, isspace c = false := by
  intro c hc
  unfold scan_token at hc
  have h1 := List.mem_of_mem_take hc
  have h2 := List.mem_takeWhile_imp h1
  simpa using h2

theorem scan_token_long (w : Nat) (t r : List Nat) (ht : ∀ x ∈ t, isspace x = false)
    (hw : w ≤ t.length) : scan_token w (t ++ r) = t.take w := by
  unfold scan_token
  have h1 : List.takeWhile (fun c => !isspace c) (t ++ r)
      = t ++ List.takeWhile (fun c => !isspace c) r := by
    apply List.takeWhile_append_of_pos
    intro c hc
    simp [ht c hc]
  rw [h1, List.take_append_of_le_length hw]

theorem scan_token_whole (w : Nat) (t tail : List Nat) (ht : ∀ x ∈ t, isspace x = false)
    (htail : ∀ c ∈ tail.head?, isspace c = true) :
    scan_token w (t ++ tail) = t.take w := by
  cases tail with
  | nil =>
    unfold scan_token
    rw [List.append_nil, List.takeWhile_eq_self_iff.mpr]
    intro c hc
    simp [ht c hc]
  | cons c r =>
    have hc : isspace c = true := htail c (by simp)
    unfold scan_token
    have h1 : List.takeWhile (fun c => !isspace c) (t ++ c :: r) = t := by
      rw [List.takeWhile_append_of_pos (by intro x hx; simp [ht x hx])]
      simp [hc]
    rw [h1]

theorem skip_space_run (t r : List Nat) (hne : t ≠ []) (ht : ∀ c ∈ t, isspace c = false) :
    skip_space (t ++ r) = t ++ r ∧ t ++ r ≠ [] := by
  refine ⟨skip_space_token t r hne ht, ?_⟩
  intro h
  exact hne (List.append_eq_nil.mp h).1

/-- C29: for every received buffer the request-line parse stores at most 15
bytes in `method`, at most 255 in `path` and at most 15 in `version`, so
each field and the NUL behind it fit the zeroed arrays `method[16]`,
`path[256]` and `version[16]`.  A token longer than its
field is split, and its excess starts the next field: a first token `t1` of
more than 15 bytes gives `method` its first 15 bytes and `path` the next (at
most 255) ones, and a target `t` of more than 255 bytes behind a method `m`
gives `path` its first 255 bytes and `version` the next (at most 15) ones. -/
theorem request_line_fields_fit (input t1 m t tail : List Nat)
    (ht1 : ∀ c ∈ t1, isspace c = false) (hlen1 : 15 < t1.length)
    (hm : is_token 15 m) (ht : ∀ c ∈ t, isspace c = false) (hlen : 255 < t.length)
    (htail : ∀ c ∈ tail.head?, isspace c = true) :
    ((sscanf_request_line input).method.length ≤ 15
      ∧ (sscanf_request_line input).path.length ≤ 255
      ∧ (sscanf_request_line input).version.length ≤ 15
      ∧ (poke (List.replicate 16 0) 0 ((sscanf_request_line input).method ++ [0])).isSome
      ∧ (poke (List.replicate 256 0) 0 ((sscanf_request_line input).path ++ [0])).isSome
      ∧ (poke (List.replicate 16 0) 0 ((sscanf_request_line input).version ++ [0])).isSome)
    ∧ ((sscanf_request_line (t1 ++ tail)).method = t1.take 15
      ∧ (sscanf_request_line (t1 ++ tail)).path = (t1.drop 15).take 255)
    ∧ sscanf_request_line (m ++ 32 :: (t ++ tail))
        = ReqLine.mk 3 m (t.take 255) ((t.drop 255).take 15) := by
  obtain ⟨b1, b2, b3⟩ := sscanf_request_line_lengths input
  have hsp : isspace 32 = true := by decide
  refine ⟨⟨b1, b2, b3, ?_, ?_, ?_⟩, ?_, ?_⟩
  · rw [poke_isSome _ _ _ (by
      rw [List.length_append, List.length_replicate, List.length_singleton]; omega)]
    rfl
  · rw [poke_isSome _ _ _ (by
      rw [List.length_append, List.length_replicate, List.length_singleton]; omega)]
    rfl
  · rw [poke_isSome _ _ _ (by
      rw [List.length_append, List.length_replicate, List.length_singleton]; omega)]
    rfl
  · have hne1 : t1 ≠ [] := by
      intro h; rw [h] at hlen1; simp at hlen1
    obtain ⟨e0, n0⟩ := skip_space_run t1 tail hne1 ht1
    have hmeth : scan_token 15 (t1 ++ tail) = t1.take 15 := scan_token_whole 15 t1 tail ht1 htail
    have hmlen : (t1.take 15).length = 15 := by rw [List.length_take]; omega
    have hdrop : (t1 ++ tail).drop 15 = t1.drop 15 ++ tail := by
      rw [List.drop_append_of_le_length (by omega)]
    have hne2 : t1.drop 15 ≠ [] := by
      intro h
      have := congrArg List.length h
      rw [List.length_drop] at this
      simp at this
      omega
    have ht2 : ∀ c ∈ t1.drop 15, isspace c = false :=
      fun c hc => ht1 c (List.mem_of_mem_drop hc)
    obtain ⟨e1, n1⟩ := skip_space_run (t1.drop 15) tail hne2 ht2
    have hpath : scan_token 255 (t1.drop 15 ++ tail) = (t1.drop 15).take 255 :=
      scan_token_whole 255 _ tail ht2 htail
    unfold sscanf_request_line
    simp only [e0, if_neg n0, hmeth, hmlen, hdrop, e1, if_neg n1, hpath]
    split <;> simp
  · obtain ⟨hm1, hm2, hm3⟩ := hm
    have hmns : ∀ c ∈ m, isspace c = false := fun c hc => (hm3 c hc).2
    obtain ⟨e0, n0⟩ := skip_space_run m (32 :: (t ++ tail)) hm1 hmns
    have hmeth : scan_token 15 (m ++ 32 :: (t ++ tail)) = m :=
      scan_token_append 15 m _ 32 hmns hm2 hsp
    have hdrop : (m ++ 32 :: (t ++ tail)).drop m.length = 32 :: (t ++ tail) := by
      rw [List.drop_left]
    have hne1 : t ≠ [] := by
      intro h; rw [h] at hlen; simp at hlen
    obtain ⟨e1, n1⟩ := skip_space_run t tail hne1 ht
    have e1b : skip_space (32 :: (t ++ tail)) = t ++ tail := by
      rw [skip_space_cons 32 _ hsp, e1]
    have hpath : scan_token 255 (t ++ tail) = t.take 255 := scan_token_whole 255 t tail ht htail
    have hplen : (t.take 255).length = 255 := by rw [List.length_take]; omega
    have hdrop2 : (t ++ tail).drop 255 = t.drop 255 ++ tail := by
      rw [List.drop_append_of_le_length (by omega)]
    have hne2 : t.drop 255 ≠ [] := by
      intro h
      have := congrArg List.length h
      rw [List.length_drop] at this
      simp at this
      omega
    have ht2 : ∀ c ∈ t.drop 255, isspace c = false :=
      fun c hc => ht c (List.mem_of_mem_drop hc)
    obtain ⟨e2, n2⟩ := skip_space_run (t.drop 255) tail hne2 ht2
    have hver : scan_token 15 (t.drop 255 ++ tail) = (t.drop 255).take 15 :=
      scan_token_whole 15 _ tail ht2 htail
    unfold sscanf_request_line
    simp only [e0, if_neg n0, hmeth, hdrop, e1b, if_neg n1, hpath, hplen, hdrop2, e2, if_neg n2,
      hver]

theorem request_line_fields_fit_witness :
    sscanf_request_line (bytes "GET" ++ 32 :: (List.replicate 255 97 ++ List.replicate 15 98
        ++ List.replicate 30 99 ++ bytes " HTTP/1.1\r\n\r\n"))
      = ReqLine.mk 3 (bytes "GET")
          ((List.replicate 255 97 ++ List.replicate 15 98 ++ List.replicate 30 99).take 255)
          (((List.replicate 255 97 ++ List.replicate 15 98 ++ List.replicate 30 99).drop 255).take
            15) :=
  (request_line_fields_fit [] (List.replicate 16 97) (bytes "GET")
    (List.replicate 255 97 ++ List.replicate 15 98 ++ List.replicate 30 99)
    (bytes " HTTP/1.1\r\n\r\n") (by decide) (by decide) (by decide) (by decide!) (by decide!)
    (by decide)).2.2

/-! ## A NUL byte in a POST body -/

theorem cstr_at_nul (pre post : List Nat) (hpre : ∀ c ∈ pre, c ≠ 0) :
    cstr (pre ++ 0 :: post) = pre := by
  rw [cstr_append_of_nul_free pre _ hpre, cstr_zero_cons, List.append_nil]

/-- The bytes the POST branch takes from the stream: up to the declared
length, less the look-ahead bytes. -/
theorem handle_post_stream (req : List Nat) (s : Sock) (hreq : req.length ≤ 4095)
    (hacc : accepts s) :
    ∃ s1 v, scan_content_length (req.length + 1) req 0 = some v
      ∧ handle_post req s = some s1
      ∧ s1.inData = s.inData.drop
          (min (clamp_length v - (look_ahead req (clamp_length v)).length) s.inData.length) := by
  obtain ⟨s1, v, hv, h1, _⟩ := handle_post_spec req s hreq hacc
  obtain ⟨b, m, hb, hm, hbd, _, hle, hi, _, ho, hw, _⟩ := assemble_body_spec req v s hreq
  have hel := (assemble_body_bounds req v s hreq)
  obtain ⟨b2, hb2, _, _, _, hlen⟩ := hel
  rw [hb] at hb2
  have hbb := Option.some.inj hb2
  subst hbb
  have hacc1 : accepts b.sock := by unfold accepts; rw [ho]; exact hacc
  have hh := ok_header_length (20 + (cstr b.body_data).length)
    (by unfold POST_MAX at hlen; omega)
  have hlab : POST_LABEL.length = 20 := by decide
  obtain ⟨t1, a1, _, a3, _, _, a6, _⟩ := send_all_text b.sock
    (ok_header (20 + (cstr b.body_data).length)) hacc1
  obtain ⟨t2, g1, _, g3, _⟩ := send_all_text t1 (POST_LABEL ++ cstr b.body_data) a6
  have hpost : handle_post req s = some t2 := by
    unfold handle_post
    simp only [hv, hb, snprintf]
    rw [List.take_of_length_le (by omega), a1]
    simp only []
    rw [List.take_of_length_le (by
      rw [List.length_append, hlab]; unfold POST_MAX at *; omega)]
    exact g1
  rw [h1] at hpost
  have := Option.some.inj hpost
  subst this
  exact ⟨s1, v, hv, h1, by rw [g3, a3, hi, hm]⟩

/-- A POST request whose body is received after the header read, all of it:
the answer echoes the body up to its first NUL. -/
theorem post_request_no_look_ahead (s : Sock) (path b clock : List Nat) (n : Nat)
    (hacc : accepts s) (hpath : is_token 255 path) (hn : n ≤ 4096) (hbn : b.length = n)
    (hdata : s.inData = post_shape path n b)
    (hno : (after_headers s).map (fun s0 => s0.inData) = some b) :
    ∃ s1, handle_client s clock = some s1
      ∧ s1.wire = s.wire ++ (ok_header (20 + (cstr b).length) ++ (POST_LABEL ++ cstr b))
      ∧ s1.inData = [] := by
  obtain ⟨r, k, hr, hk1, hk2, hbuf, _, hin, _, hout, hwire, hstop⟩ := recv_all_headers_spec s
  obtain ⟨hl1, hl2, hl3⟩ := post_shape_length path n b hpath hn
  generalize hH : (post_shape path n []).length = H at *
  have hd : s.inData = post_shape path n [] ++ b := by
    rw [hdata]; exact post_shape_append _ _ _
  have hdl : s.inData.length = H + b.length := by rw [hdata, hl1]
  have hdropb : s.inData.drop k = b := by
    unfold after_headers at hno
    rw [hr] at hno
    simp only [Option.map_some'] at hno
    rw [← hin]
    exact Option.some.inj hno
  have hk : k = H := by
    have := congrArg List.length hdropb
    rw [List.length_drop] at this
    omega
  have htake : s.inData.take k = post_shape path n [] := by
    rw [hd, hk, ← hH, List.take_left]
  have hreq : cstr r.buf = post_shape path n [] := by
    rw [hbuf, cstr_reqbuf _ _ hk2, htake]
    exact cstr_of_nul_free _ (post_shape_nul_free path n _ hpath (by simp))
  have hrl : (cstr r.buf).length ≤ 4095 := by
    rw [hreq, hH]; omega
  have hacc1 : accepts r.sock := by unfold accepts; rw [hout]; exact hacc
  obtain ⟨s1, v, hv, h1, h2⟩ := handle_post_spec (cstr r.buf) r.sock hrl hacc1
  have hv2 : v = (n : Int) := by
    rw [hreq, post_shape_content_length path n _ hpath hn] at hv
    exact (Option.some.inj hv).symm
  have hecho : post_echo (cstr r.buf) v r.sock.inData = cstr b := by
    have hcl : clamp_length (n : Int) = n := by
      unfold clamp_length
      rw [if_neg (by omega), if_neg (by omega), Int.toNat_ofNat]
    have hla : look_ahead (post_shape path n []) n = [] := by
      unfold look_ahead
      rw [post_shape_body_start path n _ hpath]
      simp
    unfold post_echo
    rw [hv2, hcl, hreq, hla, hin, hdropb, List.nil_append, List.length_nil, Nat.sub_zero,
      List.take_of_length_le (by omega)]
  have hla : look_ahead (post_shape path n []) n = [] := by
    unfold look_ahead
    rw [post_shape_body_start path n _ hpath]
    simp
  have hcl : clamp_length (n : Int) = n := by
    unfold clamp_length
    rw [if_neg (by omega), if_neg (by omega), Int.toNat_ofNat]
  obtain ⟨s2, v', hv', g1, g2⟩ := handle_post_stream (cstr r.buf) r.sock hrl hacc1
  rw [hv] at hv'
  have hvv := Option.some.inj hv'
  subst hvv
  rw [h1] at g1
  have hss := Option.some.inj g1
  subst hss
  refine ⟨s1, ?_, by rw [h2, hecho, hwire], ?_⟩
  · unfold handle_client
    rw [hr]
    simp only [handle_request, hreq, post_shape_parse path n _ hpath]
    rw [if_neg (by decide), if_neg (by decide), if_pos trivial]
    rw [← hreq]
    exact h1
  · rw [g2, hv2, hcl, hreq, hla, hin, hdropb]
    simp [hbn]

/-! ## The loop of send_all for every behaviour of the sends -/

/-- What one `send` of a chunk that is not empty does: it fails and leaves
the wire as it is, or it accepts between 1 and all bytes of the chunk, in
order. -/
theorem send_cases (s : Sock) (D : List Nat) (hD : 0 < D.length) :
    (send s D).2.log = s.log ++ [Ev.send D.length (send s D).1]
      ∧ (((send s D).1 ≤ 0 ∧ (send s D).2.wire = s.wire)
        ∨ ∃ n : Nat, 0 < n ∧ n ≤ D.length ∧ (send s D).1 = (n : Int)
            ∧ (send s D).2.wire = s.wire ++ D.take n) := by
  unfold send
  cases hs : s.outSched with
  | nil => exact ⟨rfl, Or.inr ⟨D.length, hD, le_refl _, rfl, by simp⟩⟩
  | cons r rest =>
    simp only []
    by_cases hr : r ≤ 0
    · rw [if_pos hr]
      exact ⟨rfl, Or.inl ⟨hr, rfl⟩⟩
    · rw [if_neg hr]
      exact ⟨rfl, Or.inr ⟨min r.toNat D.length, by omega, by omega, rfl, rfl⟩⟩

theorem take_chunk (data : List Nat) (sent len n j : Nat) (hn : n ≤ len - sent)
    (hj : sent + n ≤ j) :
    ((data.drop sent).take (len - sent)).take n ++ (data.take j).drop (sent + n)
      = (data.take j).drop sent := by
  rw [List.take_take, Nat.min_eq_left hn, List.drop_take, List.drop_take, ← List.drop_drop,
    show j - sent = n + (j - (sent + n)) by omega, List.take_add]

theorem send_loop_trace (data : List Nat) (len : Nat) (hlen : len ≤ data.length) (fuel : Nat) :
    ∀ (s : Sock) (sent : Nat), sent ≤ len → len - sent < fuel →
    ∃ s1 evs j, send_loop data len fuel s sent = some s1
      ∧ s1.log = s.log ++ evs
      ∧ (∀ e ∈ evs, Ev.is_send e = true)
      ∧ (∀ e ∈ evs.dropLast, 0 < Ev.ret e)
      ∧ sent + (evs.map (fun e => (Ev.ret e).toNat)).sum = j
      ∧ j ≤ len ∧ evs.length ≤ (j - sent) + 1
      ∧ (evs.filter (fun e => decide (Ev.ret e ≤ 0))).length ≤ 1
      ∧ s1.wire = s.wire ++ (data.take j).drop sent := by
  induction fuel with
  | zero => intro s sent _ hf; omega
  | succ fuel ih =>
    intro s sent hsent hf
    rw [send_loop]
    by_cases hlt : sent < len
    · rw [if_pos hlt, if_neg (by omega)]
      have hcl : ((data.drop sent).take (len - sent)).length = len - sent := by
        rw [List.length_take, List.length_drop]; omega
      obtain ⟨hlog, hret⟩ := send_cases s ((data.drop sent).take (len - sent)) (by omega)
      simp only []
      rcases hret with ⟨h, hw⟩ | ⟨n, hn0, hn1, hn, hw⟩
      · rw [if_pos h]
        refine ⟨_, [Ev.send ((data.drop sent).take (len - sent)).length
          (send s ((data.drop sent).take (len - sent))).1], sent, rfl, hlog, ?_, ?_, ?_,
          hsent, by simp, ?_, ?_⟩
        · intro e he
          rw [List.mem_singleton] at he
          rw [he]; rfl
        · intro e he
          simp at he
        · simp only [List.map_cons, List.map_nil, List.sum_cons, List.sum_nil, Ev.ret]
          omega
        · simp [List.filter]
          split <;> simp
        · rw [hw, List.drop_eq_nil_of_le (by rw [List.length_take]; omega)]
          simp
      · rw [if_neg (by rw [hn]; omega), hn, Int.toNat_ofNat]
        rw [hcl] at hn1
        obtain ⟨s1, evs, j, h1, h2, h3, h4, h5, h6, h7, h8, h9⟩ :=
          ih (send s ((data.drop sent).take (len - sent))).2 (sent + n) (by omega) (by omega)
        refine ⟨s1, Ev.send ((data.drop sent).take (len - sent)).length
          (send s ((data.drop sent).take (len - sent))).1 :: evs, j, h1, ?_, ?_, ?_, ?_, h6,
          ?_, ?_, ?_⟩
        · rw [h2, hlog, List.append_assoc]
          rfl
        · intro e he
          rcases List.mem_cons.mp he with h' | h'
          · rw [h']; rfl
          · exact h3 e h'
        · intro e he
          cases evs with
          | nil => simp at he
          | cons e1 rest =>
            rw [List.dropLast_cons₂] at he
            rcases List.mem_cons.mp he with h' | h'
            · rw [h', hn]
              simp only [Ev.ret]
              omega
            · exact h4 e h'
        · have hr : (Ev.ret (Ev.send ((data.drop sent).take (len - sent)).length
              (send s ((data.drop sent).take (len - sent))).1)).toNat = n := by
            show (send s ((data.drop sent).take (len - sent))).1.toNat = n
            rw [hn, Int.toNat_ofNat]
          rw [List.map_cons, List.sum_cons, hr]
          omega
        · simp only [List.length_cons]
          omega
        · rw [List.filter_cons]
          rw [if_neg (by simp only [Ev.ret, hn, decide_eq_true_eq]; omega)]
          exact h8
        · rw [h9, hw, List.append_assoc, take_chunk data sent len n j hn1 (by omega)]
    · rw [if_neg hlt]
      refine ⟨s, [], sent, rfl, by simp, by simp, by simp, by simp, hsent, by simp, by simp, ?_⟩
      rw [List.drop_eq_nil_of_le (by rw [List.length_take]; omega)]
      simp

/-- C30: for every length `len` (of an object `data` that holds as many
bytes) and every behaviour of the sends, `send_all` returns.  Its socket
calls are sends; every send but the last returned at least 1; the bytes they
accepted are `j ≤ len` in all, so that there are at most `len` sends that
succeed and at most one that fails; and the wire has grown by the first `j`
bytes of `data`.  Every turn of the loop keeps this: from `sent < len` bytes
of `data` delivered, the send either fails and delivers nothing, or accepts
`n ≥ 1` bytes with `sent + n ≤ len`, and then the first `sent + n` bytes of
`data` are delivered. -/
theorem send_all_terminates (s : Sock) (data : List Nat) (len : Nat)
    (hlen : len ≤ data.length) :
    (∃ s1 evs j, send_all s data len = some s1
      ∧ s1.log = s.log ++ evs
      ∧ (∀ e ∈ evs, Ev.is_send e = true)
      ∧ (∀ e ∈ evs.dropLast, 0 < Ev.ret e)
      ∧ (evs.map (fun e => (Ev.ret e).toNat)).sum = j
      ∧ j ≤ len ∧ evs.length ≤ len + 1
      ∧ (evs.filter (fun e => decide (0 < Ev.ret e))).length ≤ len
      ∧ (evs.filter (fun e => decide (Ev.ret e ≤ 0))).length ≤ 1
      ∧ s1.wire = s.wire ++ data.take j)
    ∧ (∀ (t : Sock) (w0 : List Nat) (sent : Nat), sent < len →
        t.wire = w0 ++ data.take sent →
        ((send t ((data.drop sent).take (len - sent))).1 ≤ 0
          ∧ (send t ((data.drop sent).take (len - sent))).2.wire = w0 ++ data.take sent)
        ∨ ∃ n : Nat, 1 ≤ n ∧ sent + n ≤ len
          ∧ (send t ((data.drop sent).take (len - sent))).1 = (n : Int)
          ∧ (send t ((data.drop sent).take (len - sent))).2.wire
              = w0 ++ data.take (sent + n)) := by
  constructor
  · obtain ⟨s1, evs, j, h1, h2, h3, h4, h5, h6, h7, h8, h9⟩ :=
      send_loop_trace data len hlen (len + 1) s 0 (by omega) (by omega)
    refine ⟨s1, evs, j, h1, h2, h3, h4, by simpa using h5, h6, by omega, ?_, h8,
      by simpa using h9⟩
    have hsum : ∀ l : List Ev, (l.filter (fun e => decide (0 < Ev.ret e))).length
        ≤ (l.map (fun e => (Ev.ret e).toNat)).sum := by
      intro l
      induction l with
      | nil => simp
      | cons e r ih =>
        rw [List.filter_cons, List.map_cons, List.sum_cons]
        by_cases he : 0 < Ev.ret e
        · rw [if_pos (by simpa using he), List.length_cons]
          omega
        · rw [if_neg (by simpa using he)]
          omega
    have := hsum evs
    simp only [Nat.zero_add] at h5
    omega
  · intro t w0 sent hsent hw
    have hcl : ((data.drop sent).take (len - sent)).length = len - sent := by
      rw [List.length_take, List.length_drop]; omega
    obtain ⟨_, hret⟩ := send_cases t ((data.drop sent).take (len - sent)) (by omega)
    rcases hret with ⟨h, hw1⟩ | ⟨n, hn0, hn1, hn, hw1⟩
    · exact Or.inl ⟨h, by rw [hw1, hw]⟩
    · rw [hcl] at hn1
      refine Or.inr ⟨n, hn0, by omega, hn, ?_⟩
      rw [hw1, hw, List.append_assoc]
      congr 1
      rw [List.take_take, Nat.min_eq_left hn1, List.take_add]

theorem send_all_terminates_witness :
    ∃ s1 evs j, send_all (Sock.mk [] [] false [2, 1, 0, 5] [7] []) (bytes "abcdef" ++ [0]) 6
        = some s1
      ∧ s1.log = (Sock.mk [] [] false [2, 1, 0, 5] [7] []).log ++ evs
      ∧ (∀ e ∈ evs, Ev.is_send e = true)
      ∧ (∀ e ∈ evs.dropLast, 0 < Ev.ret e)
      ∧ (evs.map (fun e => (Ev.ret e).toNat)).sum = j
      ∧ j ≤ 6 ∧ evs.length ≤ 6 + 1
      ∧ (evs.filter (fun e => decide (0 < Ev.ret e))).length ≤ 6
      ∧ (evs.filter (fun e => decide (Ev.ret e ≤ 0))).length ≤ 1
      ∧ s1.wire = (Sock.mk [] [] false [2, 1, 0, 5] [7] []).wire
          ++ (bytes "abcdef" ++ [0]).take j :=
  (send_all_terminates (Sock.mk [] [] false [2, 1, 0, 5] [7] []) (bytes "abcdef" ++ [0]) 6
    (by decide)).1

/-! ## POST requests with any header lines -/

theorem header_block_append_cons (l : List Nat) (ls : List (List Nat)) (y : List Nat) :
    header_block (l :: ls) ++ y = l ++ 13 :: 10 :: (header_block ls ++ y) := by
  simp [header_block, CRLF]

/-- The terminator search runs over header lines that are not empty and hold
no carriage return, down to the line end of the last of them. -/
theorem strstr_header_block (y : List Nat) : ∀ (lines : List (List Nat)), lines ≠ [] →
    (∀ l ∈ lines, l ≠ [] ∧ ∀ c ∈ l, c ≠ 13) →
    strstr (header_block lines ++ y) CRLFCRLF = strstr (13 :: 10 :: y) CRLFCRLF := by
  intro lines
  induction lines with
  | nil => intro h; exact absurd rfl h
  | cons l ls ih =>
    intro _ hok
    obtain ⟨_, hl⟩ := hok l (List.mem_cons_self _ _)
    rw [header_block_append_cons]
    cases ls with
    | nil =>
      rw [show CRLFCRLF = 13 :: [10, 13, 10] from rfl, strstr_skip l _ 13 _ hl]
      rfl
    | cons l2 ls2 =>
      obtain ⟨hne2, hl2⟩ := hok l2 (by simp)
      have hih := ih (by simp) (fun l' hl' => hok l' (List.mem_cons_of_mem _ hl'))
      rw [header_block_append_cons] at hih ⊢
      rw [strstr_two_lines l l2 _ hl hl2 hne2]
      rw [show CRLFCRLF = 13 :: [10, 13, 10] from rfl, strstr_skip l2 _ 13 _ hl2] at hih
      exact hih

theorem header_block_nul_free : ∀ (lines : List (List Nat)),
    (∀ l ∈ lines, ∀ c ∈ l, c ≠ 0) → ∀ c ∈ header_block lines, c ≠ 0 := by
  intro lines
  induction lines with
  | nil => intro _ c hc; simp [header_block] at hc
  | cons l ls ih =>
    intro h c hc
    have e := header_block_append_cons l ls []
    simp only [List.append_nil] at e
    rw [e] at hc
    simp only [List.mem_append, List.mem_cons] at hc
    rcases hc with h1 | h1 | h1 | h1
    · exact h l (List.mem_cons_self _ _) c h1
    · omega
    · omega
    · exact ih (fun l' hl' => h l' (List.mem_cons_of_mem _ hl')) c h1

/-- The header read of a stream whose first CRLFCRLF ends within the 4095
bytes of the buffer: the buffer holds the stream up to the terminator and
the look-ahead bytes up to their first NUL. -/
theorem read_past_terminator (s : Sock) (A x : List Nat) (hA : ∀ c ∈ A, c ≠ 0)
    (hnone : strstr A CRLFCRLF = none) (hfit : A.length + 1 ≤ 4095)
    (hdata : s.inData = A ++ 10 :: x) :
    ∃ r j, recv_all_headers s (List.replicate BUF_SIZE 0) BUF_SIZE = some r
      ∧ j ≤ x.length
      ∧ cstr r.buf = A ++ 10 :: cstr (x.take j)
      ∧ (cstr r.buf).length ≤ 4095
      ∧ r.sock.inData = x.drop j ∧ r.sock.inErr = s.inErr
      ∧ r.sock.outSched = s.outSched ∧ r.sock.wire = s.wire := by
  obtain ⟨r, k, hr, hk1, hk2, hbuf, _, hin, herr, hout, hwire, hstop⟩ := recv_all_headers_spec s
  have hdl : s.inData.length = A.length + 1 + x.length := by
    rw [hdata]; simp; omega
  have hk : A.length + 1 ≤ k := by
    rcases hstop with h | h | h
    · by_contra hlt
      have e1 : s.inData.take k = A.take k := by
        rw [hdata, List.take_append_of_le_length (by omega)]
      have e2 : cstr (A.take k) = A.take k :=
        cstr_of_nul_free _ (fun c hc => hA c (List.mem_of_mem_take hc))
      rw [e1, e2] at h
      have := strstr_isSome_mono _ _ _ (List.take_prefix k A) h
      rw [hnone] at this
      cases this
    · omega
    · omega
  have hsplit : s.inData = (A ++ [10]) ++ x := by rw [hdata]; simp
  have htake : s.inData.take k = (A ++ [10]) ++ x.take (k - (A.length + 1)) := by
    rw [hsplit, List.take_append_eq_append_take, List.take_of_length_le (by simp; omega)]
    simp
  have hdrop : s.inData.drop k = x.drop (k - (A.length + 1)) := by
    rw [hsplit, List.drop_append_eq_append_drop, List.drop_of_length_le (by simp; omega)]
    simp
  have hreq : cstr r.buf = (A ++ [10]) ++ cstr (x.take (k - (A.length + 1))) := by
    rw [hbuf, cstr_reqbuf _ _ hk2, htake]
    apply cstr_append_of_nul_free
    intro c hc
    rcases List.mem_append.mp hc with h | h
    · exact hA c h
    · rw [List.mem_singleton] at h; omega
  refine ⟨r, k - (A.length + 1), hr, by omega, ?_, ?_, by rw [hin, hdrop], herr, hout, hwire⟩
  · rw [hreq]; simp
  · have := cstr_length_le (s.inData.take k)
    rw [hbuf, cstr_reqbuf _ _ hk2]
    rw [List.length_take] at this
    omega

theorem word_no_space (t : List Nat) (h : is_word t) : ∀ c ∈ t, isspace c = false :=
  fun c hc => (h.2 c hc).2

theorem drop_ne_nil_of_lt (t : List Nat) (m : Nat) (h : m < t.length) : t.drop m ≠ [] := by
  intro e
  have := congrArg List.length e
  rw [List.length_drop] at this
  simp at this
  omega

/-- The parse of a request that starts with `POST <target> <version>`: three
fields are converted and the method is `POST`, whatever the lengths of the
target and of the version and whatever follows. -/
theorem sscanf_post_line (target version tail : List Nat)
    (ht : is_word target) (hv : is_word version) :
    (sscanf_request_line (post_line target version ++ tail)).count = 3
      ∧ (sscanf_request_line (post_line target version ++ tail)).method = bytes "POST" := by
  have hsp : isspace 32 = true := by decide
  have hpost : is_token 15 (bytes "POST") := by decide
  have hpns : ∀ c ∈ bytes "POST", isspace c = false := fun c hc => (hpost.2.2 c hc).2
  have hin : post_line target version ++ tail
      = bytes "POST" ++ 32 :: (target ++ 32 :: (version ++ tail)) := by
    simp [post_line]
  rw [hin]
  have e0 : skip_space (bytes "POST" ++ 32 :: (target ++ 32 :: (version ++ tail)))
      = bytes "POST" ++ 32 :: (target ++ 32 :: (version ++ tail)) :=
    skip_space_token _ _ hpost.1 hpns
  have n0 : bytes "POST" ++ 32 :: (target ++ 32 :: (version ++ tail)) ≠ [] := by simp
  have hmeth : scan_token 15 (bytes "POST" ++ 32 :: (target ++ 32 :: (version ++ tail)))
      = bytes "POST" := scan_token_append 15 _ _ 32 hpns hpost.2.1 hsp
  have hdrop : (bytes "POST" ++ 32 :: (target ++ 32 :: (version ++ tail))).drop
      (bytes "POST").length = 32 :: (target ++ 32 :: (version ++ tail)) := List.drop_left _ _
  have e1 : skip_space (32 :: (target ++ 32 :: (version ++ tail)))
      = target ++ 32 :: (version ++ tail) := by
    rw [skip_space_cons 32 _ hsp]
    exact skip_space_token _ _ ht.1 (word_no_space _ ht)
  have n1 : target ++ 32 :: (version ++ tail) ≠ [] := by simp
  have hpath : scan_token 255 (target ++ 32 :: (version ++ tail)) = target.take 255 :=
    scan_token_whole 255 target _ (word_no_space _ ht) (by intro d hd; simp at hd; rw [← hd]; exact hsp)
  have n2 : skip_space ((target ++ 32 :: (version ++ tail)).drop (target.take 255).length)
      ≠ [] := by
    rw [List.length_take]
    by_cases hl : 255 < target.length
    · rw [Nat.min_eq_left (by omega), List.drop_append_of_le_length (by omega)]
      rw [skip_space_token _ _ (drop_ne_nil_of_lt _ _ hl)
        (fun d hd => word_no_space _ ht d (List.mem_of_mem_drop hd))]
      intro e
      exact drop_ne_nil_of_lt _ _ hl (List.append_eq_nil.mp e).1
    · rw [Nat.min_eq_right (by omega), List.drop_left, skip_space_cons 32 _ hsp,
        skip_space_token _ _ hv.1 (word_no_space _ hv)]
      intro e
      exact hv.1 (List.append_eq_nil.mp e).1
  unfold sscanf_request_line
  simp only [e0, if_neg n0, hmeth, hdrop, e1, if_neg n1, hpath, if_neg n2, and_self]

theorem post_line_ok (target version : List Nat) (ht : is_word target) (hv : is_word version) :
    request_header_ok (post_line target version) := by
  have hp : ∀ c ∈ bytes "POST", c ≠ 0 ∧ c ≠ 13 := by decide
  refine ⟨⟨by simp [post_line], ?_, ?_⟩, ?_⟩
  · intro c hc
    simp only [post_line, List.mem_append, List.mem_cons] at hc
    rcases hc with h | h | h | h | h
    · exact (hp c h).2
    · omega
    · exact not_space_ne_cr c (ht.2 c h).2
    · omega
    · exact not_space_ne_cr c (hv.2 c h).2
  · intro h
    unfold post_line at h
    rw [strncasecmp_post] at h
    cases h
  · intro c hc
    simp only [post_line, List.mem_append, List.mem_cons] at hc
    rcases hc with h | h | h | h | h
    · exact (hp c h).1
    · omega
    · exact (ht.2 c h).1
    · omega
    · exact (hv.2 c h).1

theorem scan_line_post_line (target version : List Nat) (cl : Int) :
    scan_line cl (post_line target version) = cl := by
  unfold post_line
  exact scan_line_other cl _ (strncasecmp_post _)

/-- The bytes the POST branch echoes when the look-ahead bytes and the rest
of the body hold no NUL: the body up to the length used. -/
theorem echo_nul_free (x : List Nat) (j C : Nat) (hx : ∀ c ∈ x, c ≠ 0) :
    cstr ((cstr (x.take j)).take C
        ++ (x.drop j).take (C - ((cstr (x.take j)).take C).length)) = x.take C := by
  have h1 : cstr (x.take j) = x.take j :=
    cstr_of_nul_free _ (fun c hc => hx c (List.mem_of_mem_take hc))
  rw [h1, List.take_take]
  have h2 : List.take (min C j) x
      ++ List.take (C - (List.take (min C j) x).length) (List.drop j x) = x.take C := by
    by_cases hj : j ≤ C
    · rw [Nat.min_eq_right hj]
      by_cases hjx : j ≤ x.length
      · rw [List.length_take, Nat.min_eq_left hjx]
        have : C = j + (C - j) := by omega
        conv_rhs => rw [this, List.take_add]
      · rw [List.take_of_length_le (by omega), List.drop_of_length_le (by omega),
          List.take_of_length_le (by omega : x.length ≤ C)]
        simp
    · have hC : C ≤ j := by omega
      rw [Nat.min_eq_left hC]
      by_cases hCx : C ≤ x.length
      · rw [List.length_take, Nat.min_eq_left hCx, Nat.sub_self]
        simp
      · rw [List.drop_of_length_le (by omega)]
        simp
  rw [h2]
  exact cstr_of_nul_free _ (fun c hc => hx c (List.mem_of_mem_take hc))

/-- A POST request whose request line, header lines and empty line fit the
buffer, towards a client that accepts the sends: the header read ends behind
the terminator with `j` look-ahead bytes, the declared length is what the
header lines make of it in turn, and the answer echoes the C string made of
the look-ahead bytes and of the bytes received up to the length used. -/
theorem post_request_answer (s : Sock) (target version : List Nat) (lines : List (List Nat))
    (x clock : List Nat) (C : Nat)
    (hacc : accepts s) (ht : is_word target) (hv : is_word version)
    (hlines : ∀ l ∈ lines, request_header_ok l) (hfit : fits_reqbuf target version lines)
    (hC : C = clamp_length (lines.foldl scan_line 0))
    (hdata : s.inData = post_request target version lines x) :
    ∃ s0 s1 j, after_headers s = some s0
      ∧ received s = some (post_request target version lines (cstr (x.take j)))
      ∧ j ≤ x.length ∧ s0.inData = x.drop j
      ∧ declared_length (post_request target version lines (cstr (x.take j)))
          = some (lines.foldl scan_line 0)
      ∧ handle_client s clock = some s1
      ∧ s1.wire = s.wire ++ ok_response (POST_LABEL ++ cstr ((cstr (x.take j)).take C
          ++ (x.drop j).take (C - ((cstr (x.take j)).take C).length)))
      ∧ s1.inData = (x.drop j).drop
          (min (C - ((cstr (x.take j)).take C).length) (x.drop j).length)
      ∧ (C = 0 → recv_calls s1 = recv_calls s0) := by
  have hfirst := post_line_ok target version ht hv
  have hall : ∀ l ∈ post_line target version :: lines, request_header_ok l := by
    intro l hl
    rcases List.mem_cons.mp hl with h | h
    · rw [h]; exact hfirst
    · exact hlines l h
  have hnf := header_block_nul_free _ (fun l hl => (hall l hl).2)
  have hA : ∀ c ∈ header_block (post_line target version :: lines) ++ [13], c ≠ 0 := by
    intro c hc
    rcases List.mem_append.mp hc with h | h
    · exact hnf c h
    · rw [List.mem_singleton] at h; omega
  have hcr : ∀ l ∈ post_line target version :: lines, l ≠ [] ∧ ∀ c ∈ l, c ≠ 13 :=
    fun l hl => ⟨(hall l hl).1.1, (hall l hl).1.2.1⟩
  have hnone : strstr (header_block (post_line target version :: lines) ++ [13]) CRLFCRLF
      = none := by
    rw [strstr_header_block [13] _ (by simp) hcr]
    exact strstr_none_of_short _ _ (by decide)
  have hlen : (header_block (post_line target version :: lines) ++ [13]).length + 1 ≤ 4095 := by
    unfold fits_reqbuf post_request BUF_SIZE at hfit
    simp only [List.length_append, CRLF, List.length_cons, List.length_nil] at hfit ⊢
    omega
  have hd : s.inData = (header_block (post_line target version :: lines) ++ [13]) ++ 10 :: x := by
    rw [hdata]; simp [post_request, CRLF]
  obtain ⟨r, j, hr, hj, hreq, hrl, hin, _, hout, hwire⟩ :=
    read_past_terminator s _ x hA hnone hlen hd
  have hreq2 : cstr r.buf = post_request target version lines (cstr (x.take j)) := by
    rw [hreq]; simp [post_request, CRLF]
  generalize hy : cstr (x.take j) = y at *
  -- the parse
  have hshape : post_request target version lines y
      = post_line target version ++ 13 :: 10 :: (header_block lines ++ (CRLF ++ y)) := by
    unfold post_request
    exact header_block_append_cons _ _ _
  obtain ⟨hcount, hmethod⟩ := sscanf_post_line target version
    (13 :: 10 :: (header_block lines ++ (CRLF ++ y))) ht hv
  rw [← hshape, ← hreq2] at hcount hmethod
  -- the scan
  have hscan : declared_length (post_request target version lines y)
      = some (lines.foldl scan_line 0) := by
    unfold declared_length post_request
    have hfuel : (post_line target version :: lines).length
        < (header_block (post_line target version :: lines) ++ (CRLF ++ y)).length + 1 := by
      have hb : ∀ ls : List (List Nat), ls.length ≤ (header_block ls).length := by
        intro ls
        induction ls with
        | nil => simp
        | cons l r ih =>
          have := header_block_append_cons l r []
          simp only [List.append_nil] at this
          rw [this]
          simp only [List.length_cons, List.length_append]
          omega
      have := hb (post_line target version :: lines)
      rw [List.length_append _ (CRLF ++ y)]
      omega
    rw [scan_header_block y _ _ 0 (by simp) (fun l hl => (hall l hl).1) hfuel,
      List.foldl_cons, scan_line_post_line]
  -- the terminator
  have hlook : ∀ n, look_ahead (post_request target version lines y) n = y.take n := by
    intro n
    unfold look_ahead post_request
    rw [strstr_header_block (CRLF ++ y) _ (by simp) hcr]
    have : strstr (13 :: 10 :: (CRLF ++ y)) CRLFCRLF = some (13 :: 10 :: 13 :: 10 :: y) :=
      strstr_at_needle [13, 10, 13, 10] y
    rw [this]
    rfl
  have hacc1 : accepts r.sock := by unfold accepts; rw [hout]; exact hacc
  obtain ⟨s1, v, hv1, h1, h2⟩ := handle_post_spec (cstr r.buf) r.sock hrl hacc1
  obtain ⟨s2, v2, hv2, g1, g2⟩ := handle_post_stream (cstr r.buf) r.sock hrl hacc1
  rw [h1] at g1
  have hss := Option.some.inj g1
  subst hss
  rw [hv1] at hv2
  have hvv := Option.some.inj hv2
  subst hvv
  have hv3 : v = lines.foldl scan_line 0 := by
    have := hscan
    unfold declared_length at this
    rw [← hreq2, hv1] at this
    exact Option.some.inj this
  have hclient : handle_client s clock = some s1 := by
    unfold handle_client
    rw [hr]
    simp only [handle_request]
    rw [if_neg (by rw [hcount]; decide), if_neg (by rw [hmethod]; decide), if_pos hmethod]
    exact h1
  subst hy
  refine ⟨r.sock, s1, j, ?_, ?_, hj, hin, hscan, hclient, ?_, ?_, ?_⟩
  · unfold after_headers; rw [hr]; rfl
  · unfold received; rw [hr, ← hreq2]; rfl
  · rw [h2, hwire, ok_response_post]
    unfold post_echo
    rw [hv3, ← hC, hreq2, hlook, hin]
  · rw [g2, hv3, ← hC, hreq2, hlook, hin]
  · intro h0
    obtain ⟨s3, k1, _, _, k4⟩ := handle_post_zero (cstr r.buf) r.sock v hrl hacc1 hv1
      (by rw [hv3, ← hC]; exact h0)
    rw [h1] at k1
    rw [Option.some.inj k1]
    exact k4

/-! ## The POST claims for every request that fits the buffer -/

theorem content_length_line_request_ok (n : Nat) :
    request_header_ok (bytes "Content-Length: " ++ fmt_zu n) := by
  refine ⟨content_length_line_ok n, ?_⟩
  have e : bytes "Content-Length: " ++ fmt_zu n = bytes "Content-Length:" ++ 32 :: fmt_zu n := by
    have : bytes "Content-Length: " = bytes "Content-Length:" ++ [32] := by decide
    rw [this]; simp
  rw [e]
  exact fun c hc => (post_line2 n c hc).1

/-- The length used when the last Content-Length line of the header lines
declares `n ≤ 4096`. -/
theorem clamp_declared (before after : List (List Nat)) (n : Nat) (hn : n ≤ 4096)
    (hafter : ∀ l ∈ after, strncasecmp_eq l (bytes "Content-Length:") 15 = false) :
    clamp_length ((before ++ (bytes "Content-Length: " ++ fmt_zu n) :: after).foldl scan_line 0)
      = n := by
  rw [List.foldl_append, List.foldl_cons, scan_line_decimal _ n (by unfold INT_MAX; omega),
    foldl_scan_line_other _ after hafter]
  unfold clamp_length
  rw [if_neg (by omega), if_neg (by omega), Int.toNat_ofNat]

theorem ok_response_post_literal (e : List Nat) :
    ok_response (POST_LABEL ++ e) = bytes "HTTP/1.1 200 OK\r\nContent-Length: "
      ++ fmt_zu (20 + e.length)
      ++ bytes "\r\nContent-Type: text/plain\r\nConnection: close\r\n\r\n"
      ++ (bytes "Received POST data:\n" ++ e) := by
  rw [← ok_response_post]
  rfl

/-- A POST request whose last Content-Length line declares `n ≤ 4096` and
whose body bytes `b`, at most `n` and without NUL, end the stream: the answer
echoes `b`. -/
theorem post_request_echo (s : Sock) (target version : List Nat)
    (before after : List (List Nat)) (b clock : List Nat) (n : Nat)
    (hacc : accepts s) (ht : is_word target) (hv : is_word version)
    (hbefore : ∀ l ∈ before, request_header_ok l)
    (hafter : ∀ l ∈ after, request_header_ok l
      ∧ strncasecmp_eq l (bytes "Content-Length:") 15 = false)
    (hfit : fits_reqbuf target version
      (before ++ (bytes "Content-Length: " ++ fmt_zu n) :: after))
    (hb : ∀ c ∈ b, c ≠ 0) (hn : n ≤ 4096) (hbn : b.length ≤ n)
    (hdata : s.inData = post_request target version
      (before ++ (bytes "Content-Length: " ++ fmt_zu n) :: after) b) :
    wire_after s clock = some (s.wire ++ ok_response (POST_LABEL ++ b)) := by
  have hlines : ∀ l ∈ before ++ (bytes "Content-Length: " ++ fmt_zu n) :: after,
      request_header_ok l := by
    intro l hl
    rcases List.mem_append.mp hl with h | h
    · exact hbefore l h
    · rcases List.mem_cons.mp h with h | h
      · rw [h]; exact content_length_line_request_ok n
      · exact (hafter l h).1
  have hC := clamp_declared before after n hn (fun l hl => (hafter l hl).2)
  obtain ⟨s0, s1, j, _, _, _, _, _, h6, h7, _⟩ := post_request_answer s target version _ b clock n
    hacc ht hv hlines hfit hC.symm hdata
  unfold wire_after
  rw [h6, Option.map_some', h7, echo_nul_free b j n hb, List.take_of_length_le hbn]

/-- C1, counterexample: with a path of 4059 bytes the request line, the
header line `Content-Length: 5` and the empty line make 4096 bytes, one more
than `reqbuf` can hold.  The header read stops at the full buffer, before the
last byte of the terminator, and the answer echoes that byte and `abcd`
instead of `abcde`. -/
theorem long_path_shifts_the_echo :
    wire_after (client (bytes "POST " ++ List.replicate 4059 97
        ++ bytes " HTTP/1.1\r\nContent-Length: 5\r\n\r\nabcde") []) []
      = some (ok_response (bytes "Received POST data:\n" ++ bytes "\nabcd")) := by
  decide!

/-- C1, amended: the path is a token (not empty, no NUL, no white space)
short enough for the request line, the Content-Length line and the empty line
to fit the 4095 bytes that `reqbuf` can hold: the path, the digits of `n` and
the 36 other bytes.  When the client stream carries `POST <path> HTTP/1.1`,
the header line `Content-Length: n` and, behind the empty line, exactly the
`n` bytes `b` (no NUL among them, `n ≤ 4096`), then `handle_client` returns
and the bytes on the wire are the status line `HTTP/1.1 200 OK`, the three
header lines and the body `Received POST data:\n` followed by `b`; this holds
for every fragmentation of the receives and of the sends. -/
theorem post_echoes_body (s : Sock) (path b clock : List Nat)
    (hacc : accepts s) (hpath : is_word path)
    (hfit : path.length + (fmt_zu b.length).length + 36 ≤ 4095)
    (hb : ∀ c ∈ b, c ≠ 0) (hn : b.length ≤ 4096)
    (hdata : s.inData = bytes "POST " ++ path ++ bytes " HTTP/1.1\r\nContent-Length: "
      ++ fmt_zu b.length ++ bytes "\r\n\r\n" ++ b) :
    wire_after s clock = some (s.wire ++ (bytes "HTTP/1.1 200 OK\r\nContent-Length: "
      ++ fmt_zu (20 + b.length)
      ++ bytes "\r\nContent-Type: text/plain\r\nConnection: close\r\n\r\n"
      ++ (bytes "Received POST data:\n" ++ b))) := by
  have e1 : bytes "POST " = bytes "POST" ++ [32] := by decide
  have e2 : bytes " HTTP/1.1\r\nContent-Length: "
      = 32 :: (bytes "HTTP/1.1" ++ 13 :: 10 :: bytes "Content-Length: ") := by decide
  have e3 : bytes "\r\n\r\n" = [13, 10, 13, 10] := by decide
  have hshape : s.inData = post_request path (bytes "HTTP/1.1")
      ([] ++ (bytes "Content-Length: " ++ fmt_zu b.length) :: []) b := by
    rw [hdata, e1, e2, e3]
    simp [post_request, post_line, header_block, CRLF]
  have hfits : fits_reqbuf path (bytes "HTTP/1.1")
      ([] ++ (bytes "Content-Length: " ++ fmt_zu b.length) :: []) := by
    unfold fits_reqbuf post_request BUF_SIZE
    have h4 : (bytes "POST").length = 4 := by decide
    have h8 : (bytes "HTTP/1.1").length = 8 := by decide
    have h16 : (bytes "Content-Length: ").length = 16 := by decide
    simp only [header_block, post_line, CRLF, List.nil_append, List.map_cons, List.map_nil,
      List.flatten_cons, List.flatten_nil, List.length_append, List.length_cons,
      List.length_nil, h4, h8, h16]
    omega
  rw [post_request_echo s path (bytes "HTTP/1.1") [] [] b clock b.length hacc hpath (by decide)
    (by simp) (by simp) hfits hb hn (le_refl _) hshape, ok_response_post_literal]

theorem post_echoes_body_witness :
    wire_after (client (bytes "POST /any HTTP/1.1\r\nContent-Length: 5\r\n\r\nabcde") [7, 0, 30])
        (bytes "Thu Jan  1 00:00:00 1970\n")
      = some (bytes "HTTP/1.1 200 OK\r\nContent-Length: 25\r\nContent-Type: text/plain\r\nConnection: close\r\n\r\nReceived POST data:\nabcde") :=
  post_echoes_body (client (bytes "POST /any HTTP/1.1\r\nContent-Length: 5\r\n\r\nabcde") [7, 0, 30])
    (bytes "/any") (bytes "abcde") (bytes "Thu Jan  1 00:00:00 1970\n")
    (by decide) (by decide) (by decide) (by decide) (by decide) (by decide)

/-- A 200 answer determines its body. -/
theorem ok_response_inj (b1 b2 : List Nat) (h : ok_response b1 = ok_response b2) : b1 = b2 := by
  have hq : bytes "\r\nContent-Type: text/plain\r\nConnection: close\r\n\r\n"
      = 13 :: bytes "\nContent-Type: text/plain\r\nConnection: close\r\n\r\n" := by decide
  have hdig : ∀ (n : Nat) (r : List Nat),
      List.takeWhile isdigit (fmt_zu n ++ 13 :: r) = fmt_zu n := by
    intro n r
    rw [List.takeWhile_append_of_pos (fmt_zu_isdigit n), List.takeWhile_cons_of_neg (by decide)]
    simp
  have h1 := h
  rw [ok_response_literal, ok_response_literal] at h1
  simp only [List.append_assoc] at h1
  have h2 := List.append_cancel_left h1
  rw [hq] at h2
  have h3 := congrArg (List.takeWhile isdigit) h2
  simp only [List.cons_append] at h3
  rw [hdig, hdig] at h3
  have h4 : b1.length = b2.length := by
    have := congrArg digits_value h3
    rw [digits_value_fmt_zu, digits_value_fmt_zu] at this
    exact this
  unfold ok_response at h
  rw [h4] at h
  exact List.append_cancel_left h

theorem get_body_time (query : Option (List Nat)) (c : List Nat)
    (hc : (cstr c).length ≤ 1009) :
    get_body (bytes "/time") query c = bytes "Current Time: " ++ cstr c := by
  unfold get_body
  rw [if_neg (by decide), if_pos rfl]
  unfold snprintf
  have h14 : (bytes "Current Time: ").length = 14 := by decide
  exact List.take_of_length_le (by rw [List.length_append, h14]; omega)

/-- C17, amended: the same well-formed GET request, issued on two separate
connections (each with its own fragmentation of receives and sends), gets
byte-identical answers on the routes `/hello` and unknown path, and on
`/time` when `ctime` returns the same text for both; on `/time`, with texts
of at most 1009 bytes (they fit `body[1024]`; `ctime` returns 25 bytes),
byte-identical answers mean that `ctime` returned the same text for both. -/
theorem same_get_same_answer (s1 s2 : Sock) (target version rest c1 c2 : List Nat)
    (hacc1 : accepts s1) (hacc2 : accepts s2)
    (htarget : is_token 255 target) (hversion : is_token 15 version)
    (hd1 : s1.inData = bytes "GET " ++ target ++ bytes " " ++ version ++ bytes "\r\n" ++ rest)
    (hd2 : s2.inData = bytes "GET " ++ target ++ bytes " " ++ version ++ bytes "\r\n" ++ rest)
    (hw : s1.wire = s2.wire) :
    ((split_query target).1 ≠ bytes "/time" ∨ cstr c1 = cstr c2 →
        wire_after s1 c1 = wire_after s2 c2)
      ∧ ((split_query target).1 = bytes "/time" →
          (cstr c1).length ≤ 1009 → (cstr c2).length ≤ 1009 →
          (wire_after s1 c1 = wire_after s2 c2 ↔ cstr c1 = cstr c2)) := by
  have e1 : bytes "GET " = bytes "GET" ++ [32] := by decide
  have e2 : bytes " " = [32] := by decide
  have e3 : bytes "\r\n" = [13, 10] := by decide
  have hs1 : s1.inData = bytes "GET" ++ 32 :: (target ++ 32 :: (version ++ 13 :: 10 :: rest)) := by
    rw [hd1, e1, e2, e3]; simp
  have hs2 : s2.inData = bytes "GET" ++ 32 :: (target ++ 32 :: (version ++ 13 :: 10 :: rest)) := by
    rw [hd2, e1, e2, e3]; simp
  obtain ⟨t1, a1, a2⟩ := get_request_spec s1 target version rest c1 hacc1 htarget hversion hs1
  obtain ⟨t2, b1, b2⟩ := get_request_spec s2 target version rest c2 hacc2 htarget hversion hs2
  have hif : (split_query target).1 ≠ bytes "/time" ∨ cstr c1 = cstr c2 →
      wire_after s1 c1 = wire_after s2 c2 := by
    intro hclock
    unfold wire_after
    rw [a1, b1, Option.map_some', Option.map_some', a2, b2, hw,
      get_body_clock _ _ c1 c2 hclock]
  refine ⟨hif, ?_⟩
  intro hpath hl1 hl2
  constructor
  · intro heq
    unfold wire_after at heq
    rw [a1, b1, Option.map_some', Option.map_some', a2, b2, hw] at heq
    have h3 := ok_response_inj _ _ (List.append_cancel_left (Option.some.inj heq))
    rw [hpath, get_body_time _ c1 hl1, get_body_time _ c2 hl2] at h3
    exact List.append_cancel_left h3
  · intro hc
    exact hif (Or.inr hc)

theorem same_get_same_answer_witness :
    (wire_after (client (bytes "GET /time?a=b HTTP/1.1\r\nHost: h\r\n\r\n") [1, 2, 3])
        (bytes "Thu Jan  1 00:00:00 1970\n")
      = wire_after (client (bytes "GET /time?a=b HTTP/1.1\r\nHost: h\r\n\r\n") [40])
        (bytes "Fri Jan  2 00:00:00 1970\n")
      ↔ cstr (bytes "Thu Jan  1 00:00:00 1970\n") = cstr (bytes "Fri Jan  2 00:00:00 1970\n"))
    ∧ ((split_query (bytes "/nowhere?a=b")).1 ≠ bytes "/time"
          ∨ cstr (bytes "Thu Jan  1 00:00:00 1970\n") = cstr (bytes "Fri Jan  2 00:00:00 1970\n") →
        wire_after (client (bytes "GET /nowhere?a=b HTTP/1.1\r\nHost: h\r\n\r\n") [1, 2, 3])
          (bytes "Thu Jan  1 00:00:00 1970\n")
        = wire_after (client (bytes "GET /nowhere?a=b HTTP/1.1\r\nHost: h\r\n\r\n") [40])
          (bytes "Fri Jan  2 00:00:00 1970\n")) :=
  ⟨(same_get_same_answer (client (bytes "GET /time?a=b HTTP/1.1\r\nHost: h\r\n\r\n") [1, 2, 3])
      (client (bytes "GET /time?a=b HTTP/1.1\r\nHost: h\r\n\r\n") [40])
      (bytes "/time?a=b") (bytes "HTTP/1.1") (bytes "Host: h\r\n\r\n")
      (bytes "Thu Jan  1 00:00:00 1970\n") (bytes "Fri Jan  2 00:00:00 1970\n")
      (by decide) (by decide) (by decide) (by decide) (by decide) (by decide) (by decide)).2
      (by decide) (by decide) (by decide),
    (same_get_same_answer (client (bytes "GET /nowhere?a=b HTTP/1.1\r\nHost: h\r\n\r\n") [1, 2, 3])
      (client (bytes "GET /nowhere?a=b HTTP/1.1\r\nHost: h\r\n\r\n") [40])
      (bytes "/nowhere?a=b") (bytes "HTTP/1.1") (bytes "Host: h\r\n\r\n")
      (bytes "Thu Jan  1 00:00:00 1970\n") (bytes "Fri Jan  2 00:00:00 1970\n")
      (by decide) (by decide) (by decide) (by decide) (by decide) (by decide) (by decide)).1⟩

end HttpServer
